import Mathlib

/-!
Shallow embedding of the Brick-Journey "Brick Proliferates" fill-program
engine (the p5 sketch `proliferationSketch`): the grid model, the seven
fill programs (ScanByLine, ScanBySpiral, ScanByDiagonal, ScanByRadiation,
SwipeByLine, SwipeByDiagonal, SwipeByRadiation), and the per-frame
scheduler with its freeze / color-mode cycle.

Embedding conventions:
* The grid (`number[][]` in the source) is a total function `ℤ → ℤ → ℕ`;
  `updateGridCell` performs the same defensive bounds check as the source
  (`gridState[row] && gridState[row][col] !== undefined`), so out-of-range
  writes are no-ops.  Only cells inside `[0,rows) × [0,cols)` are ever read.
* The source constant `ANIMATION_SPEED` equals `1`; with that value the
  `frameCounter` field only ever holds integers, so it is embedded as `ℤ`
  while keeping the throttle arithmetic (`+= ANIMATION_SPEED`,
  `< 1`, `%= 1`) verbatim.
* `SwipeByRadiationProgram.currentAngle` is only ever changed by
  `± angleStep` (`Math.PI / 12`) and compared against `± 2π`; under exact
  real arithmetic it is always an integer multiple of `π/12`, so the angle
  is embedded as that integer multiple (`24` units per full turn), and the
  JavaScript remainder (sign of the dividend) becomes `Int.tmod`.
* The `atan2`-based assignment of grid cells to the 24 radial rays, and the
  floating-point rasterisation `getLinePositions`, are abstracted as
  function parameters (`rayOf`, `lineOf`); every theorem about the
  radiation programs is universally quantified over them.  Sorting a ray by
  euclidean distance from the center is embedded as sorting by squared
  distance, an identical order since `sqrt` is strictly monotone.
* JavaScript `Array.prototype.sort` is embedded as `List.mergeSort`; no
  claim below depends on how distance ties are ordered.
-/

namespace Prolif

/-- Source: `const CELL_CLAY = 0`. -/
def CELL_CLAY : ℕ := 0

/-- Source: `const CELL_BRICK = 1`. -/
def CELL_BRICK : ℕ := 1

/-- Source: `const ANIMATION_SPEED = 1` (see the embedding conventions). -/
def ANIMATION_SPEED : ℤ := 1

/-- Source: `const FREEZE_DURATION = 20`. -/
def FREEZE_DURATION : ℕ := 20

/-- A grid cell address `(row, col)`. -/
abbrev Pos := ℤ × ℤ

/-- The cell-state grid, total over ℤ×ℤ addresses (see conventions). -/
def Grid := ℤ → ℤ → ℕ

/-- `(r, c)` is a real cell of a `rows × cols` grid. -/
def InBounds (rows cols : ℕ) (p : Pos) : Prop :=
  0 ≤ p.1 ∧ p.1 < (rows : ℤ) ∧ 0 ≤ p.2 ∧ p.2 < (cols : ℤ)

instance (rows cols : ℕ) (p : Pos) : Decidable (InBounds rows cols p) := by
  unfold InBounds; infer_instance

/-- Source `updateGridCell`: write `value` at `(row,col)`, a no-op when the
address is outside the allocated `rows × cols` array. -/
def updateGridCell (rows cols : ℕ) (row col : ℤ) (value : ℕ) (g : Grid) : Grid :=
  fun r c => if r = row ∧ c = col ∧ InBounds rows cols (row, col) then value else g r c

/-- All cells of the grid in row-major order (the order of every
`for r { for c ... } }` loop of the source). -/
def gridCells (rows cols : ℕ) : List Pos :=
  (List.range rows).flatMap fun (r : ℕ) =>
    (List.range cols).map fun (c : ℕ) => ((r : ℤ), (c : ℤ))

/-- Writing one uniform value at every position of a list (the shape of the
source's full-row / full-column / full-diagonal / full-ray paint loops and
of `drawLine` / `clearLine`). -/
def paintList (rows cols : ℕ) (v : ℕ) (ps : List Pos) (g : Grid) : Grid :=
  ps.foldl (fun g p => updateGridCell rows cols p.1 p.2 v g) g

/-- The clay-reset loop shared by every program's `reset()`. -/
def clearGrid (rows cols : ℕ) (g : Grid) : Grid :=
  paintList rows cols CELL_CLAY (gridCells rows cols) g

/-- Every real cell of the grid holds the value `v`. -/
def allCellsEq (rows cols : ℕ) (v : ℕ) (g : Grid) : Prop :=
  ∀ p ∈ gridCells rows cols, g p.1 p.2 = v

instance (rows cols v : ℕ) (g : Grid) : Decidable (allCellsEq rows cols v g) := by
  unfold allCellsEq; infer_instance

/-- Number of BRICK cells of the grid. -/
def brickCount (rows cols : ℕ) (g : Grid) : ℕ :=
  (gridCells rows cols).countP fun p => g p.1 p.2 == CELL_BRICK

/-- Every real cell holds one of the two legal cell states. -/
def cellsLegal (rows cols : ℕ) (g : Grid) : Prop :=
  ∀ p ∈ gridCells rows cols, g p.1 p.2 = CELL_CLAY ∨ g p.1 p.2 = CELL_BRICK

theorem gridCells_eq_product (rows cols : ℕ) :
    gridCells rows cols
      = ((List.range rows) ×ˢ (List.range cols)).map
          fun q => ((q.1 : ℤ), (q.2 : ℤ)) := by
  show gridCells rows cols = ((List.range rows).product (List.range cols)).map _
  unfold gridCells List.product
  rw [List.map_flatMap]
  congr 1
  funext a
  rw [List.map_map]
  rfl

theorem castPair_injective :
    Function.Injective (fun q : ℕ × ℕ => ((q.1 : ℤ), (q.2 : ℤ))) := by
  rintro ⟨a, b⟩ ⟨c, d⟩ h
  simp only [Prod.mk.injEq] at h
  obtain ⟨h1, h2⟩ := h
  have : a = c := by exact_mod_cast h1
  have : b = d := by exact_mod_cast h2
  simp_all

theorem mem_gridCells {rows cols : ℕ} {p : Pos} :
    p ∈ gridCells rows cols ↔ InBounds rows cols p := by
  obtain ⟨r, c⟩ := p
  rw [gridCells_eq_product]
  simp only [List.mem_map, InBounds]
  constructor
  · rintro ⟨⟨a, b⟩, hq, heq⟩
    obtain ⟨ha, hb⟩ := List.pair_mem_product.mp hq
    rw [List.mem_range] at ha hb
    obtain ⟨h1, h2⟩ := Prod.mk.injEq .. |>.mp heq
    subst h1; subst h2
    exact ⟨by omega, by omega, by omega, by omega⟩
  · rintro ⟨h1, h2, h3, h4⟩
    refine ⟨(r.toNat, c.toNat), ?_, ?_⟩
    · exact List.pair_mem_product.mpr
        ⟨List.mem_range.mpr (by omega), List.mem_range.mpr (by omega)⟩
    · simp [Int.toNat_of_nonneg h1, Int.toNat_of_nonneg h3]

theorem nodup_gridCells (rows cols : ℕ) : (gridCells rows cols).Nodup := by
  rw [gridCells_eq_product]
  exact ((List.nodup_range rows).product (List.nodup_range cols)).map castPair_injective

theorem length_gridCells (rows cols : ℕ) : (gridCells rows cols).length = rows * cols := by
  rw [gridCells_eq_product, List.length_map, List.length_product,
    List.length_range, List.length_range]

/-- Multiplicity of the coordinate `p` in a path. -/
def countPos (p : Pos) (l : List Pos) : ℕ :=
  l.countP fun q => decide (q = p)

theorem countPos_nil (p : Pos) : countPos p [] = 0 := rfl

theorem countPos_append (p : Pos) (l₁ l₂ : List Pos) :
    countPos p (l₁ ++ l₂) = countPos p l₁ + countPos p l₂ :=
  List.countP_append _ _ _

theorem countPos_eq_zero_of_not_mem {p : Pos} {l : List Pos} (h : p ∉ l) :
    countPos p l = 0 :=
  List.countP_eq_zero.mpr fun a ha hq => h (by
    have : a = p := of_decide_eq_true hq
    exact this ▸ ha)

theorem countPos_eq_one_of_nodup_mem {l : List Pos} {p : Pos}
    (h : l.Nodup) (hm : p ∈ l) : countPos p l = 1 := by
  induction l with
  | nil => cases hm
  | cons a l ih =>
    obtain ⟨hal, hnd⟩ := List.nodup_cons.mp h
    rw [countPos, List.countP_cons]
    rcases List.mem_cons.mp hm with rfl | hmem
    · have h0 : countPos p l = 0 := countPos_eq_zero_of_not_mem hal
      rw [countPos] at h0
      simp [h0]
    · have h1 : countPos p l = 1 := ih hnd hmem
      rw [countPos] at h1
      have hne : ¬ a = p := fun hc => hal (hc ▸ hmem)
      simp [h1, hne]

theorem countPos_pos_of_mem {l : List Pos} {p : Pos} (hm : p ∈ l) :
    0 < countPos p l := by
  rw [countPos, List.countP_pos_iff]
  exact ⟨p, hm, by simp⟩

theorem mem_of_countPos_pos {l : List Pos} {p : Pos} (h : 0 < countPos p l) :
    p ∈ l := by
  rw [countPos, List.countP_pos_iff] at h
  obtain ⟨a, ha, hq⟩ := h
  have : a = p := of_decide_eq_true hq
  exact this ▸ ha

theorem count_gridCells_of_mem {rows cols : ℕ} {p : Pos} (h : p ∈ gridCells rows cols) :
    countPos p (gridCells rows cols) = 1 :=
  countPos_eq_one_of_nodup_mem (nodup_gridCells rows cols) h

theorem updateGridCell_apply_same {rows cols : ℕ} {row col : ℤ} {v : ℕ} {g : Grid}
    (h : InBounds rows cols (row, col)) :
    updateGridCell rows cols row col v g row col = v := by
  simp [updateGridCell, h]

theorem updateGridCell_apply_other {rows cols : ℕ} {row col r c : ℤ} {v : ℕ} {g : Grid}
    (h : ¬(r = row ∧ c = col)) :
    updateGridCell rows cols row col v g r c = g r c := by
  simp only [updateGridCell]
  rw [if_neg]
  intro hc
  exact h ⟨hc.1, hc.2.1⟩

theorem updateGridCell_apply_out {rows cols : ℕ} {row col r c : ℤ} {v : ℕ} {g : Grid}
    (h : ¬ InBounds rows cols (row, col)) :
    updateGridCell rows cols row col v g r c = g r c := by
  simp only [updateGridCell]
  rw [if_neg]
  intro hc
  exact h hc.2.2

theorem paintList_apply (rows cols : ℕ) (v : ℕ) (ps : List Pos) (g : Grid) (r c : ℤ) :
    paintList rows cols v ps g r c =
      if (r, c) ∈ ps ∧ InBounds rows cols (r, c) then v else g r c := by
  induction ps generalizing g with
  | nil => simp [paintList]
  | cons p ps ih =>
    simp only [paintList, List.foldl_cons] at *
    rw [ih]
    by_cases hmem : (r, c) ∈ ps ∧ InBounds rows cols (r, c)
    · rw [if_pos hmem, if_pos ⟨List.mem_cons_of_mem _ hmem.1, hmem.2⟩]
    · rw [if_neg hmem]
      by_cases hp : (r, c) = p ∧ InBounds rows cols (r, c)
      · obtain ⟨rfl, hb⟩ := hp
        rw [if_pos ⟨List.mem_cons_self _ _, hb⟩, updateGridCell_apply_same hb]
      · have hne : ¬((r, c) ∈ p :: ps ∧ InBounds rows cols (r, c)) := by
          rintro ⟨hmem', hb⟩
          rcases List.mem_cons.mp hmem' with h | h
          · exact hp ⟨h, hb⟩
          · exact hmem ⟨h, hb⟩
        rw [if_neg hne]
        rcases Decidable.em (InBounds rows cols (r, c)) with hb | hb
        · apply updateGridCell_apply_other
          rintro ⟨rfl, rfl⟩
          exact hp ⟨rfl, hb⟩
        · by_cases hpb : InBounds rows cols (p.1, p.2)
          · apply updateGridCell_apply_other
            rintro ⟨rfl, rfl⟩
            exact hb hpb
          · exact updateGridCell_apply_out hpb

theorem clearGrid_apply (rows cols : ℕ) (g : Grid) (r c : ℤ) :
    clearGrid rows cols g r c =
      if InBounds rows cols (r, c) then CELL_CLAY else g r c := by
  rw [clearGrid, paintList_apply]
  by_cases h : InBounds rows cols (r, c)
  · rw [if_pos ⟨mem_gridCells.mpr h, h⟩, if_pos h]
  · rw [if_neg (fun hc => h hc.2), if_neg h]

theorem brickCount_le (rows cols : ℕ) (g : Grid) :
    brickCount rows cols g ≤ rows * cols := by
  rw [brickCount, ← length_gridCells rows cols]
  exact List.countP_le_length _

theorem allBrick_of_brickCount_eq {rows cols : ℕ} {g : Grid}
    (h : brickCount rows cols g = rows * cols) :
    allCellsEq rows cols CELL_BRICK g := by
  intro p hp
  have hlen : (gridCells rows cols).countP (fun p => g p.1 p.2 == CELL_BRICK)
      = (gridCells rows cols).length := by
    rw [length_gridCells]; exact h
  have := List.countP_eq_length.mp hlen p hp
  simpa using this

/-! ### Generic iteration machinery

`runsteps step n c` is `n` calls of a program's `update()` starting from
configuration `c`; the lemmas below turn a per-step invariant plus a
decreasing measure into a termination bound, exactly as used for each of
the seven programs. -/

theorem iterate_fixed {α : Type*} {step : α → α} {c : α} (h : step c = c) :
    ∀ n, step^[n] c = c := by
  intro n
  induction n with
  | zero => rfl
  | succ n ih => rw [Function.iterate_succ_apply, h, ih]

theorem done_iterate {α : Type*} (step : α → α) (done : α → Bool)
    (hstop : ∀ c, done c = true → step c = c) :
    ∀ (n : ℕ) (c : α), done c = true → done (step^[n] c) = true := by
  intro n c h
  rw [iterate_fixed (hstop c h)]
  exact h

theorem done_mono {α : Type*} (step : α → α) (done : α → Bool)
    (hstop : ∀ c, done c = true → step c = c)
    {m n : ℕ} (hmn : m ≤ n) {c : α} (h : done (step^[m] c) = true) :
    done (step^[n] c) = true := by
  have : step^[n] c = step^[n - m] (step^[m] c) := by
    rw [← Function.iterate_add_apply]
    congr 1
    omega
  rw [this]
  exact done_iterate step done hstop _ _ h

theorem done_within_measure {α : Type*} (step : α → α) (done : α → Bool)
    (inv : α → Prop) (μ : α → ℕ)
    (hinv : ∀ c, inv c → inv (step c))
    (hdec : ∀ c, inv c → done c = false → μ (step c) < μ c)
    (hstop : ∀ c, done c = true → step c = c) :
    ∀ (n : ℕ) (c : α), inv c → μ c ≤ n → done (step^[n] c) = true := by
  intro n
  induction n with
  | zero =>
    intro c hc hμ
    rcases hb : done c with _ | _
    · exact absurd (Nat.lt_of_lt_of_le (hdec c hc hb) hμ) (Nat.not_lt_zero _)
    · exact hb
  | succ n ih =>
    intro c hc hμ
    rcases hb : done c with _ | _
    · rw [Function.iterate_succ_apply]
      exact ih (step c) (hinv c hc) (by
        have := hdec c hc hb
        omega)
    · exact done_iterate step done hstop _ _ hb

theorem inv_iterate {α : Type*} (step : α → α) (inv : α → Prop)
    (hinv : ∀ c, inv c → inv (step c)) :
    ∀ (n : ℕ) (c : α), inv c → inv (step^[n] c) := by
  intro n
  induction n with
  | zero => intro c hc; exact hc
  | succ n ih =>
    intro c hc
    rw [Function.iterate_succ_apply]
    exact ih _ (hinv c hc)

/-! ### ScanByLineProgram -/

namespace ScanByLine

/-- Mutable fields of `ScanByLineProgram`
(phases: 0 initial, 1 horizontal, 2 vertical, 3 fill, 4 done). -/
structure State where
  phase : ℕ
  currentRow : ℤ
  currentCol : ℤ
  lastBrickPos : Option Pos
  fillCounter : ℕ
  frameCounter : ℤ
deriving DecidableEq

/-- `isDone()`. -/
def isDone (s : State) : Bool := s.phase == 4

/-- Erasing the previously painted highlight cell
(`if (this.lastBrickPos) updateGridState(..., CELL_CLAY)`). -/
def eraseLast (rows cols : ℕ) (lp : Option Pos) (g : Grid) : Grid :=
  match lp with
  | some p => updateGridCell rows cols p.1 p.2 CELL_CLAY g
  | none => g

/-- `update()` case 1: horizontal scan. -/
def hscanStep (rows cols : ℕ) (s : State) (g : Grid) : State × Grid :=
  let g := eraseLast rows cols s.lastBrickPos g
  let g := updateGridCell rows cols s.currentRow s.currentCol CELL_BRICK g
  let lp : Option Pos := some (s.currentRow, s.currentCol)
  let col' := s.currentCol + 1
  if col' ≥ (cols : ℤ) then
    let row' := s.currentRow + 1
    if row' ≥ (rows : ℤ) then
      -- horizontal scan done: clear the last brick, move to phase 2
      let g := updateGridCell rows cols s.currentRow s.currentCol CELL_CLAY g
      ({ s with phase := 2, currentRow := 0, currentCol := 0, lastBrickPos := none }, g)
    else
      ({ s with currentRow := row', currentCol := 0, lastBrickPos := lp }, g)
  else
    ({ s with currentCol := col', lastBrickPos := lp }, g)

/-- `update()` case 2: vertical scan. -/
def vscanStep (rows cols : ℕ) (s : State) (g : Grid) : State × Grid :=
  let g := eraseLast rows cols s.lastBrickPos g
  let g := updateGridCell rows cols s.currentRow s.currentCol CELL_BRICK g
  let lp : Option Pos := some (s.currentRow, s.currentCol)
  let row' := s.currentRow + 1
  if row' ≥ (rows : ℤ) then
    let col' := s.currentCol + 1
    if col' ≥ (cols : ℤ) then
      -- vertical scan done: clear the last brick, move to phase 3
      let g := updateGridCell rows cols s.currentRow s.currentCol CELL_CLAY g
      ({ s with phase := 3, currentRow := 0, currentCol := 0, lastBrickPos := none,
                fillCounter := 0 }, g)
    else
      ({ s with currentRow := 0, currentCol := col', lastBrickPos := lp }, g)
  else
    ({ s with currentRow := row', lastBrickPos := lp }, g)

/-- `update()` case 3: convert the first CLAY cell in row-major order. -/
def fillStep (rows cols : ℕ) (s : State) (g : Grid) : State × Grid :=
  let found := (gridCells rows cols).find? fun p => g p.1 p.2 == CELL_CLAY
  let sg : State × Grid :=
    match found with
    | some p =>
      ({ s with fillCounter := s.fillCounter + 1 },
        updateGridCell rows cols p.1 p.2 CELL_BRICK g)
    | none => (s, g)
  if sg.1.fillCounter ≥ rows * cols then ({ sg.1 with phase := 4 }, sg.2) else sg

/-- `ScanByLineProgram.update()`. -/
def update (rows cols : ℕ) (c : State × Grid) : State × Grid :=
  if isDone c.1 then c
  else
    let fc := c.1.frameCounter + ANIMATION_SPEED
    if fc < 1 then ({ c.1 with frameCounter := fc }, c.2)
    else
      let s := { c.1 with frameCounter := fc % 1 }
      match s.phase with
      | 1 => hscanStep rows cols s c.2
      | 2 => vscanStep rows cols s c.2
      | 3 => fillStep rows cols s c.2
      | _ => (s, c.2)

/-- `ScanByLineProgram.reset()`: zero all fields, repaint the whole grid
CLAY, end in phase 1. -/
def reset (rows cols : ℕ) (c : State × Grid) : State × Grid :=
  (⟨1, 0, 0, none, 0, 0⟩, clearGrid rows cols c.2)

/-- The grid during a scan phase: all CLAY except the current highlight. -/
def scanGrid (rows cols : ℕ) (lp : Option Pos) (g : Grid) : Prop :=
  (∀ p ∈ gridCells rows cols,
      g p.1 p.2 = if lp = some p then CELL_BRICK else CELL_CLAY)
  ∧ ∀ q, lp = some q → InBounds rows cols q

/-- Reachable-state invariant of `ScanByLineProgram`. -/
def Inv (rows cols : ℕ) (c : State × Grid) : Prop :=
  (c.1.phase = 1 ∨ c.1.phase = 2 ∨ c.1.phase = 3 ∨ c.1.phase = 4)
  ∧ c.1.frameCounter = 0
  ∧ (c.1.phase = 1 ∨ c.1.phase = 2 →
      0 ≤ c.1.currentRow ∧ c.1.currentRow < (rows : ℤ)
      ∧ 0 ≤ c.1.currentCol ∧ c.1.currentCol < (cols : ℤ)
      ∧ scanGrid rows cols c.1.lastBrickPos c.2)
  ∧ (c.1.phase = 3 →
      c.1.fillCounter = brickCount rows cols c.2 ∧ cellsLegal rows cols c.2)
  ∧ (c.1.phase = 4 → allCellsEq rows cols CELL_BRICK c.2)

/-- Steps remaining until `isDone()`. -/
def meas (rows cols : ℕ) (c : State × Grid) : ℕ :=
  let N := rows * cols
  match c.1.phase with
  | 1 => (N - (c.1.currentRow.toNat * cols + c.1.currentCol.toNat)) + N + (N + 1)
  | 2 => (N - (c.1.currentCol.toNat * rows + c.1.currentRow.toNat)) + (N + 1)
  | 3 => (N - c.1.fillCounter) + 1
  | _ => 0

theorem update_done_line {rows cols : ℕ} {c : State × Grid} (h : isDone c.1 = true) :
    update rows cols c = c := by
  rw [update, if_pos h]

end ScanByLine

theorem updateGridCell_cases (rows cols : ℕ) (row col : ℤ) (v : ℕ) (g : Grid) (r c : ℤ) :
    updateGridCell rows cols row col v g r c = v ∨
      updateGridCell rows cols row col v g r c = g r c := by
  unfold updateGridCell
  split
  · exact Or.inl rfl
  · exact Or.inr rfl

theorem countP_update_list (l : List Pos) (p : Pos) (f g : Pos → Bool)
    (hagree : ∀ q ∈ l, q ≠ p → g q = f q) (hgp : g p = true) (hfp : f p = false) :
    l.countP g = l.countP f + countPos p l := by
  induction l with
  | nil => simp [countPos]
  | cons a l ih =>
    have ihl := ih fun q hq => hagree q (List.mem_cons_of_mem _ hq)
    unfold countPos at ihl ⊢
    rw [List.countP_cons, List.countP_cons, List.countP_cons, ihl]
    by_cases hap : a = p
    · subst hap
      rw [hgp, hfp]
      simp
      omega
    · rw [hagree a (List.mem_cons_self _ _) hap]
      have hd : (decide (a = p)) = false := by simp [hap]
      rw [hd]
      simp
      omega

theorem brickCount_allClay {rows cols : ℕ} {g : Grid}
    (h : allCellsEq rows cols CELL_CLAY g) : brickCount rows cols g = 0 := by
  rw [brickCount]
  apply List.countP_eq_zero.mpr
  intro a ha
  have := h a ha
  simp [this, CELL_CLAY, CELL_BRICK]

theorem brickCount_paint {rows cols : ℕ} {p : Pos} {g : Grid}
    (hb : InBounds rows cols p) (hc : g p.1 p.2 ≠ CELL_BRICK) :
    brickCount rows cols (updateGridCell rows cols p.1 p.2 CELL_BRICK g)
      = brickCount rows cols g + 1 := by
  have hcnt := count_gridCells_of_mem (mem_gridCells.mpr hb)
  rw [brickCount, brickCount,
    countP_update_list (gridCells rows cols) p _ _ ?_ ?_ ?_, hcnt]
  · intro q _ hqp
    apply congrArg (· == CELL_BRICK)
    apply updateGridCell_apply_other
    intro hcc
    exact hqp (Prod.ext hcc.1 hcc.2)
  · show (updateGridCell rows cols p.1 p.2 CELL_BRICK g p.1 p.2 == CELL_BRICK) = true
    rw [updateGridCell_apply_same (by
      obtain ⟨a, b⟩ := p
      exact hb)]
    simp
  · show (g p.1 p.2 == CELL_BRICK) = false
    simp [hc]

theorem cellsLegal_update {rows cols : ℕ} {row col : ℤ} {v : ℕ} {g : Grid}
    (hv : v = CELL_CLAY ∨ v = CELL_BRICK) (h : cellsLegal rows cols g) :
    cellsLegal rows cols (updateGridCell rows cols row col v g) := by
  intro p hp
  rcases updateGridCell_cases rows cols row col v g p.1 p.2 with he | he
  · rw [he]; exact hv
  · rw [he]; exact h p hp

theorem allBrick_of_legal_noclay {rows cols : ℕ} {g : Grid}
    (hleg : cellsLegal rows cols g)
    (h : ∀ p ∈ gridCells rows cols, ¬ g p.1 p.2 = CELL_CLAY) :
    allCellsEq rows cols CELL_BRICK g := by
  intro p hp
  rcases hleg p hp with hc | hb
  · exact absurd hc (h p hp)
  · exact hb

theorem allClay_legal {rows cols : ℕ} {g : Grid}
    (h : allCellsEq rows cols CELL_CLAY g) : cellsLegal rows cols g :=
  fun p hp => Or.inl (h p hp)

theorem brickCount_allBrick {rows cols : ℕ} {g : Grid}
    (h : allCellsEq rows cols CELL_BRICK g) : brickCount rows cols g = rows * cols := by
  rw [brickCount, ← length_gridCells rows cols]
  apply List.countP_eq_length.mpr
  intro a ha
  simp [h a ha]

namespace ScanByLine

theorem scanGrid_none {rows cols : ℕ} {g : Grid}
    (h : allCellsEq rows cols CELL_CLAY g) : scanGrid rows cols none g := by
  refine ⟨fun p hp => ?_, fun q hq => by cases hq⟩
  simp [h p hp]

theorem erase_all_clay {rows cols : ℕ} {lp : Option Pos} {g : Grid}
    (h : scanGrid rows cols lp g) :
    allCellsEq rows cols CELL_CLAY (eraseLast rows cols lp g) := by
  obtain ⟨hg, hbnd⟩ := h
  cases lp with
  | none =>
    intro p hp
    simpa using hg p hp
  | some q =>
    intro p hp
    by_cases hpq : p = q
    · subst hpq
      exact updateGridCell_apply_same (hbnd p rfl)
    · rw [eraseLast, updateGridCell_apply_other (by
        intro hcc
        exact hpq (Prod.ext hcc.1 hcc.2))]
      rw [hg p hp, if_neg (by
        intro hc
        exact hpq (Option.some.injEq .. |>.mp hc).symm)]

theorem paint_scanGrid {rows cols : ℕ} {r c : ℤ} {g : Grid}
    (hb : InBounds rows cols (r, c))
    (h : allCellsEq rows cols CELL_CLAY g) :
    scanGrid rows cols (some (r, c)) (updateGridCell rows cols r c CELL_BRICK g) := by
  refine ⟨fun p hp => ?_, fun q hq => by cases hq; exact hb⟩
  by_cases hpq : p = (r, c)
  · subst hpq
    rw [updateGridCell_apply_same hb, if_pos rfl]
  · rw [updateGridCell_apply_other (by
      intro hcc
      exact hpq (Prod.ext hcc.1 hcc.2))]
    rw [h p hp, if_neg (by
      intro hc
      exact hpq (Option.some.injEq .. |>.mp hc).symm)]

theorem unpaint_all_clay {rows cols : ℕ} {r c : ℤ} {g : Grid}
    (h : scanGrid rows cols (some (r, c)) g) :
    allCellsEq rows cols CELL_CLAY (updateGridCell rows cols r c CELL_CLAY g) := by
  exact @erase_all_clay rows cols (some (r, c)) _ h

theorem update_char_line (rows cols : ℕ) (s : State) (g : Grid)
    (hd : isDone s = false) (hf : s.frameCounter = 0) :
    update rows cols (s, g) =
      match s.phase with
      | 1 => hscanStep rows cols s g
      | 2 => vscanStep rows cols s g
      | 3 => fillStep rows cols s g
      | _ => (s, g) := by
  have h1 : ¬ (isDone s = true) := by simp [hd]
  have hs : { s with frameCounter := (s.frameCounter + ANIMATION_SPEED) % 1 } = s := by
    cases s
    simp_all [ANIMATION_SPEED]
  rw [update, if_neg h1, if_neg (by rw [hf]; norm_num [ANIMATION_SPEED]), hs]

theorem update_phase1_line {rows cols : ℕ} {s : State} {g : Grid}
    (hp : s.phase = 1) (hf : s.frameCounter = 0) :
    update rows cols (s, g) = hscanStep rows cols s g := by
  rw [update_char_line rows cols s g (by simp [isDone, hp]) hf, hp]

theorem update_phase2_line {rows cols : ℕ} {s : State} {g : Grid}
    (hp : s.phase = 2) (hf : s.frameCounter = 0) :
    update rows cols (s, g) = vscanStep rows cols s g := by
  rw [update_char_line rows cols s g (by simp [isDone, hp]) hf, hp]

theorem update_phase3_line {rows cols : ℕ} {s : State} {g : Grid}
    (hp : s.phase = 3) (hf : s.frameCounter = 0) :
    update rows cols (s, g) = fillStep rows cols s g := by
  rw [update_char_line rows cols s g (by simp [isDone, hp]) hf, hp]

end ScanByLine


namespace ScanByLine

theorem inv_step_line (rows cols : ℕ) (c : State × Grid) (h : Inv rows cols c) :
    Inv rows cols (update rows cols c) := by
  obtain ⟨s, g⟩ := c
  obtain ⟨hph, hf, hscan, hfill, hdone⟩ := h
  dsimp only at hph hf hscan hfill hdone
  rcases hph with hp | hp | hp | hp
  · -- phase 1: horizontal scan
    rw [update_phase1_line hp hf]
    obtain ⟨hr0, hrlt, hc0, hclt, hsg⟩ := hscan (Or.inl hp)
    have hclay1 : allCellsEq rows cols CELL_CLAY (eraseLast rows cols s.lastBrickPos g) :=
      erase_all_clay hsg
    have hbnd : InBounds rows cols (s.currentRow, s.currentCol) := ⟨hr0, hrlt, hc0, hclt⟩
    have hsg2 := paint_scanGrid hbnd hclay1
    simp only [hscanStep]
    split_ifs with hcol hrow
    · -- column and row overflow: transition to phase 2
      have hclay3 := unpaint_all_clay hsg2
      refine ⟨Or.inr (Or.inl rfl), ?_, ?_, ?_, ?_⟩
      · dsimp only
        exact hf
      · intro _
        dsimp only
        exact ⟨le_refl 0, by omega, le_refl 0, by omega, scanGrid_none hclay3⟩
      · intro hcon
        dsimp only at hcon
        omega
      · intro hcon
        dsimp only at hcon
        omega
    · -- column overflow only: next row
      refine ⟨Or.inl hp, ?_, ?_, ?_, ?_⟩
      · dsimp only
        exact hf
      · intro _
        dsimp only
        exact ⟨by omega, by omega, by omega, by omega, hsg2⟩
      · intro hcon
        dsimp only at hcon
        omega
      · intro hcon
        dsimp only at hcon
        omega
    · -- plain step: next column
      refine ⟨Or.inl hp, ?_, ?_, ?_, ?_⟩
      · dsimp only
        exact hf
      · intro _
        dsimp only
        exact ⟨by omega, by omega, by omega, by omega, hsg2⟩
      · intro hcon
        dsimp only at hcon
        omega
      · intro hcon
        dsimp only at hcon
        omega
  · -- phase 2: vertical scan
    rw [update_phase2_line hp hf]
    obtain ⟨hr0, hrlt, hc0, hclt, hsg⟩ := hscan (Or.inr hp)
    have hclay1 : allCellsEq rows cols CELL_CLAY (eraseLast rows cols s.lastBrickPos g) :=
      erase_all_clay hsg
    have hbnd : InBounds rows cols (s.currentRow, s.currentCol) := ⟨hr0, hrlt, hc0, hclt⟩
    have hsg2 := paint_scanGrid hbnd hclay1
    simp only [vscanStep]
    split_ifs with hrow hcol
    · -- row and column overflow: transition to phase 3
      have hclay3 := unpaint_all_clay hsg2
      refine ⟨Or.inr (Or.inr (Or.inl rfl)), ?_, ?_, ?_, ?_⟩
      · dsimp only
        exact hf
      · intro hcon
        dsimp only at hcon
        omega
      · intro _
        dsimp only
        exact ⟨(brickCount_allClay hclay3).symm, allClay_legal hclay3⟩
      · intro hcon
        dsimp only at hcon
        omega
    · -- row overflow only: next column
      refine ⟨Or.inr (Or.inl hp), ?_, ?_, ?_, ?_⟩
      · dsimp only
        exact hf
      · intro _
        dsimp only
        exact ⟨by omega, by omega, by omega, by omega, hsg2⟩
      · intro hcon
        dsimp only at hcon
        omega
      · intro hcon
        dsimp only at hcon
        omega
    · -- plain step: next row
      refine ⟨Or.inr (Or.inl hp), ?_, ?_, ?_, ?_⟩
      · dsimp only
        exact hf
      · intro _
        dsimp only
        exact ⟨by omega, by omega, by omega, by omega, hsg2⟩
      · intro hcon
        dsimp only at hcon
        omega
      · intro hcon
        dsimp only at hcon
        omega
  · -- phase 3: fill
    rw [update_phase3_line hp hf]
    obtain ⟨hbc, hleg⟩ := hfill hp
    simp only [fillStep]
    cases hfind : (gridCells rows cols).find? (fun p => g p.1 p.2 == CELL_CLAY) with
    | some p =>
      have hpmem : p ∈ gridCells rows cols := List.mem_of_find?_eq_some hfind
      have hpc : g p.1 p.2 = CELL_CLAY := by
        have := List.find?_some hfind
        simpa using this
      have hnb : g p.1 p.2 ≠ CELL_BRICK := by rw [hpc]; simp [CELL_CLAY, CELL_BRICK]
      have hbc2 : brickCount rows cols (updateGridCell rows cols p.1 p.2 CELL_BRICK g)
          = brickCount rows cols g + 1 := brickCount_paint (mem_gridCells.mp hpmem) hnb
      have hleg2 : cellsLegal rows cols (updateGridCell rows cols p.1 p.2 CELL_BRICK g) :=
        cellsLegal_update (Or.inr rfl) hleg
      split_ifs with hge
      · -- conversion completes the fill: phase 4, all BRICK
        dsimp only at hge
        have hle := brickCount_le rows cols (updateGridCell rows cols p.1 p.2 CELL_BRICK g)
        have hEq : brickCount rows cols (updateGridCell rows cols p.1 p.2 CELL_BRICK g)
            = rows * cols := by omega
        refine ⟨Or.inr (Or.inr (Or.inr rfl)), ?_, ?_, ?_, ?_⟩
        · dsimp only
          exact hf
        · intro hcon
          dsimp only at hcon
          rcases hcon with hcon | hcon <;> omega
        · intro hcon
          dsimp only at hcon
          omega
        · intro _
          exact allBrick_of_brickCount_eq hEq
      · refine ⟨Or.inr (Or.inr (Or.inl hp)), ?_, ?_, ?_, ?_⟩
        · dsimp only
          exact hf
        · intro hcon
          dsimp only at hcon
          rcases hcon with hcon | hcon <;> omega
        · intro _
          dsimp only
          refine ⟨?_, hleg2⟩
          rw [hbc2, hbc]
        · intro hcon
          dsimp only at hcon
          omega
    | none =>
      have hnoclay : ∀ q ∈ gridCells rows cols, ¬ g q.1 q.2 = CELL_CLAY := by
        intro q hq
        have := List.find?_eq_none.mp hfind q hq
        simpa using this
      have hbrick : allCellsEq rows cols CELL_BRICK g :=
        allBrick_of_legal_noclay hleg hnoclay
      have hN : brickCount rows cols g = rows * cols := brickCount_allBrick hbrick
      split_ifs with hge
      · refine ⟨Or.inr (Or.inr (Or.inr rfl)), ?_, ?_, ?_, ?_⟩
        · dsimp only
          exact hf
        · intro hcon
          dsimp only at hcon
          rcases hcon with hcon | hcon <;> omega
        · intro hcon
          dsimp only at hcon
          omega
        · intro _
          exact hbrick
      · exact absurd (by omega : s.fillCounter ≥ rows * cols) hge
  · -- phase 4: done, update is the identity
    rw [update_done_line (by simp [isDone, hp])]
    refine ⟨Or.inr (Or.inr (Or.inr hp)), hf, ?_, ?_, ?_⟩
    · intro hcon
      dsimp only at hcon
      omega
    · intro hcon
      dsimp only at hcon
      omega
    · intro _
      exact hdone hp

end ScanByLine

namespace ScanByLine

theorem rowMajorIdx_lt {rows cols : ℕ} {r c : ℤ}
    (hr0 : 0 ≤ r) (hr : r < (rows : ℤ)) (hc0 : 0 ≤ c) (hc : c < (cols : ℤ)) :
    r.toNat * cols + c.toNat < rows * cols := by
  have h1 : r.toNat ≤ rows - 1 := by omega
  have h2 : r.toNat * cols ≤ (rows - 1) * cols := Nat.mul_le_mul_right _ h1
  have h3 : (rows - 1) * cols = rows * cols - 1 * cols := Nat.sub_mul rows 1 cols
  have h5 : cols ≤ rows * cols := by
    calc cols = 1 * cols := (one_mul cols).symm
    _ ≤ rows * cols := Nat.mul_le_mul_right _ (by omega)
  omega

theorem succRowIdx {r : ℤ} (hr0 : 0 ≤ r) (cols : ℕ) :
    (r + 1).toNat * cols = r.toNat * cols + cols := by
  have h : (r + 1).toNat = r.toNat + 1 := by omega
  rw [h, Nat.succ_mul]

theorem meas_dec_line (rows cols : ℕ) (c : State × Grid)
    (h : Inv rows cols c) (hd : isDone c.1 = false) :
    meas rows cols (update rows cols c) < meas rows cols c := by
  obtain ⟨s, g⟩ := c
  obtain ⟨hph, hf, hscan, hfill, hdone⟩ := h
  dsimp only at hph hf hscan hfill hdone hd
  rcases hph with hp | hp | hp | hp
  · -- phase 1
    rw [update_phase1_line hp hf]
    obtain ⟨hr0, hrlt, hc0, hclt, hsg⟩ := hscan (Or.inl hp)
    have hidx := rowMajorIdx_lt hr0 hrlt hc0 hclt
    simp only [hscanStep]
    split_ifs with hcol hrow
    · simp only [meas, hp]
      omega
    · have hstep := succRowIdx hr0 cols
      have hceq : s.currentCol.toNat = cols - 1 := by omega
      simp only [meas, hp]
      omega
    · simp only [meas, hp]
      have h1 : (s.currentCol + 1).toNat = s.currentCol.toNat + 1 := by omega
      omega
  · -- phase 2
    rw [update_phase2_line hp hf]
    obtain ⟨hr0, hrlt, hc0, hclt, hsg⟩ := hscan (Or.inr hp)
    have hidx := rowMajorIdx_lt hc0 hclt hr0 hrlt
    have hcomm := Nat.mul_comm cols rows
    simp only [vscanStep]
    split_ifs with hrow hcol
    · simp only [meas, hp]
      omega
    · have hstep := succRowIdx hc0 rows
      have hreq : s.currentRow.toNat = rows - 1 := by omega
      simp only [meas, hp]
      omega
    · simp only [meas, hp]
      have h1 : (s.currentRow + 1).toNat = s.currentRow.toNat + 1 := by omega
      omega
  · -- phase 3
    rw [update_phase3_line hp hf]
    obtain ⟨hbc, hleg⟩ := hfill hp
    simp only [fillStep]
    cases hfind : (gridCells rows cols).find? (fun p => g p.1 p.2 == CELL_CLAY) with
    | some p =>
      have hpmem : p ∈ gridCells rows cols := List.mem_of_find?_eq_some hfind
      have hpc : g p.1 p.2 = CELL_CLAY := by
        have := List.find?_some hfind
        simpa using this
      -- a CLAY cell exists, so the brick count is below rows*cols
      have hlt : brickCount rows cols g < rows * cols := by
        rcases Nat.lt_or_ge (brickCount rows cols g) (rows * cols) with hlt | hge2
        · exact hlt
        · have hEq : brickCount rows cols g = rows * cols := by
            have := brickCount_le rows cols g
            omega
          have := allBrick_of_brickCount_eq hEq p hpmem
          rw [hpc] at this
          simp [CELL_CLAY, CELL_BRICK] at this
      split_ifs with hge
      · simp only [meas, hp]
        omega
      · simp only [meas, hp]
        omega
    | none =>
      have hnoclay : ∀ q ∈ gridCells rows cols, ¬ g q.1 q.2 = CELL_CLAY := by
        intro q hq
        have := List.find?_eq_none.mp hfind q hq
        simpa using this
      have hN : brickCount rows cols g = rows * cols :=
        brickCount_allBrick (allBrick_of_legal_noclay hleg hnoclay)
      split_ifs with hge
      · simp only [meas, hp]
        omega
      · exact absurd (by omega : s.fillCounter ≥ rows * cols) hge
  · rw [isDone] at hd
    simp [hp] at hd

theorem inv_reset_line (rows cols : ℕ) (h1 : 1 ≤ rows) (h2 : 1 ≤ cols) (c : State × Grid) :
    Inv rows cols (reset rows cols c) := by
  have hclay : allCellsEq rows cols CELL_CLAY (clearGrid rows cols c.2) := by
    intro p hp
    rw [clearGrid_apply]
    rw [if_pos (mem_gridCells.mp hp)]
  refine ⟨Or.inl rfl, rfl, ?_, ?_, ?_⟩
  · intro _
    dsimp only [reset]
    exact ⟨le_refl 0, by omega, le_refl 0, by omega, scanGrid_none hclay⟩
  · intro hcon
    dsimp only [reset] at hcon
    omega
  · intro hcon
    dsimp only [reset] at hcon
    omega

theorem meas_reset_line (rows cols : ℕ) (c : State × Grid) :
    meas rows cols (reset rows cols c) = 3 * (rows * cols) + 1 := by
  simp [meas, reset]
  omega

/-- ScanByLine, arbitrary grid size: whenever `isDone()` holds after a run of
`update()` calls from `reset()`, the grid is entirely BRICK. -/
theorem done_allBrick_line (rows cols : ℕ) (c : State × Grid)
    (h1 : 1 ≤ rows) (h2 : 1 ≤ cols) (n : ℕ)
    (hd : isDone ((update rows cols)^[n] (reset rows cols c)).1 = true) :
    allCellsEq rows cols CELL_BRICK ((update rows cols)^[n] (reset rows cols c)).2 := by
  have hinv := inv_iterate (update rows cols) (Inv rows cols)
    (inv_step_line rows cols) n _ (inv_reset_line rows cols h1 h2 c)
  obtain ⟨hph, hf, hscan, hfill, hdone⟩ := hinv
  apply hdone
  rw [isDone] at hd
  simpa using hd

/-- ScanByLine, arbitrary grid size: done within `80 * rows * cols` updates. -/
theorem done_by_line (rows cols : ℕ) (c : State × Grid)
    (h1 : 1 ≤ rows) (h2 : 1 ≤ cols) :
    isDone ((update rows cols)^[80 * (rows * cols)] (reset rows cols c)).1 = true := by
  apply done_within_measure (update rows cols) (fun x => isDone x.1) (Inv rows cols)
    (meas rows cols) (inv_step_line rows cols) (meas_dec_line rows cols)
    (fun x hx => update_done_line hx)
  · exact inv_reset_line rows cols h1 h2 c
  · rw [meas_reset_line]
    have h3 : 1 ≤ rows * cols := Nat.one_le_iff_ne_zero.mpr (by positivity)
    omega

end ScanByLine

/-! ### The spiral path generator (`ScanBySpiralProgram.generateSpiralPath`) -/

namespace Spiral

/-- Loop state of `generateSpiralPath`: the visited list doubles as the
source's `visited` matrix (a cell is marked visited exactly when it has been
pushed, the start cell included). -/
structure SpState where
  positions : List Pos
  r : ℤ
  c : ℤ
  dirIndex : ℕ
  steps : ℕ
deriving DecidableEq

/-- The direction table right, down, left, up as `(dr, dc)`. -/
def spDir : ℕ → ℤ × ℤ
  | 0 => (0, 1)
  | 1 => (1, 0)
  | 2 => (0, -1)
  | _ => (-1, 0)

/-- One iteration of the inner `for j` loop: move one cell and record it when
it is an unvisited in-grid cell. -/
def cellStep (rows cols : ℕ) (st : SpState) : SpState :=
  let r := st.r + (spDir st.dirIndex).1
  let c := st.c + (spDir st.dirIndex).2
  if InBounds rows cols (r, c) ∧ (r, c) ∉ st.positions then
    { st with r := r, c := c, positions := st.positions ++ [(r, c)] }
  else
    { st with r := r, c := c }

/-- The inner `for j in 0..steps` loop. -/
def runSteps (rows cols : ℕ) : ℕ → SpState → SpState
  | 0, st => st
  | n + 1, st => runSteps rows cols n (cellStep rows cols st)

/-- One iteration of the `for i in 0..2` loop: walk `steps` cells, then turn
to the next direction. -/
def halfIter (rows cols : ℕ) (st : SpState) : SpState :=
  let st := runSteps rows cols st.steps st
  { st with dirIndex := (st.dirIndex + 1) % 4 }

/-- One iteration of the outer `while` loop body: two direction runs with the
same step count, then `steps++`. -/
def outerIter (rows cols : ℕ) (st : SpState) : SpState :=
  let st := halfIter rows cols (halfIter rows cols st)
  { st with steps := st.steps + 1 }

/-- The `while (spiralPositions.length < rows*cols)` loop, fuelled.  The fuel
used by `generateSpiralPath` is proved sufficient below. -/
def spiralLoop (rows cols : ℕ) : ℕ → SpState → SpState
  | 0, st => st
  | fuel + 1, st =>
    if st.positions.length < rows * cols then
      spiralLoop rows cols fuel (outerIter rows cols st)
    else st

/-- `const centerR = Math.max(0, Math.floor(this.rows / 2))`. -/
def centerR (rows : ℕ) : ℤ := max 0 ((rows : ℤ) / 2)

/-- `const centerC = Math.max(0, Math.floor(this.cols / 2) - 1)`. -/
def centerC (cols : ℕ) : ℤ := max 0 ((cols : ℤ) / 2 - 1)

/-- Start state: the center is pushed and marked visited, `dirIndex = 0`
(right), `steps = 1`. -/
def initState (rows cols : ℕ) : SpState :=
  ⟨[(centerR rows, centerC cols)], centerR rows, centerC cols, 0, 1⟩

/-- `ScanBySpiralProgram.generateSpiralPath`. -/
def generateSpiralPath (rows cols : ℕ) : List Pos :=
  (spiralLoop rows cols (2 * (rows + cols) + 4) (initState rows cols)).positions

theorem cellStep_r (rows cols : ℕ) (st : SpState) :
    (cellStep rows cols st).r = st.r + (spDir st.dirIndex).1 := by
  rw [cellStep]
  split <;> rfl

theorem cellStep_c (rows cols : ℕ) (st : SpState) :
    (cellStep rows cols st).c = st.c + (spDir st.dirIndex).2 := by
  rw [cellStep]
  split <;> rfl

theorem cellStep_dirIndex (rows cols : ℕ) (st : SpState) :
    (cellStep rows cols st).dirIndex = st.dirIndex := by
  rw [cellStep]
  split <;> rfl

theorem cellStep_steps (rows cols : ℕ) (st : SpState) :
    (cellStep rows cols st).steps = st.steps := by
  rw [cellStep]
  split <;> rfl

theorem cellStep_mem (rows cols : ℕ) (st : SpState) {p : Pos}
    (h : p ∈ st.positions) : p ∈ (cellStep rows cols st).positions := by
  rw [cellStep]
  split
  · exact List.mem_append_left _ h
  · exact h

theorem runSteps_r (rows cols : ℕ) (n : ℕ) (st : SpState) :
    (runSteps rows cols n st).r = st.r + n * (spDir st.dirIndex).1 := by
  induction n generalizing st with
  | zero => simp [runSteps]
  | succ n ih =>
    rw [runSteps, ih, cellStep_r, cellStep_dirIndex]
    push_cast
    ring

theorem runSteps_c (rows cols : ℕ) (n : ℕ) (st : SpState) :
    (runSteps rows cols n st).c = st.c + n * (spDir st.dirIndex).2 := by
  induction n generalizing st with
  | zero => simp [runSteps]
  | succ n ih =>
    rw [runSteps, ih, cellStep_c, cellStep_dirIndex]
    push_cast
    ring

theorem runSteps_dirIndex (rows cols : ℕ) (n : ℕ) (st : SpState) :
    (runSteps rows cols n st).dirIndex = st.dirIndex := by
  induction n generalizing st with
  | zero => rfl
  | succ n ih => rw [runSteps, ih, cellStep_dirIndex]

theorem runSteps_steps (rows cols : ℕ) (n : ℕ) (st : SpState) :
    (runSteps rows cols n st).steps = st.steps := by
  induction n generalizing st with
  | zero => rfl
  | succ n ih => rw [runSteps, ih, cellStep_steps]

theorem runSteps_mem (rows cols : ℕ) (n : ℕ) (st : SpState) {p : Pos}
    (h : p ∈ st.positions) : p ∈ (runSteps rows cols n st).positions := by
  induction n generalizing st with
  | zero => exact h
  | succ n ih => exact ih _ (cellStep_mem rows cols st h)

/-- Every in-grid cell lying on the current run is in the visited list
afterwards. -/
theorem runSteps_covers (rows cols : ℕ) (n : ℕ) (st : SpState) :
    ∀ i : ℕ, 1 ≤ i → i ≤ n →
      InBounds rows cols
        (st.r + i * (spDir st.dirIndex).1, st.c + i * (spDir st.dirIndex).2) →
      (st.r + i * (spDir st.dirIndex).1, st.c + i * (spDir st.dirIndex).2)
        ∈ (runSteps rows cols n st).positions := by
  induction n generalizing st with
  | zero =>
    intro i h1 h2
    omega
  | succ n ih =>
    intro i h1 h2 hb
    rw [runSteps]
    rcases Nat.eq_or_lt_of_le h1 with heq | hgt
    · -- the very next cell
      apply runSteps_mem
      rw [cellStep]
      rw [← heq] at hb ⊢
      simp only [Nat.cast_one, one_mul] at hb ⊢
      split
      · next hcond =>
        exact List.mem_append_right _ (by simp)
      · next hcond =>
        rw [Classical.not_and_iff_or_not_not] at hcond
        rcases hcond with hcon | hcon
        · exact absurd hb hcon
        · simpa using Classical.not_not.mp hcon
    · -- a later cell: recurse from the moved state
      have hstep := ih (cellStep rows cols st)
      rw [cellStep_r, cellStep_c, cellStep_dirIndex] at hstep
      have harith1 : st.r + (spDir st.dirIndex).1 + (i - 1 : ℕ) * (spDir st.dirIndex).1
          = st.r + i * (spDir st.dirIndex).1 := by
        have hc : ((i - 1 : ℕ) : ℤ) = (i : ℤ) - 1 := by omega
        rw [hc]
        ring
      have harith2 : st.c + (spDir st.dirIndex).2 + (i - 1 : ℕ) * (spDir st.dirIndex).2
          = st.c + i * (spDir st.dirIndex).2 := by
        have hc : ((i - 1 : ℕ) : ℤ) = (i : ℤ) - 1 := by omega
        rw [hc]
        ring
      have hmem := hstep (i - 1) (by omega) (by omega)
      rw [harith1, harith2] at hmem
      exact hmem hb

end Spiral

namespace Spiral

theorem halfIter_positions (rows cols : ℕ) (st : SpState) :
    (halfIter rows cols st).positions = (runSteps rows cols st.steps st).positions := rfl

theorem halfIter_r (rows cols : ℕ) (st : SpState) :
    (halfIter rows cols st).r = st.r + st.steps * (spDir st.dirIndex).1 := by
  show (runSteps rows cols st.steps st).r = _
  rw [runSteps_r]

theorem halfIter_c (rows cols : ℕ) (st : SpState) :
    (halfIter rows cols st).c = st.c + st.steps * (spDir st.dirIndex).2 := by
  show (runSteps rows cols st.steps st).c = _
  rw [runSteps_c]

theorem halfIter_dirIndex (rows cols : ℕ) (st : SpState) :
    (halfIter rows cols st).dirIndex = (st.dirIndex + 1) % 4 := by
  show ((runSteps rows cols st.steps st).dirIndex + 1) % 4 = _
  rw [runSteps_dirIndex]

theorem halfIter_steps (rows cols : ℕ) (st : SpState) :
    (halfIter rows cols st).steps = st.steps := by
  show (runSteps rows cols st.steps st).steps = _
  rw [runSteps_steps]

theorem halfIter_mem (rows cols : ℕ) (st : SpState) {p : Pos}
    (h : p ∈ st.positions) : p ∈ (halfIter rows cols st).positions := by
  rw [halfIter_positions]
  exact runSteps_mem rows cols _ st h

theorem outerIter_positions (rows cols : ℕ) (st : SpState) :
    (outerIter rows cols st).positions
      = (halfIter rows cols (halfIter rows cols st)).positions := rfl

theorem outerIter_r (rows cols : ℕ) (st : SpState) :
    (outerIter rows cols st).r
      = st.r + st.steps * ((spDir st.dirIndex).1 + (spDir ((st.dirIndex + 1) % 4)).1) := by
  show (halfIter rows cols (halfIter rows cols st)).r = _
  rw [halfIter_r, halfIter_r, halfIter_dirIndex, halfIter_steps]
  ring

theorem outerIter_c (rows cols : ℕ) (st : SpState) :
    (outerIter rows cols st).c
      = st.c + st.steps * ((spDir st.dirIndex).2 + (spDir ((st.dirIndex + 1) % 4)).2) := by
  show (halfIter rows cols (halfIter rows cols st)).c = _
  rw [halfIter_c, halfIter_c, halfIter_dirIndex, halfIter_steps]
  ring

theorem outerIter_dirIndex (rows cols : ℕ) (st : SpState) :
    (outerIter rows cols st).dirIndex = (st.dirIndex + 2) % 4 := by
  show (halfIter rows cols (halfIter rows cols st)).dirIndex = _
  rw [halfIter_dirIndex, halfIter_dirIndex]
  omega

theorem outerIter_steps (rows cols : ℕ) (st : SpState) :
    (outerIter rows cols st).steps = st.steps + 1 := by
  show (halfIter rows cols (halfIter rows cols st)).steps + 1 = _
  rw [halfIter_steps, halfIter_steps]

theorem outerIter_mem (rows cols : ℕ) (st : SpState) {p : Pos}
    (h : p ∈ st.positions) : p ∈ (outerIter rows cols st).positions := by
  rw [outerIter_positions]
  exact halfIter_mem rows cols _ (halfIter_mem rows cols _ h)

theorem iterate_outer_mem (rows cols : ℕ) (n : ℕ) (st : SpState) {p : Pos}
    (h : p ∈ st.positions) : p ∈ (((outerIter rows cols)^[n]) st).positions := by
  induction n generalizing st with
  | zero => exact h
  | succ n ih =>
    rw [Function.iterate_succ_apply]
    exact ih _ (outerIter_mem rows cols st h)

theorem halfIter_covers (rows cols : ℕ) (st : SpState) (i : ℕ)
    (h1 : 1 ≤ i) (h2 : i ≤ st.steps)
    (hb : InBounds rows cols
      (st.r + i * (spDir st.dirIndex).1, st.c + i * (spDir st.dirIndex).2)) :
    (st.r + i * (spDir st.dirIndex).1, st.c + i * (spDir st.dirIndex).2)
      ∈ (halfIter rows cols st).positions := by
  rw [halfIter_positions]
  exact runSteps_covers rows cols st.steps st i h1 h2 hb

/-- Cells of the first direction run of an outer iteration. -/
theorem outerIter_covers1 (rows cols : ℕ) (st : SpState) (i : ℕ)
    (h1 : 1 ≤ i) (h2 : i ≤ st.steps)
    (hb : InBounds rows cols
      (st.r + i * (spDir st.dirIndex).1, st.c + i * (spDir st.dirIndex).2)) :
    (st.r + i * (spDir st.dirIndex).1, st.c + i * (spDir st.dirIndex).2)
      ∈ (outerIter rows cols st).positions := by
  rw [outerIter_positions]
  exact halfIter_mem rows cols _ (halfIter_covers rows cols st i h1 h2 hb)

/-- Cells of the second direction run of an outer iteration. -/
theorem outerIter_covers2 (rows cols : ℕ) (st : SpState) (i : ℕ)
    (h1 : 1 ≤ i) (h2 : i ≤ st.steps)
    (hb : InBounds rows cols
      (st.r + st.steps * (spDir st.dirIndex).1 + i * (spDir ((st.dirIndex + 1) % 4)).1,
       st.c + st.steps * (spDir st.dirIndex).2 + i * (spDir ((st.dirIndex + 1) % 4)).2)) :
    (st.r + st.steps * (spDir st.dirIndex).1 + i * (spDir ((st.dirIndex + 1) % 4)).1,
     st.c + st.steps * (spDir st.dirIndex).2 + i * (spDir ((st.dirIndex + 1) % 4)).2)
      ∈ (outerIter rows cols st).positions := by
  rw [outerIter_positions]
  have hmem := halfIter_covers rows cols (halfIter rows cols st) i h1
    (by rw [halfIter_steps]; exact h2)
  rw [halfIter_r, halfIter_c, halfIter_dirIndex] at hmem
  exact hmem hb

/-- Closed form of the walker state after `2K+1` outer iterations: it sits at
the lower-right corner `center + (K+1, K+1)`, about to walk left. -/
theorem outer_pos (rows cols : ℕ) : ∀ K : ℕ,
    ((((outerIter rows cols)^[2 * K + 1]) (initState rows cols)).r
        = centerR rows + (K + 1 : ℤ)) ∧
    ((((outerIter rows cols)^[2 * K + 1]) (initState rows cols)).c
        = centerC cols + (K + 1 : ℤ)) ∧
    ((((outerIter rows cols)^[2 * K + 1]) (initState rows cols)).dirIndex = 2) ∧
    ((((outerIter rows cols)^[2 * K + 1]) (initState rows cols)).steps = 2 * K + 2) := by
  intro K
  induction K with
  | zero =>
    have h1 : (2 * 0 + 1) = 1 := rfl
    rw [h1]
    rw [Function.iterate_one]
    rw [outerIter_r, outerIter_c, outerIter_dirIndex, outerIter_steps]
    refine ⟨?_, ?_, rfl, rfl⟩
    · show centerR rows + 1 * ((spDir 0).1 + (spDir 1).1) = centerR rows + (0 + 1)
      simp [spDir]
    · show centerC cols + 1 * ((spDir 0).2 + (spDir 1).2) = centerC cols + (0 + 1)
      simp [spDir]
  | succ K ih =>
    obtain ⟨ihr, ihc, ihd, ihs⟩ := ih
    have hsplit : 2 * (K + 1) + 1 = 2 + (2 * K + 1) := by omega
    rw [hsplit, Function.iterate_add_apply]
    set st1 := ((outerIter rows cols)^[2 * K + 1]) (initState rows cols) with hst1
    have h2 : ((outerIter rows cols)^[2]) st1
        = outerIter rows cols (outerIter rows cols st1) := by
      rw [Function.iterate_succ_apply', Function.iterate_one]
    rw [h2]
    -- fields of the intermediate state after iteration 2K+2
    have hr2 : (outerIter rows cols st1).r = centerR rows - (K + 1 : ℤ) := by
      rw [outerIter_r, ihr, ihd, ihs]
      show centerR rows + (K + 1 : ℤ) + (2 * K + 2 : ℕ) * ((spDir 2).1 + (spDir 3).1) = _
      simp [spDir]
      push_cast
      ring
    have hc2 : (outerIter rows cols st1).c = centerC cols - (K + 1 : ℤ) := by
      rw [outerIter_c, ihc, ihd, ihs]
      show centerC cols + (K + 1 : ℤ) + (2 * K + 2 : ℕ) * ((spDir 2).2 + (spDir 3).2) = _
      simp [spDir]
      push_cast
      ring
    have hd2 : (outerIter rows cols st1).dirIndex = 0 := by
      rw [outerIter_dirIndex, ihd]
    have hs2 : (outerIter rows cols st1).steps = 2 * K + 3 := by
      rw [outerIter_steps, ihs]
    refine ⟨?_, ?_, ?_, ?_⟩
    · rw [outerIter_r, hr2, hd2, hs2]
      show centerR rows - (K + 1 : ℤ) + (2 * K + 3 : ℕ) * ((spDir 0).1 + (spDir 1).1) = _
      simp [spDir]
      push_cast
      ring
    · rw [outerIter_c, hc2, hd2, hs2]
      show centerC cols - (K + 1 : ℤ) + (2 * K + 3 : ℕ) * ((spDir 0).2 + (spDir 1).2) = _
      simp [spDir]
      push_cast
      ring
    · rw [outerIter_dirIndex, hd2]
    · rw [outerIter_steps, hs2]
      omega

end Spiral

namespace Spiral

/-- After `2K+1` outer iterations the visited list contains every in-grid
cell of the square of radius `K` around the center, together with the
freshly walked column `K+1` to its right. -/
theorem ring_cover (rows cols : ℕ) : ∀ K : ℕ, ∀ a b : ℤ,
    ((-(K : ℤ) ≤ a ∧ a ≤ K ∧ -(K : ℤ) ≤ b ∧ b ≤ K) ∨
      (-(K : ℤ) ≤ a ∧ a ≤ (K : ℤ) + 1 ∧ b = (K : ℤ) + 1)) →
    InBounds rows cols (centerR rows + a, centerC cols + b) →
    (centerR rows + a, centerC cols + b)
      ∈ ((((outerIter rows cols)^[2 * K + 1]) (initState rows cols)).positions) := by
  intro K
  induction K with
  | zero =>
    intro a b hreg hb
    rw [show 2 * 0 + 1 = 1 from rfl, Function.iterate_one]
    by_cases hB : b = (0 : ℤ) + 1
    · -- the two cells of the first run or its corner
      by_cases hA : a = (0 : ℤ) + 1
      · -- corner (1,1): second half of iteration 1
        have hcell : (centerR rows + a, centerC cols + b)
            = ((initState rows cols).r
                  + ((initState rows cols).steps : ℤ) * (spDir (initState rows cols).dirIndex).1
                  + ((1 : ℕ) : ℤ) * (spDir (((initState rows cols).dirIndex + 1) % 4)).1,
               (initState rows cols).c
                  + ((initState rows cols).steps : ℤ) * (spDir (initState rows cols).dirIndex).2
                  + ((1 : ℕ) : ℤ) * (spDir (((initState rows cols).dirIndex + 1) % 4)).2) := by
          show (centerR rows + a, centerC cols + b)
              = (centerR rows + 1 * (0 : ℤ) + 1 * (1 : ℤ), centerC cols + 1 * (1 : ℤ) + 1 * (0 : ℤ))
          simp only [Prod.mk.injEq]
          constructor <;> omega
        rw [hcell]
        exact outerIter_covers2 rows cols (initState rows cols) 1 le_rfl le_rfl (hcell ▸ hb)
      · -- cell (0,1): first half of iteration 1
        have ha0 : a = 0 := by
          rcases hreg with ⟨h1, h2, h3, h4⟩ | ⟨h1, h2, h3⟩ <;> omega
        have hcell : (centerR rows + a, centerC cols + b)
            = ((initState rows cols).r + ((1 : ℕ) : ℤ) * (spDir (initState rows cols).dirIndex).1,
               (initState rows cols).c + ((1 : ℕ) : ℤ) * (spDir (initState rows cols).dirIndex).2) := by
          show (centerR rows + a, centerC cols + b)
              = (centerR rows + 1 * (0 : ℤ), centerC cols + 1 * (1 : ℤ))
          simp only [Prod.mk.injEq]
          constructor <;> omega
        rw [hcell]
        exact outerIter_covers1 rows cols (initState rows cols) 1 le_rfl le_rfl (hcell ▸ hb)
    · -- the start cell
      have ha0 : a = 0 ∧ b = 0 := by
        rcases hreg with ⟨h1, h2, h3, h4⟩ | ⟨h1, h2, h3⟩ <;> constructor <;> omega
      apply outerIter_mem
      show (centerR rows + a, centerC cols + b) ∈ [(centerR rows, centerC cols)]
      simp only [List.mem_singleton, Prod.mk.injEq]
      constructor <;> omega
  | succ K ih =>
    intro a b hreg hb
    have hsplit : 2 * (K + 1) + 1 = 2 + (2 * K + 1) := by omega
    rw [hsplit, Function.iterate_add_apply]
    set st1 := ((outerIter rows cols)^[2 * K + 1]) (initState rows cols) with hst1
    have h2eq : ((outerIter rows cols)^[2]) st1
        = outerIter rows cols (outerIter rows cols st1) := by
      rw [Function.iterate_succ_apply', Function.iterate_one]
    rw [h2eq]
    obtain ⟨hr1, hc1, hd1, hs1⟩ := outer_pos rows cols K
    rw [← hst1] at hr1 hc1 hd1 hs1
    -- fields of the state after iteration 2K+2
    have hr2 : (outerIter rows cols st1).r = centerR rows - (K + 1 : ℤ) := by
      rw [outerIter_r, hr1, hd1, hs1]
      show centerR rows + (K + 1 : ℤ) + (2 * K + 2 : ℕ) * ((0 : ℤ) + (-1)) = _
      push_cast
      ring
    have hc2 : (outerIter rows cols st1).c = centerC cols - (K + 1 : ℤ) := by
      rw [outerIter_c, hc1, hd1, hs1]
      show centerC cols + (K + 1 : ℤ) + (2 * K + 2 : ℕ) * ((-1 : ℤ) + 0) = _
      push_cast
      ring
    have hd2 : (outerIter rows cols st1).dirIndex = 0 := by
      rw [outerIter_dirIndex, hd1]
    have hs2 : (outerIter rows cols st1).steps = 2 * K + 3 := by
      rw [outerIter_steps, hs1]
    rcases hreg with ⟨ha1, ha2, hb1, hb2⟩ | ⟨ha1, ha2, hbeq⟩
    · -- the (K+1)-square
      by_cases hA : a = (K : ℤ) + 1
      · by_cases hB : b = (K : ℤ) + 1
        · -- corner: already covered by the IH column piece
          apply outerIter_mem
          apply outerIter_mem
          exact ih a b (Or.inr ⟨by omega, by omega, by omega⟩) hb
        · -- south row: first half of iteration 2K+2 (walking left from the corner)
          apply outerIter_mem
          have hcast : (((K + 1 - b).toNat : ℤ)) = (K : ℤ) + 1 - b := by omega
          have hcell : (centerR rows + a, centerC cols + b)
              = (st1.r + (((K + 1 - b).toNat : ℕ) : ℤ) * (spDir st1.dirIndex).1,
                 st1.c + (((K + 1 - b).toNat : ℕ) : ℤ) * (spDir st1.dirIndex).2) := by
            rw [hr1, hc1, hd1, hcast]
            simp only [spDir, Prod.mk.injEq]
            constructor <;> omega
          rw [hcell]
          apply outerIter_covers1 rows cols st1 _ (by omega) (by rw [hs1]; omega)
          exact hcell ▸ hb
      · by_cases hA2 : a = -(K : ℤ) - 1
        · by_cases hB2 : b = -(K : ℤ) - 1
          · -- north-west corner: second half of iteration 2K+2 (walking up)
            apply outerIter_mem
            have hcast : (((K + 1 - a).toNat : ℤ)) = (K : ℤ) + 1 - a := by omega
            have hcell : (centerR rows + a, centerC cols + b)
                = (st1.r + (st1.steps : ℤ) * (spDir st1.dirIndex).1
                      + (((K + 1 - a).toNat : ℕ) : ℤ) * (spDir ((st1.dirIndex + 1) % 4)).1,
                   st1.c + (st1.steps : ℤ) * (spDir st1.dirIndex).2
                      + (((K + 1 - a).toNat : ℕ) : ℤ) * (spDir ((st1.dirIndex + 1) % 4)).2) := by
              rw [hr1, hc1, hd1, hs1, hcast]
              simp only [spDir, Prod.mk.injEq]
              push_cast
              constructor <;> omega
            rw [hcell]
            apply outerIter_covers2 rows cols st1 _ (by omega) (by rw [hs1]; omega)
            exact hcell ▸ hb
          · -- north row: first half of iteration 2K+3 (walking right)
            have hcast : (((b + K + 1).toNat : ℤ)) = b + (K : ℤ) + 1 := by omega
            have hcell : (centerR rows + a, centerC cols + b)
                = ((outerIter rows cols st1).r
                      + (((b + K + 1).toNat : ℕ) : ℤ) * (spDir (outerIter rows cols st1).dirIndex).1,
                   (outerIter rows cols st1).c
                      + (((b + K + 1).toNat : ℕ) : ℤ) * (spDir (outerIter rows cols st1).dirIndex).2) := by
              rw [hr2, hc2, hd2, hcast]
              simp only [spDir, Prod.mk.injEq]
              constructor <;> omega
            rw [hcell]
            apply outerIter_covers1 rows cols (outerIter rows cols st1) _ (by omega)
              (by rw [hs2]; omega)
            exact hcell ▸ hb
        · by_cases hB : b = (K : ℤ) + 1
          · -- east column: IH column piece
            apply outerIter_mem
            apply outerIter_mem
            exact ih a b (Or.inr ⟨by omega, by omega, by omega⟩) hb
          · by_cases hB2 : b = -(K : ℤ) - 1
            · -- west column: second half of iteration 2K+2 (walking up)
              apply outerIter_mem
              have hcast : (((K + 1 - a).toNat : ℤ)) = (K : ℤ) + 1 - a := by omega
              have hcell : (centerR rows + a, centerC cols + b)
                  = (st1.r + (st1.steps : ℤ) * (spDir st1.dirIndex).1
                        + (((K + 1 - a).toNat : ℕ) : ℤ) * (spDir ((st1.dirIndex + 1) % 4)).1,
                     st1.c + (st1.steps : ℤ) * (spDir st1.dirIndex).2
                        + (((K + 1 - a).toNat : ℕ) : ℤ) * (spDir ((st1.dirIndex + 1) % 4)).2) := by
                rw [hr1, hc1, hd1, hs1, hcast]
                simp only [spDir, Prod.mk.injEq]
                push_cast
                constructor <;> omega
              rw [hcell]
              apply outerIter_covers2 rows cols st1 _ (by omega) (by rw [hs1]; omega)
              exact hcell ▸ hb
            · -- strict interior: the IH square
              apply outerIter_mem
              apply outerIter_mem
              exact ih a b (Or.inl ⟨by omega, by omega, by omega, by omega⟩) hb
    · -- the fresh column K+2
      by_cases hA2 : a = -(K : ℤ) - 1
      · -- its top cell: first half of iteration 2K+3
        have hcast : (((b + K + 1).toNat : ℤ)) = b + (K : ℤ) + 1 := by omega
        have hcell : (centerR rows + a, centerC cols + b)
            = ((outerIter rows cols st1).r
                  + (((b + K + 1).toNat : ℕ) : ℤ) * (spDir (outerIter rows cols st1).dirIndex).1,
               (outerIter rows cols st1).c
                  + (((b + K + 1).toNat : ℕ) : ℤ) * (spDir (outerIter rows cols st1).dirIndex).2) := by
          rw [hr2, hc2, hd2, hcast]
          simp only [spDir, Prod.mk.injEq]
          constructor <;> omega
        rw [hcell]
        apply outerIter_covers1 rows cols (outerIter rows cols st1) _ (by omega)
          (by rw [hs2]; omega)
        exact hcell ▸ hb
      · -- the rest of it: second half of iteration 2K+3 (walking down)
        have hcast : (((a + K + 1).toNat : ℤ)) = a + (K : ℤ) + 1 := by omega
        have hcell : (centerR rows + a, centerC cols + b)
            = ((outerIter rows cols st1).r
                  + ((outerIter rows cols st1).steps : ℤ)
                      * (spDir (outerIter rows cols st1).dirIndex).1
                  + (((a + K + 1).toNat : ℕ) : ℤ)
                      * (spDir (((outerIter rows cols st1).dirIndex + 1) % 4)).1,
               (outerIter rows cols st1).c
                  + ((outerIter rows cols st1).steps : ℤ)
                      * (spDir (outerIter rows cols st1).dirIndex).2
                  + (((a + K + 1).toNat : ℕ) : ℤ)
                      * (spDir (((outerIter rows cols st1).dirIndex + 1) % 4)).2) := by
          rw [hr2, hc2, hd2, hs2, hcast]
          simp only [spDir, Prod.mk.injEq]
          push_cast
          constructor <;> omega
        rw [hcell]
        apply outerIter_covers2 rows cols (outerIter rows cols st1) _ (by omega)
          (by rw [hs2]; omega)
        exact hcell ▸ hb

end Spiral

namespace Spiral

/-- Visited-list sanity: no duplicates, all cells in-grid. -/
def PosInv (rows cols : ℕ) (st : SpState) : Prop :=
  st.positions.Nodup ∧ ∀ p ∈ st.positions, InBounds rows cols p

theorem cellStep_posInv (rows cols : ℕ) (st : SpState) (h : PosInv rows cols st) :
    PosInv rows cols (cellStep rows cols st) := by
  obtain ⟨hnd, hbd⟩ := h
  rw [cellStep]
  split
  · next hcond =>
    refine ⟨?_, ?_⟩
    · apply List.Nodup.append hnd (List.nodup_singleton _)
      intro x hx hmem
      rw [List.mem_singleton] at hmem
      subst hmem
      exact hcond.2 hx
    · intro p hp
      rcases List.mem_append.mp hp with hp | hp
      · exact hbd p hp
      · rw [List.mem_singleton] at hp
        subst hp
        exact hcond.1
  · exact ⟨hnd, hbd⟩

theorem runSteps_posInv (rows cols : ℕ) (n : ℕ) (st : SpState)
    (h : PosInv rows cols st) : PosInv rows cols (runSteps rows cols n st) := by
  induction n generalizing st with
  | zero => exact h
  | succ n ih => exact ih _ (cellStep_posInv rows cols st h)

theorem outerIter_posInv (rows cols : ℕ) (st : SpState) (h : PosInv rows cols st) :
    PosInv rows cols (outerIter rows cols st) := by
  have h1 : PosInv rows cols (halfIter rows cols st) := runSteps_posInv rows cols _ st h
  have h2 : PosInv rows cols (halfIter rows cols (halfIter rows cols st)) :=
    runSteps_posInv rows cols _ _ h1
  exact h2

theorem iterate_outer_posInv (rows cols : ℕ) (n : ℕ) (st : SpState)
    (h : PosInv rows cols st) : PosInv rows cols (((outerIter rows cols)^[n]) st) := by
  induction n generalizing st with
  | zero => exact h
  | succ n ih =>
    rw [Function.iterate_succ_apply]
    exact ih _ (outerIter_posInv rows cols st h)

theorem cellStep_ext (rows cols : ℕ) (st : SpState) :
    ∃ t, (cellStep rows cols st).positions = st.positions ++ t := by
  rw [cellStep]
  split
  · exact ⟨_, rfl⟩
  · exact ⟨[], (List.append_nil _).symm⟩

theorem runSteps_ext (rows cols : ℕ) (n : ℕ) (st : SpState) :
    ∃ t, (runSteps rows cols n st).positions = st.positions ++ t := by
  induction n generalizing st with
  | zero => exact ⟨[], (List.append_nil _).symm⟩
  | succ n ih =>
    obtain ⟨t1, ht1⟩ := cellStep_ext rows cols st
    obtain ⟨t2, ht2⟩ := ih (cellStep rows cols st)
    exact ⟨t1 ++ t2, by rw [runSteps, ht2, ht1, List.append_assoc]⟩

theorem outerIter_ext (rows cols : ℕ) (st : SpState) :
    ∃ t, (outerIter rows cols st).positions = st.positions ++ t := by
  obtain ⟨t1, ht1⟩ := runSteps_ext rows cols st.steps st
  obtain ⟨t2, ht2⟩ := runSteps_ext rows cols (halfIter rows cols st).steps (halfIter rows cols st)
  refine ⟨t1 ++ t2, ?_⟩
  show (halfIter rows cols (halfIter rows cols st)).positions = _
  rw [halfIter_positions, ht2, halfIter_positions, ht1, List.append_assoc]

theorem iterate_outer_ext (rows cols : ℕ) (n : ℕ) (st : SpState) :
    ∃ t, (((outerIter rows cols)^[n]) st).positions = st.positions ++ t := by
  induction n generalizing st with
  | zero => exact ⟨[], (List.append_nil _).symm⟩
  | succ n ih =>
    obtain ⟨t1, ht1⟩ := outerIter_ext rows cols st
    obtain ⟨t2, ht2⟩ := ih (outerIter rows cols st)
    exact ⟨t1 ++ t2, by rw [Function.iterate_succ_apply, ht2, ht1, List.append_assoc]⟩

theorem spiralLoop_spec (rows cols : ℕ) :
    ∀ (fuel : ℕ) (st : SpState), ∃ j ≤ fuel,
      spiralLoop rows cols fuel st = ((outerIter rows cols)^[j]) st ∧
      (j = fuel ∨
        ¬ ((((outerIter rows cols)^[j]) st).positions.length < rows * cols)) := by
  intro fuel
  induction fuel with
  | zero =>
    intro st
    exact ⟨0, le_rfl, rfl, Or.inl rfl⟩
  | succ fuel ih =>
    intro st
    rw [spiralLoop]
    split
    · obtain ⟨j, hj, heq, hcond⟩ := ih (outerIter rows cols st)
      refine ⟨j + 1, by omega, ?_, ?_⟩
      · rw [heq, ← Function.iterate_succ_apply]
      · rcases hcond with hcond | hcond
        · exact Or.inl (by omega)
        · right
          rw [← Function.iterate_succ_apply] at hcond
          exact hcond
    · exact ⟨0, by omega, rfl, Or.inr (by assumption)⟩

theorem center_inBounds (rows cols : ℕ) (h1 : 1 ≤ rows) (h2 : 1 ≤ cols) :
    InBounds rows cols (centerR rows, centerC cols) := by
  refine ⟨le_max_left _ _, ?_, le_max_left _ _, ?_⟩
  · apply max_lt
    · omega
    · omega
  · apply max_lt
    · omega
    · omega

theorem centerR_lt (rows : ℕ) (h1 : 1 ≤ rows) : centerR rows < (rows : ℤ) :=
  (center_inBounds rows 1 h1 le_rfl).2.1

theorem centerC_lt (cols : ℕ) (h2 : 1 ≤ cols) : centerC cols < (cols : ℤ) :=
  (center_inBounds 1 cols le_rfl h2).2.2.2

/-- The generated spiral path is a permutation of the grid cells. -/
theorem generateSpiralPath_perm (rows cols : ℕ) (h1 : 1 ≤ rows) (h2 : 1 ≤ cols) :
    (generateSpiralPath rows cols).Perm (gridCells rows cols) := by
  obtain ⟨j, hj, heq, hcond⟩ :=
    spiralLoop_spec rows cols (2 * (rows + cols) + 4) (initState rows cols)
  have hinit : PosInv rows cols (initState rows cols) := by
    refine ⟨List.nodup_singleton _, ?_⟩
    intro p hp
    simp only [initState, List.mem_singleton] at hp
    subst hp
    exact center_inBounds rows cols h1 h2
  have hinv : PosInv rows cols (((outerIter rows cols)^[j]) (initState rows cols)) :=
    iterate_outer_posInv rows cols j _ hinit
  have hsub : (((outerIter rows cols)^[j]) (initState rows cols)).positions.Subperm
      (gridCells rows cols) :=
    List.subperm_of_subset hinv.1 (fun p hp => mem_gridCells.mpr (hinv.2 p hp))
  have hpath : generateSpiralPath rows cols
      = (((outerIter rows cols)^[j]) (initState rows cols)).positions := by
    rw [generateSpiralPath, heq]
  rcases hcond with hcond | hcond
  · -- fuel exhausted: the coverage theorem applies
    subst hcond
    have hcover : ∀ p ∈ gridCells rows cols,
        p ∈ (((outerIter rows cols)^[2 * (rows + cols) + 4])
              (initState rows cols)).positions := by
      intro p hp
      have hbp := mem_gridCells.mp hp
      set K := rows + cols with hK
      set a := p.1 - centerR rows with ha
      set b := p.2 - centerC cols with hb
      have hcR0 : 0 ≤ centerR rows := le_max_left _ _
      have hcC0 : 0 ≤ centerC cols := le_max_left _ _
      have hcR := centerR_lt rows h1
      have hcC := centerC_lt cols h2
      have hreg : (-(K : ℤ) ≤ a ∧ a ≤ K ∧ -(K : ℤ) ≤ b ∧ b ≤ K) ∨
          (-(K : ℤ) ≤ a ∧ a ≤ (K : ℤ) + 1 ∧ b = (K : ℤ) + 1) := by
        left
        obtain ⟨hb1, hb2, hb3, hb4⟩ := hbp
        push_cast [hK]
        omega
      have hpeq : p = (centerR rows + a, centerC cols + b) := by
        rw [ha, hb]
        obtain ⟨x, y⟩ := p
        simp only [Prod.mk.injEq]
        constructor <;> ring
      have hmem := ring_cover rows cols K a b hreg (hpeq ▸ hbp)
      have hsplit : 2 * (rows + cols) + 4 = 3 + (2 * K + 1) := by omega
      rw [hsplit, Function.iterate_add_apply]
      rw [hpeq]
      exact iterate_outer_mem rows cols 3 _ hmem
    have hsup : (gridCells rows cols).Subperm
        (((outerIter rows cols)^[2 * (rows + cols) + 4]) (initState rows cols)).positions :=
      List.subperm_of_subset (nodup_gridCells rows cols) hcover
    rw [hpath]
    exact hsub.antisymm hsup
  · -- early exit: the guard failed, so the path already has rows*cols cells
    rw [hpath]
    apply hsub.perm_of_length_le
    rw [length_gridCells]
    omega

/-- Main properties of `generateSpiralPath`. -/
theorem generateSpiralPath_spec (rows cols : ℕ) (h1 : 1 ≤ rows) (h2 : 1 ≤ cols) :
    (generateSpiralPath rows cols).length = rows * cols ∧
    (generateSpiralPath rows cols).head? = some (centerR rows, centerC cols) ∧
    (∀ p ∈ gridCells rows cols, countPos p (generateSpiralPath rows cols) = 1) ∧
    (∀ p ∈ generateSpiralPath rows cols, InBounds rows cols p) := by
  have hperm := generateSpiralPath_perm rows cols h1 h2
  refine ⟨?_, ?_, ?_, ?_⟩
  · rw [hperm.length_eq, length_gridCells]
  · obtain ⟨j, hj, heq, hcond⟩ :=
      spiralLoop_spec rows cols (2 * (rows + cols) + 4) (initState rows cols)
    obtain ⟨t, ht⟩ := iterate_outer_ext rows cols j (initState rows cols)
    rw [generateSpiralPath, heq, ht]
    rfl
  · intro p hp
    have hnd : (generateSpiralPath rows cols).Nodup :=
      hperm.nodup_iff.mpr (nodup_gridCells rows cols)
    exact countPos_eq_one_of_nodup_mem hnd (hperm.mem_iff.mpr hp)
  · intro p hp
    exact mem_gridCells.mp (hperm.mem_iff.mp hp)

end Spiral

/-! ### ScanBySpiralProgram -/

namespace ScanBySpiral

/-- Mutable fields of `ScanBySpiralProgram` (phases: 0 initial, 1 forward
spiral, 2 reverse spiral, 3 fill, 4 done).  The immutable
`spiralPositions` list built by the constructor is passed to `update` as the
`path` parameter. -/
structure State where
  phase : ℕ
  lastBrickPos : Option Pos
  fillCounter : ℕ
  frameCounter : ℤ
  spiralIndex : ℕ
  reverseIndex : ℤ
  fillIndex : ℕ
deriving DecidableEq

/-- `isDone()`. -/
def isDone (s : State) : Bool := s.phase == 4

/-- `update()` case 1: forward spiral scan. -/
def forwardStep (rows cols : ℕ) (path : List Pos) (s : State) (g : Grid) : State × Grid :=
  let g := ScanByLine.eraseLast rows cols s.lastBrickPos g
  if s.spiralIndex < path.length then
    let pos := path.getD s.spiralIndex (0, 0)
    ({ s with lastBrickPos := some pos, spiralIndex := s.spiralIndex + 1 },
      updateGridCell rows cols pos.1 pos.2 CELL_BRICK g)
  else
    let g := ScanByLine.eraseLast rows cols s.lastBrickPos g
    ({ s with lastBrickPos := none, phase := 2,
              reverseIndex := (path.length : ℤ) - 1 }, g)

/-- `update()` case 2: reverse spiral scan. -/
def reverseStep (rows cols : ℕ) (path : List Pos) (s : State) (g : Grid) : State × Grid :=
  let g := ScanByLine.eraseLast rows cols s.lastBrickPos g
  if 0 ≤ s.reverseIndex then
    let pos := path.getD s.reverseIndex.toNat (0, 0)
    ({ s with lastBrickPos := some pos, reverseIndex := s.reverseIndex - 1 },
      updateGridCell rows cols pos.1 pos.2 CELL_BRICK g)
  else
    let g := ScanByLine.eraseLast rows cols s.lastBrickPos g
    ({ s with lastBrickPos := none, phase := 3, fillIndex := 0 }, g)

/-- `update()` case 3: fill along the spiral path wherever still CLAY. -/
def fillStep (rows cols : ℕ) (path : List Pos) (s : State) (g : Grid) : State × Grid :=
  if s.fillIndex < path.length then
    let pos := path.getD s.fillIndex (0, 0)
    if g pos.1 pos.2 == CELL_CLAY then
      ({ s with fillCounter := s.fillCounter + 1, fillIndex := s.fillIndex + 1 },
        updateGridCell rows cols pos.1 pos.2 CELL_BRICK g)
    else
      ({ s with fillIndex := s.fillIndex + 1 }, g)
  else
    ({ s with phase := 4 }, g)

/-- `ScanBySpiralProgram.update()`. -/
def update (rows cols : ℕ) (path : List Pos) (c : State × Grid) : State × Grid :=
  if isDone c.1 then c
  else
    let fc := c.1.frameCounter + ANIMATION_SPEED
    if fc < 1 then ({ c.1 with frameCounter := fc }, c.2)
    else
      let s := { c.1 with frameCounter := fc % 1 }
      match s.phase with
      | 1 => forwardStep rows cols path s c.2
      | 2 => reverseStep rows cols path s c.2
      | 3 => fillStep rows cols path s c.2
      | _ => (s, c.2)

/-- `ScanBySpiralProgram.reset()`. -/
def reset (rows cols : ℕ) (c : State × Grid) : State × Grid :=
  (⟨1, none, 0, 0, 0, 0, 0⟩, clearGrid rows cols c.2)

/-- Reachable-state invariant. -/
def Inv (rows cols : ℕ) (path : List Pos) (c : State × Grid) : Prop :=
  (c.1.phase = 1 ∨ c.1.phase = 2 ∨ c.1.phase = 3 ∨ c.1.phase = 4)
  ∧ c.1.frameCounter = 0
  ∧ cellsLegal rows cols c.2
  ∧ (c.1.phase = 1 → c.1.spiralIndex ≤ path.length)
  ∧ (c.1.phase = 2 → -1 ≤ c.1.reverseIndex ∧ c.1.reverseIndex < (path.length : ℤ))
  ∧ (c.1.phase = 3 → c.1.fillIndex ≤ path.length ∧
      ∀ p ∈ path.take c.1.fillIndex, InBounds rows cols p → c.2 p.1 p.2 = CELL_BRICK)
  ∧ (c.1.phase = 4 → allCellsEq rows cols CELL_BRICK c.2)

/-- Steps remaining until `isDone()`. -/
def meas (path : List Pos) (c : State × Grid) : ℕ :=
  match c.1.phase with
  | 1 => (path.length - c.1.spiralIndex) + 1 + (path.length + 1) + (path.length + 1)
  | 2 => (c.1.reverseIndex + 1).toNat + 1 + (path.length + 1)
  | 3 => (path.length - c.1.fillIndex) + 1
  | _ => 0

theorem update_done_spiral {rows cols : ℕ} {path : List Pos} {c : State × Grid}
    (h : isDone c.1 = true) : update rows cols path c = c := by
  rw [update, if_pos h]

theorem update_char_spiral (rows cols : ℕ) (path : List Pos) (s : State) (g : Grid)
    (hd : isDone s = false) (hf : s.frameCounter = 0) :
    update rows cols path (s, g) =
      match s.phase with
      | 1 => forwardStep rows cols path s g
      | 2 => reverseStep rows cols path s g
      | 3 => fillStep rows cols path s g
      | _ => (s, g) := by
  have h1 : ¬ (isDone s = true) := by simp [hd]
  have hs : { s with frameCounter := (s.frameCounter + ANIMATION_SPEED) % 1 } = s := by
    cases s
    simp_all [ANIMATION_SPEED]
  rw [update, if_neg h1, if_neg (by rw [hf]; norm_num [ANIMATION_SPEED]), hs]

theorem update_phase1_spiral {rows cols : ℕ} {path : List Pos} {s : State} {g : Grid}
    (hp : s.phase = 1) (hf : s.frameCounter = 0) :
    update rows cols path (s, g) = forwardStep rows cols path s g := by
  rw [update_char_spiral rows cols path s g (by simp [isDone, hp]) hf, hp]

theorem update_phase2_spiral {rows cols : ℕ} {path : List Pos} {s : State} {g : Grid}
    (hp : s.phase = 2) (hf : s.frameCounter = 0) :
    update rows cols path (s, g) = reverseStep rows cols path s g := by
  rw [update_char_spiral rows cols path s g (by simp [isDone, hp]) hf, hp]

theorem update_phase3_spiral {rows cols : ℕ} {path : List Pos} {s : State} {g : Grid}
    (hp : s.phase = 3) (hf : s.frameCounter = 0) :
    update rows cols path (s, g) = fillStep rows cols path s g := by
  rw [update_char_spiral rows cols path s g (by simp [isDone, hp]) hf, hp]

theorem eraseLast_legal {rows cols : ℕ} {lp : Option Pos} {g : Grid}
    (h : cellsLegal rows cols g) :
    cellsLegal rows cols (ScanByLine.eraseLast rows cols lp g) := by
  cases lp with
  | none => exact h
  | some q => exact cellsLegal_update (Or.inl rfl) h

end ScanBySpiral

namespace ScanBySpiral

theorem take_succ_mem {path : List Pos} {fi : ℕ} (hidx : fi < path.length) {p : Pos}
    (hp : p ∈ path.take (fi + 1)) :
    p ∈ path.take fi ∨ p = path.getD fi (0, 0) := by
  rw [List.take_succ] at hp
  rcases List.mem_append.mp hp with h | h
  · exact Or.inl h
  · right
    rw [List.getElem?_eq_getElem hidx] at h
    simp only [Option.toList_some, List.mem_singleton] at h
    rw [h, List.getD_eq_getElem?_getD, List.getElem?_eq_getElem hidx]
    rfl

theorem inv_step_spiral (rows cols : ℕ) (path : List Pos)
    (hcov : ∀ p ∈ gridCells rows cols, p ∈ path)
    (c : State × Grid) (h : Inv rows cols path c) :
    Inv rows cols path (update rows cols path c) := by
  obtain ⟨s, g⟩ := c
  obtain ⟨hph, hf, hleg, h1, h2, h3, h4⟩ := h
  dsimp only at hph hf hleg h1 h2 h3 h4
  rcases hph with hp | hp | hp | hp
  · -- phase 1: forward spiral scan
    rw [update_phase1_spiral hp hf]
    have hsi := h1 hp
    simp only [forwardStep]
    split_ifs with hidx
    · refine ⟨Or.inl hp, hf, ?_, ?_, ?_, ?_, ?_⟩
      · exact cellsLegal_update (Or.inr rfl) (eraseLast_legal hleg)
      · intro _
        dsimp only
        omega
      · intro hcon
        dsimp only at hcon
        omega
      · intro hcon
        dsimp only at hcon
        omega
      · intro hcon
        dsimp only at hcon
        omega
    · refine ⟨Or.inr (Or.inl rfl), hf, ?_, ?_, ?_, ?_, ?_⟩
      · exact eraseLast_legal (eraseLast_legal hleg)
      · intro hcon
        dsimp only at hcon
        omega
      · intro _
        dsimp only
        omega
      · intro hcon
        dsimp only at hcon
        omega
      · intro hcon
        dsimp only at hcon
        omega
  · -- phase 2: reverse spiral scan
    rw [update_phase2_spiral hp hf]
    have hri := h2 hp
    simp only [reverseStep]
    split_ifs with hidx
    · refine ⟨Or.inr (Or.inl hp), hf, ?_, ?_, ?_, ?_, ?_⟩
      · exact cellsLegal_update (Or.inr rfl) (eraseLast_legal hleg)
      · intro hcon
        dsimp only at hcon
        omega
      · intro _
        dsimp only
        omega
      · intro hcon
        dsimp only at hcon
        omega
      · intro hcon
        dsimp only at hcon
        omega
    · refine ⟨Or.inr (Or.inr (Or.inl rfl)), hf, ?_, ?_, ?_, ?_, ?_⟩
      · exact eraseLast_legal (eraseLast_legal hleg)
      · intro hcon
        dsimp only at hcon
        omega
      · intro hcon
        dsimp only at hcon
        omega
      · intro _
        dsimp only
        exact ⟨by omega, by simp⟩
      · intro hcon
        dsimp only at hcon
        omega
  · -- phase 3: fill along the spiral
    rw [update_phase3_spiral hp hf]
    obtain ⟨hfl, htake⟩ := h3 hp
    simp only [fillStep]
    split_ifs with hidx hclay
    · -- CLAY cell converted
      refine ⟨Or.inr (Or.inr (Or.inl hp)), hf, ?_, ?_, ?_, ?_, ?_⟩
      · exact cellsLegal_update (Or.inr rfl) hleg
      · intro hcon
        dsimp only at hcon
        omega
      · intro hcon
        dsimp only at hcon
        omega
      · intro _
        dsimp only
        refine ⟨by omega, ?_⟩
        intro p hp2 hbp
        rcases take_succ_mem hidx hp2 with hmem | rfl
        · rcases updateGridCell_cases rows cols (path.getD s.fillIndex (0, 0)).1
            (path.getD s.fillIndex (0, 0)).2 CELL_BRICK g p.1 p.2 with he | he
          · rw [he]
          · rw [he]
            exact htake p hmem hbp
        · exact updateGridCell_apply_same hbp
      · intro hcon
        dsimp only at hcon
        omega
    · -- already BRICK
      refine ⟨Or.inr (Or.inr (Or.inl hp)), hf, hleg, ?_, ?_, ?_, ?_⟩
      · intro hcon
        dsimp only at hcon
        omega
      · intro hcon
        dsimp only at hcon
        omega
      · intro _
        dsimp only
        refine ⟨by omega, ?_⟩
        intro p hp2 hbp
        rcases take_succ_mem hidx hp2 with hmem | rfl
        · exact htake p hmem hbp
        · rcases hleg _ (mem_gridCells.mpr hbp) with hc | hb
          · exfalso
            apply hclay
            rw [hc]
            exact beq_self_eq_true _
          · exact hb
      · intro hcon
        dsimp only at hcon
        omega
    · -- fill finished: phase 4, all BRICK
      refine ⟨Or.inr (Or.inr (Or.inr rfl)), hf, hleg, ?_, ?_, ?_, ?_⟩
      · intro hcon
        dsimp only at hcon
        omega
      · intro hcon
        dsimp only at hcon
        omega
      · intro hcon
        dsimp only at hcon
        omega
      · intro _
        dsimp only
        intro p hp2
        have hmem : p ∈ path.take s.fillIndex := by
          rw [List.take_of_length_le (by omega)]
          exact hcov p hp2
        exact htake p hmem (mem_gridCells.mp hp2)
  · -- phase 4: done
    rw [update_done_spiral (by simp [isDone, hp])]
    exact ⟨Or.inr (Or.inr (Or.inr hp)), hf, hleg, h1, h2, h3, h4⟩

theorem meas_dec_spiral (rows cols : ℕ) (path : List Pos) (c : State × Grid)
    (h : Inv rows cols path c) (hd : isDone c.1 = false) :
    meas path (update rows cols path c) < meas path c := by
  obtain ⟨s, g⟩ := c
  obtain ⟨hph, hf, hleg, h1, h2, h3, h4⟩ := h
  dsimp only at hph hf hleg h1 h2 h3 h4 hd
  rcases hph with hp | hp | hp | hp
  · rw [update_phase1_spiral hp hf]
    have hsi := h1 hp
    simp only [forwardStep]
    split_ifs with hidx
    · simp only [meas, hp]
      omega
    · simp only [meas, hp]
      omega
  · rw [update_phase2_spiral hp hf]
    have hri := h2 hp
    simp only [reverseStep]
    split_ifs with hidx
    · simp only [meas, hp]
      omega
    · simp only [meas, hp]
      omega
  · rw [update_phase3_spiral hp hf]
    obtain ⟨hfl, htake⟩ := h3 hp
    simp only [fillStep]
    split_ifs with hidx hclay
    · simp only [meas, hp]
      omega
    · simp only [meas, hp]
      omega
    · simp only [meas, hp]
      omega
  · rw [isDone] at hd
    simp [hp] at hd

theorem inv_reset_spiral (rows cols : ℕ) (path : List Pos) (c : State × Grid) :
    Inv rows cols path (reset rows cols c) := by
  have hclay : allCellsEq rows cols CELL_CLAY (clearGrid rows cols c.2) := by
    intro p hp
    rw [clearGrid_apply, if_pos (mem_gridCells.mp hp)]
  refine ⟨Or.inl rfl, rfl, allClay_legal hclay, ?_, ?_, ?_, ?_⟩
  · intro _
    dsimp only [reset]
    omega
  · intro hcon
    dsimp only [reset] at hcon
    omega
  · intro hcon
    dsimp only [reset] at hcon
    omega
  · intro hcon
    dsimp only [reset] at hcon
    omega

theorem meas_reset_spiral (rows cols : ℕ) (path : List Pos) (c : State × Grid) :
    meas path (reset rows cols c) = 3 * path.length + 3 := by
  simp [meas, reset]
  omega

/-- ScanBySpiral: at `isDone()` after a run from `reset()`, the grid is all
BRICK, for any path covering the grid (in particular the generated spiral). -/
theorem done_allBrick_spiral (rows cols : ℕ) (path : List Pos)
    (hcov : ∀ p ∈ gridCells rows cols, p ∈ path) (c : State × Grid) (n : ℕ)
    (hd : isDone ((update rows cols path)^[n] (reset rows cols c)).1 = true) :
    allCellsEq rows cols CELL_BRICK
      ((update rows cols path)^[n] (reset rows cols c)).2 := by
  have hinv := inv_iterate (update rows cols path) (Inv rows cols path)
    (inv_step_spiral rows cols path hcov) n _ (inv_reset_spiral rows cols path c)
  obtain ⟨hph, hf, hleg, h1, h2, h3, h4⟩ := hinv
  apply h4
  rw [isDone] at hd
  simpa using hd

/-- ScanBySpiral: done within `80 * rows * cols` updates. -/
theorem done_by_spiral (rows cols : ℕ) (path : List Pos)
    (hcov : ∀ p ∈ gridCells rows cols, p ∈ path)
    (hlen : path.length = rows * cols) (c : State × Grid)
    (h1 : 1 ≤ rows) (h2 : 1 ≤ cols) :
    isDone ((update rows cols path)^[80 * (rows * cols)]
      (reset rows cols c)).1 = true := by
  apply done_within_measure (update rows cols path) (fun x => isDone x.1)
    (Inv rows cols path) (meas path) (inv_step_spiral rows cols path hcov)
    (meas_dec_spiral rows cols path) (fun x hx => update_done_spiral hx)
  · exact inv_reset_spiral rows cols path c
  · rw [meas_reset_spiral, hlen]
    have h3 : 1 ≤ rows * cols := Nat.one_le_iff_ne_zero.mpr (by positivity)
    omega

end ScanBySpiral

/-! ### Diagonal path generators (`generateDiagonalPaths` of
`ScanByDiagonalProgram` and `SwipeByDiagonalProgram`, identical code) -/

namespace Diagonal

/-- Inner loop of the family-1 generator: the diagonal `r + c = sum`,
`r` ascending. -/
def diag1Group (rows cols : ℕ) (sum : ℕ) : List Pos :=
  (List.range rows).filterMap fun (r : ℕ) =>
    if 0 ≤ (sum : ℤ) - (r : ℤ) ∧ (sum : ℤ) - (r : ℤ) < (cols : ℤ)
    then some ((r : ℤ), (sum : ℤ) - (r : ℤ)) else none

/-- `diagonal1Positions` (top-left→bottom-right): sums ascending
`0 .. rows+cols-2`, within a sum `r` ascending. -/
def diagonal1Positions (rows cols : ℕ) : List Pos :=
  (List.range (rows + cols - 1)).flatMap fun sum => diag1Group rows cols sum

/-- Inner loop of the family-2 generator: the diagonal `c - r = diff`,
`r` ascending. -/
def diag2Group (rows cols : ℕ) (diff : ℤ) : List Pos :=
  (List.range rows).filterMap fun (r : ℕ) =>
    if 0 ≤ (r : ℤ) + diff ∧ (r : ℤ) + diff < (cols : ℤ)
    then some ((r : ℤ), (r : ℤ) + diff) else none

/-- `diagonal2Positions` (top-right→bottom-left): differences descending
`cols-1 .. -(rows-1)`, within a difference `r` ascending. -/
def diagonal2Positions (rows cols : ℕ) : List Pos :=
  (List.range (rows + cols - 1)).flatMap fun i =>
    diag2Group rows cols ((cols : ℤ) - 1 - (i : ℤ))

/-- The family-1 ordering key: ascending `r+c`, then ascending `r`. -/
def diag1Lt (p q : Pos) : Prop :=
  p.1 + p.2 < q.1 + q.2 ∨ (p.1 + p.2 = q.1 + q.2 ∧ p.1 < q.1)

/-- The family-2 ordering key: descending `c−r`, then ascending `r`. -/
def diag2Lt (p q : Pos) : Prop :=
  q.2 - q.1 < p.2 - p.1 ∨ (p.2 - p.1 = q.2 - q.1 ∧ p.1 < q.1)

theorem mem_diag1Group {rows cols sum : ℕ} {p : Pos} :
    p ∈ diag1Group rows cols sum ↔
      InBounds rows cols p ∧ p.1 + p.2 = (sum : ℤ) := by
  rw [diag1Group, List.mem_filterMap]
  constructor
  · rintro ⟨r, hr, hf⟩
    rw [List.mem_range] at hr
    by_cases hc : 0 ≤ (sum : ℤ) - (r : ℤ) ∧ (sum : ℤ) - (r : ℤ) < (cols : ℤ)
    · rw [if_pos hc] at hf
      injection hf with hf
      subst hf
      refine ⟨⟨?_, ?_, ?_, ?_⟩, ?_⟩ <;>
      · dsimp only
        omega
    · rw [if_neg hc] at hf
      cases hf
  · rintro ⟨⟨hb1, hb2, hb3, hb4⟩, hsum⟩
    refine ⟨p.1.toNat, List.mem_range.mpr (by omega), ?_⟩
    rw [if_pos (by constructor <;> omega)]
    obtain ⟨x, y⟩ := p
    simp only [Option.some.injEq, Prod.mk.injEq]
    constructor <;> omega

theorem mem_diag2Group {rows cols : ℕ} {diff : ℤ} {p : Pos} :
    p ∈ diag2Group rows cols diff ↔
      InBounds rows cols p ∧ p.2 - p.1 = diff := by
  rw [diag2Group, List.mem_filterMap]
  constructor
  · rintro ⟨r, hr, hf⟩
    rw [List.mem_range] at hr
    by_cases hc : 0 ≤ (r : ℤ) + diff ∧ (r : ℤ) + diff < (cols : ℤ)
    · rw [if_pos hc] at hf
      injection hf with hf
      subst hf
      refine ⟨⟨?_, ?_, ?_, ?_⟩, ?_⟩ <;>
      · dsimp only
        omega
    · rw [if_neg hc] at hf
      cases hf
  · rintro ⟨⟨hb1, hb2, hb3, hb4⟩, hdiff⟩
    refine ⟨p.1.toNat, List.mem_range.mpr (by omega), ?_⟩
    rw [if_pos (by constructor <;> omega)]
    obtain ⟨x, y⟩ := p
    simp only [Option.some.injEq, Prod.mk.injEq]
    constructor <;> omega

theorem mem_diagonal1 {rows cols : ℕ} {p : Pos} :
    p ∈ diagonal1Positions rows cols ↔ InBounds rows cols p := by
  rw [diagonal1Positions, List.mem_flatMap]
  constructor
  · rintro ⟨sum, hs, hp⟩
    exact (mem_diag1Group.mp hp).1
  · intro hb
    refine ⟨(p.1 + p.2).toNat, List.mem_range.mpr ?_, mem_diag1Group.mpr ⟨hb, ?_⟩⟩
    · obtain ⟨h1, h2, h3, h4⟩ := hb
      omega
    · obtain ⟨h1, h2, h3, h4⟩ := hb
      omega

theorem mem_diagonal2 {rows cols : ℕ} {p : Pos} :
    p ∈ diagonal2Positions rows cols ↔ InBounds rows cols p := by
  rw [diagonal2Positions, List.mem_flatMap]
  constructor
  · rintro ⟨i, hi, hp⟩
    exact (mem_diag2Group.mp hp).1
  · intro hb
    refine ⟨((cols : ℤ) - 1 - (p.2 - p.1)).toNat, List.mem_range.mpr ?_,
      mem_diag2Group.mpr ⟨hb, ?_⟩⟩
    · obtain ⟨h1, h2, h3, h4⟩ := hb
      omega
    · obtain ⟨h1, h2, h3, h4⟩ := hb
      omega

theorem pairwise_diag1 (rows cols : ℕ) :
    (diagonal1Positions rows cols).Pairwise diag1Lt := by
  rw [diagonal1Positions, List.flatMap_def, List.pairwise_flatten]
  constructor
  · intro l hl
    rw [List.mem_map] at hl
    obtain ⟨sum, _, rfl⟩ := hl
    rw [diag1Group]
    apply List.Pairwise.filterMap _ _ (List.pairwise_lt_range rows)
    intro a a' haa b hb b' hb'
    by_cases hca : 0 ≤ (sum : ℤ) - (a : ℤ) ∧ (sum : ℤ) - (a : ℤ) < (cols : ℤ)
    · by_cases hca' : 0 ≤ (sum : ℤ) - (a' : ℤ) ∧ (sum : ℤ) - (a' : ℤ) < (cols : ℤ)
      · rw [if_pos hca, Option.mem_def] at hb
        rw [if_pos hca', Option.mem_def] at hb'
        injection hb with hb
        injection hb' with hb'
        subst hb
        subst hb'
        right
        refine ⟨?_, ?_⟩ <;>
        · dsimp only
          omega
      · rw [if_neg hca'] at hb'
        cases hb'
    · rw [if_neg hca] at hb
      cases hb
  · rw [List.pairwise_map]
    apply List.Pairwise.imp ?_ (List.pairwise_lt_range (rows + cols - 1))
    intro s s' hss p hp q hq
    have h1 := (mem_diag1Group.mp hp).2
    have h2 := (mem_diag1Group.mp hq).2
    left
    omega

theorem pairwise_diag2 (rows cols : ℕ) :
    (diagonal2Positions rows cols).Pairwise diag2Lt := by
  rw [diagonal2Positions, List.flatMap_def, List.pairwise_flatten]
  constructor
  · intro l hl
    rw [List.mem_map] at hl
    obtain ⟨i, _, rfl⟩ := hl
    rw [diag2Group]
    apply List.Pairwise.filterMap _ _ (List.pairwise_lt_range rows)
    intro a a' haa b hb b' hb'
    by_cases hca : 0 ≤ (a : ℤ) + ((cols : ℤ) - 1 - (i : ℤ)) ∧
        (a : ℤ) + ((cols : ℤ) - 1 - (i : ℤ)) < (cols : ℤ)
    · by_cases hca' : 0 ≤ (a' : ℤ) + ((cols : ℤ) - 1 - (i : ℤ)) ∧
          (a' : ℤ) + ((cols : ℤ) - 1 - (i : ℤ)) < (cols : ℤ)
      · rw [if_pos hca, Option.mem_def] at hb
        rw [if_pos hca', Option.mem_def] at hb'
        injection hb with hb
        injection hb' with hb'
        subst hb
        subst hb'
        right
        refine ⟨?_, ?_⟩ <;>
        · dsimp only
          omega
      · rw [if_neg hca'] at hb'
        cases hb'
    · rw [if_neg hca] at hb
      cases hb
  · rw [List.pairwise_map]
    apply List.Pairwise.imp ?_ (List.pairwise_lt_range (rows + cols - 1))
    intro i i' hii p hp q hq
    have h1 := (mem_diag2Group.mp hp).2
    have h2 := (mem_diag2Group.mp hq).2
    left
    omega

theorem nodup_diag1 (rows cols : ℕ) : (diagonal1Positions rows cols).Nodup := by
  apply (pairwise_diag1 rows cols).imp
  intro p q h
  rcases h with h | ⟨h1, h2⟩ <;>
  · intro hc
    subst hc
    omega

theorem nodup_diag2 (rows cols : ℕ) : (diagonal2Positions rows cols).Nodup := by
  apply (pairwise_diag2 rows cols).imp
  intro p q h
  rcases h with h | ⟨h1, h2⟩ <;>
  · intro hc
    subst hc
    omega

theorem diag1_perm (rows cols : ℕ) :
    (diagonal1Positions rows cols).Perm (gridCells rows cols) := by
  apply List.Subperm.antisymm
  · exact List.subperm_of_subset (nodup_diag1 rows cols)
      (fun p hp => mem_gridCells.mpr (mem_diagonal1.mp hp))
  · exact List.subperm_of_subset (nodup_gridCells rows cols)
      (fun p hp => mem_diagonal1.mpr (mem_gridCells.mp hp))

theorem diag2_perm (rows cols : ℕ) :
    (diagonal2Positions rows cols).Perm (gridCells rows cols) := by
  apply List.Subperm.antisymm
  · exact List.subperm_of_subset (nodup_diag2 rows cols)
      (fun p hp => mem_gridCells.mpr (mem_diagonal2.mp hp))
  · exact List.subperm_of_subset (nodup_gridCells rows cols)
      (fun p hp => mem_diagonal2.mpr (mem_gridCells.mp hp))

theorem diag1_length (rows cols : ℕ) :
    (diagonal1Positions rows cols).length = rows * cols := by
  rw [(diag1_perm rows cols).length_eq, length_gridCells]

theorem diag2_length (rows cols : ℕ) :
    (diagonal2Positions rows cols).length = rows * cols := by
  rw [(diag2_perm rows cols).length_eq, length_gridCells]

theorem diag1_count {rows cols : ℕ} {p : Pos} (h : InBounds rows cols p) :
    countPos p (diagonal1Positions rows cols) = 1 :=
  countPos_eq_one_of_nodup_mem (nodup_diag1 rows cols) (mem_diagonal1.mpr h)

theorem diag2_count {rows cols : ℕ} {p : Pos} (h : InBounds rows cols p) :
    countPos p (diagonal2Positions rows cols) = 1 :=
  countPos_eq_one_of_nodup_mem (nodup_diag2 rows cols) (mem_diagonal2.mpr h)

end Diagonal

/-! ### ScanByDiagonalProgram -/

namespace ScanByDiagonal

/-- Mutable fields of `ScanByDiagonalProgram` (phases: 0 initial, 1 first
diagonal scan, 2 second diagonal scan, 3 fill, 4 done).  The immutable
`diagonal1Positions` / `diagonal2Positions` lists are the `path1` / `path2`
parameters of `update`. -/
structure State where
  phase : ℕ
  lastBrickPos : Option Pos
  fillCounter : ℕ
  frameCounter : ℤ
  diagonal1Index : ℕ
  diagonal2Index : ℕ
  fillIndex : ℕ
deriving DecidableEq

/-- `isDone()`. -/
def isDone (s : State) : Bool := s.phase == 4

/-- `update()` case 1: first diagonal scan. -/
def diag1Step (rows cols : ℕ) (path1 : List Pos) (s : State) (g : Grid) : State × Grid :=
  let g := ScanByLine.eraseLast rows cols s.lastBrickPos g
  if s.diagonal1Index < path1.length then
    let pos := path1.getD s.diagonal1Index (0, 0)
    ({ s with lastBrickPos := some pos, diagonal1Index := s.diagonal1Index + 1 },
      updateGridCell rows cols pos.1 pos.2 CELL_BRICK g)
  else
    let g := ScanByLine.eraseLast rows cols s.lastBrickPos g
    ({ s with lastBrickPos := none, phase := 2 }, g)

/-- `update()` case 2: second diagonal scan. -/
def diag2Step (rows cols : ℕ) (path2 : List Pos) (s : State) (g : Grid) : State × Grid :=
  let g := ScanByLine.eraseLast rows cols s.lastBrickPos g
  if s.diagonal2Index < path2.length then
    let pos := path2.getD s.diagonal2Index (0, 0)
    ({ s with lastBrickPos := some pos, diagonal2Index := s.diagonal2Index + 1 },
      updateGridCell rows cols pos.1 pos.2 CELL_BRICK g)
  else
    let g := ScanByLine.eraseLast rows cols s.lastBrickPos g
    ({ s with lastBrickPos := none, phase := 3, fillIndex := 0 }, g)

/-- `update()` case 3: fill along the first diagonal family wherever CLAY. -/
def fillStep (rows cols : ℕ) (path1 : List Pos) (s : State) (g : Grid) : State × Grid :=
  if s.fillIndex < path1.length then
    let pos := path1.getD s.fillIndex (0, 0)
    if g pos.1 pos.2 == CELL_CLAY then
      ({ s with fillCounter := s.fillCounter + 1, fillIndex := s.fillIndex + 1 },
        updateGridCell rows cols pos.1 pos.2 CELL_BRICK g)
    else
      ({ s with fillIndex := s.fillIndex + 1 }, g)
  else
    ({ s with phase := 4 }, g)

/-- `ScanByDiagonalProgram.update()`. -/
def update (rows cols : ℕ) (path1 path2 : List Pos) (c : State × Grid) : State × Grid :=
  if isDone c.1 then c
  else
    let fc := c.1.frameCounter + ANIMATION_SPEED
    if fc < 1 then ({ c.1 with frameCounter := fc }, c.2)
    else
      let s := { c.1 with frameCounter := fc % 1 }
      match s.phase with
      | 1 => diag1Step rows cols path1 s c.2
      | 2 => diag2Step rows cols path2 s c.2
      | 3 => fillStep rows cols path1 s c.2
      | _ => (s, c.2)

/-- `ScanByDiagonalProgram.reset()`. -/
def reset (rows cols : ℕ) (c : State × Grid) : State × Grid :=
  (⟨1, none, 0, 0, 0, 0, 0⟩, clearGrid rows cols c.2)

/-- Reachable-state invariant. -/
def Inv (rows cols : ℕ) (path1 path2 : List Pos) (c : State × Grid) : Prop :=
  (c.1.phase = 1 ∨ c.1.phase = 2 ∨ c.1.phase = 3 ∨ c.1.phase = 4)
  ∧ c.1.frameCounter = 0
  ∧ cellsLegal rows cols c.2
  ∧ c.1.diagonal1Index ≤ path1.length
  ∧ c.1.diagonal2Index ≤ path2.length
  ∧ (c.1.phase = 3 → c.1.fillIndex ≤ path1.length ∧
      ∀ p ∈ path1.take c.1.fillIndex, InBounds rows cols p → c.2 p.1 p.2 = CELL_BRICK)
  ∧ (c.1.phase = 4 → allCellsEq rows cols CELL_BRICK c.2)

/-- Steps remaining until `isDone()`. -/
def meas (path1 path2 : List Pos) (c : State × Grid) : ℕ :=
  match c.1.phase with
  | 1 => (path1.length - c.1.diagonal1Index) + 1 + (path2.length + 1) + (path1.length + 1)
  | 2 => (path2.length - c.1.diagonal2Index) + 1 + (path1.length + 1)
  | 3 => (path1.length - c.1.fillIndex) + 1
  | _ => 0

theorem update_done_diag {rows cols : ℕ} {path1 path2 : List Pos} {c : State × Grid}
    (h : isDone c.1 = true) : update rows cols path1 path2 c = c := by
  rw [update, if_pos h]

theorem update_char_diag (rows cols : ℕ) (path1 path2 : List Pos) (s : State) (g : Grid)
    (hd : isDone s = false) (hf : s.frameCounter = 0) :
    update rows cols path1 path2 (s, g) =
      match s.phase with
      | 1 => diag1Step rows cols path1 s g
      | 2 => diag2Step rows cols path2 s g
      | 3 => fillStep rows cols path1 s g
      | _ => (s, g) := by
  have h1 : ¬ (isDone s = true) := by simp [hd]
  have hs : { s with frameCounter := (s.frameCounter + ANIMATION_SPEED) % 1 } = s := by
    cases s
    simp_all [ANIMATION_SPEED]
  rw [update, if_neg h1, if_neg (by rw [hf]; norm_num [ANIMATION_SPEED]), hs]

theorem update_phase1_diag {rows cols : ℕ} {path1 path2 : List Pos} {s : State} {g : Grid}
    (hp : s.phase = 1) (hf : s.frameCounter = 0) :
    update rows cols path1 path2 (s, g) = diag1Step rows cols path1 s g := by
  rw [update_char_diag rows cols path1 path2 s g (by simp [isDone, hp]) hf, hp]

theorem update_phase2_diag {rows cols : ℕ} {path1 path2 : List Pos} {s : State} {g : Grid}
    (hp : s.phase = 2) (hf : s.frameCounter = 0) :
    update rows cols path1 path2 (s, g) = diag2Step rows cols path2 s g := by
  rw [update_char_diag rows cols path1 path2 s g (by simp [isDone, hp]) hf, hp]

theorem update_phase3_diag {rows cols : ℕ} {path1 path2 : List Pos} {s : State} {g : Grid}
    (hp : s.phase = 3) (hf : s.frameCounter = 0) :
    update rows cols path1 path2 (s, g) = fillStep rows cols path1 s g := by
  rw [update_char_diag rows cols path1 path2 s g (by simp [isDone, hp]) hf, hp]

theorem inv_step_diag (rows cols : ℕ) (path1 path2 : List Pos)
    (hcov : ∀ p ∈ gridCells rows cols, p ∈ path1)
    (c : State × Grid) (h : Inv rows cols path1 path2 c) :
    Inv rows cols path1 path2 (update rows cols path1 path2 c) := by
  obtain ⟨s, g⟩ := c
  obtain ⟨hph, hf, hleg, h1, h2, h3, h4⟩ := h
  dsimp only at hph hf hleg h1 h2 h3 h4
  rcases hph with hp | hp | hp | hp
  · rw [update_phase1_diag hp hf]
    simp only [diag1Step]
    split_ifs with hidx
    · refine ⟨Or.inl hp, hf, ?_, ?_, ?_, ?_, ?_⟩
      · exact cellsLegal_update (Or.inr rfl) (ScanBySpiral.eraseLast_legal hleg)
      · dsimp only
        omega
      · dsimp only
        omega
      · intro hcon
        dsimp only at hcon
        omega
      · intro hcon
        dsimp only at hcon
        omega
    · refine ⟨Or.inr (Or.inl rfl), hf, ?_, ?_, ?_, ?_, ?_⟩
      · exact ScanBySpiral.eraseLast_legal (ScanBySpiral.eraseLast_legal hleg)
      · dsimp only
        omega
      · dsimp only
        omega
      · intro hcon
        dsimp only at hcon
        omega
      · intro hcon
        dsimp only at hcon
        omega
  · rw [update_phase2_diag hp hf]
    simp only [diag2Step]
    split_ifs with hidx
    · refine ⟨Or.inr (Or.inl hp), hf, ?_, ?_, ?_, ?_, ?_⟩
      · exact cellsLegal_update (Or.inr rfl) (ScanBySpiral.eraseLast_legal hleg)
      · dsimp only
        omega
      · dsimp only
        omega
      · intro hcon
        dsimp only at hcon
        omega
      · intro hcon
        dsimp only at hcon
        omega
    · refine ⟨Or.inr (Or.inr (Or.inl rfl)), hf, ?_, ?_, ?_, ?_, ?_⟩
      · exact ScanBySpiral.eraseLast_legal (ScanBySpiral.eraseLast_legal hleg)
      · dsimp only
        omega
      · dsimp only
        omega
      · intro _
        dsimp only
        exact ⟨by omega, by simp⟩
      · intro hcon
        dsimp only at hcon
        omega
  · rw [update_phase3_diag hp hf]
    obtain ⟨hfl, htake⟩ := h3 hp
    simp only [fillStep]
    split_ifs with hidx hclay
    · refine ⟨Or.inr (Or.inr (Or.inl hp)), hf, ?_, ?_, ?_, ?_, ?_⟩
      · exact cellsLegal_update (Or.inr rfl) hleg
      · dsimp only
        omega
      · dsimp only
        omega
      · intro _
        dsimp only
        refine ⟨by omega, ?_⟩
        intro p hp2 hbp
        rcases ScanBySpiral.take_succ_mem hidx hp2 with hmem | rfl
        · rcases updateGridCell_cases rows cols (path1.getD s.fillIndex (0, 0)).1
            (path1.getD s.fillIndex (0, 0)).2 CELL_BRICK g p.1 p.2 with he | he
          · rw [he]
          · rw [he]
            exact htake p hmem hbp
        · exact updateGridCell_apply_same hbp
      · intro hcon
        dsimp only at hcon
        omega
    · refine ⟨Or.inr (Or.inr (Or.inl hp)), hf, hleg, ?_, ?_, ?_, ?_⟩
      · dsimp only
        omega
      · dsimp only
        omega
      · intro _
        dsimp only
        refine ⟨by omega, ?_⟩
        intro p hp2 hbp
        rcases ScanBySpiral.take_succ_mem hidx hp2 with hmem | rfl
        · exact htake p hmem hbp
        · rcases hleg _ (mem_gridCells.mpr hbp) with hc | hb
          · exfalso
            apply hclay
            rw [hc]
            exact beq_self_eq_true _
          · exact hb
      · intro hcon
        dsimp only at hcon
        omega
    · refine ⟨Or.inr (Or.inr (Or.inr rfl)), hf, hleg, ?_, ?_, ?_, ?_⟩
      · dsimp only
        omega
      · dsimp only
        omega
      · intro hcon
        dsimp only at hcon
        omega
      · intro _
        dsimp only
        intro p hp2
        have hmem : p ∈ path1.take s.fillIndex := by
          rw [List.take_of_length_le (by omega)]
          exact hcov p hp2
        exact htake p hmem (mem_gridCells.mp hp2)
  · rw [update_done_diag (by simp [isDone, hp])]
    exact ⟨Or.inr (Or.inr (Or.inr hp)), hf, hleg, h1, h2, h3, h4⟩

theorem meas_dec_diag (rows cols : ℕ) (path1 path2 : List Pos) (c : State × Grid)
    (h : Inv rows cols path1 path2 c) (hd : isDone c.1 = false) :
    meas path1 path2 (update rows cols path1 path2 c) < meas path1 path2 c := by
  obtain ⟨s, g⟩ := c
  obtain ⟨hph, hf, hleg, h1, h2, h3, h4⟩ := h
  dsimp only at hph hf hleg h1 h2 h3 h4 hd
  rcases hph with hp | hp | hp | hp
  · rw [update_phase1_diag hp hf]
    simp only [diag1Step]
    split_ifs with hidx
    · simp only [meas, hp]
      omega
    · simp only [meas, hp]
      omega
  · rw [update_phase2_diag hp hf]
    simp only [diag2Step]
    split_ifs with hidx
    · simp only [meas, hp]
      omega
    · simp only [meas, hp]
      omega
  · rw [update_phase3_diag hp hf]
    obtain ⟨hfl, htake⟩ := h3 hp
    simp only [fillStep]
    split_ifs with hidx hclay
    · simp only [meas, hp]
      omega
    · simp only [meas, hp]
      omega
    · simp only [meas, hp]
      omega
  · rw [isDone] at hd
    simp [hp] at hd

theorem inv_reset_diag (rows cols : ℕ) (path1 path2 : List Pos) (c : State × Grid) :
    Inv rows cols path1 path2 (reset rows cols c) := by
  have hclay : allCellsEq rows cols CELL_CLAY (clearGrid rows cols c.2) := by
    intro p hp
    rw [clearGrid_apply, if_pos (mem_gridCells.mp hp)]
  refine ⟨Or.inl rfl, rfl, allClay_legal hclay, ?_, ?_, ?_, ?_⟩
  · dsimp only [reset]
    omega
  · dsimp only [reset]
    omega
  · intro hcon
    dsimp only [reset] at hcon
    omega
  · intro hcon
    dsimp only [reset] at hcon
    omega

theorem meas_reset_diag (rows cols : ℕ) (path1 path2 : List Pos) (c : State × Grid) :
    meas path1 path2 (reset rows cols c)
      = 2 * path1.length + path2.length + 3 := by
  simp [meas, reset]
  omega

/-- ScanByDiagonal: at `isDone()` the grid is all BRICK. -/
theorem done_allBrick_diag (rows cols : ℕ) (path1 path2 : List Pos)
    (hcov : ∀ p ∈ gridCells rows cols, p ∈ path1) (c : State × Grid) (n : ℕ)
    (hd : isDone ((update rows cols path1 path2)^[n] (reset rows cols c)).1 = true) :
    allCellsEq rows cols CELL_BRICK
      ((update rows cols path1 path2)^[n] (reset rows cols c)).2 := by
  have hinv := inv_iterate (update rows cols path1 path2) (Inv rows cols path1 path2)
    (inv_step_diag rows cols path1 path2 hcov) n _ (inv_reset_diag rows cols path1 path2 c)
  obtain ⟨hph, hf, hleg, h1, h2, h3, h4⟩ := hinv
  apply h4
  rw [isDone] at hd
  simpa using hd

/-- ScanByDiagonal: done within `80 * rows * cols` updates. -/
theorem done_by_diag (rows cols : ℕ) (path1 path2 : List Pos)
    (hcov : ∀ p ∈ gridCells rows cols, p ∈ path1)
    (hlen1 : path1.length = rows * cols) (hlen2 : path2.length = rows * cols)
    (c : State × Grid) (h1 : 1 ≤ rows) (h2 : 1 ≤ cols) :
    isDone ((update rows cols path1 path2)^[80 * (rows * cols)]
      (reset rows cols c)).1 = true := by
  apply done_within_measure (update rows cols path1 path2) (fun x => isDone x.1)
    (Inv rows cols path1 path2) (meas path1 path2) (inv_step_diag rows cols path1 path2 hcov)
    (meas_dec_diag rows cols path1 path2) (fun x hx => update_done_diag hx)
  · exact inv_reset_diag rows cols path1 path2 c
  · rw [meas_reset_diag, hlen1, hlen2]
    have h3 : 1 ≤ rows * cols := Nat.one_le_iff_ne_zero.mpr (by positivity)
    omega

end ScanByDiagonal

/-! ### Radial path generator (`ScanByRadiationProgram.generateRadiationPaths`)

The source assigns each grid cell to one of 24 rays by rounding its
`atan2` angle from the center, then sorts each ray's members by ascending
Euclidean distance from the center (JS `sort`, stable) and concatenates the
rays: rays `0..23` for the clockwise path, rays `23..0` for the
counter-clockwise path.  The float `atan2`/`round` assignment is embedded
as an abstract parameter `rayOf : Pos → ℕ` (the theorems quantify over
every assignment landing in `0..23`); the distance comparison is embedded
exactly via squared distance (`√` is strictly monotone on nonnegatives, so
ordering by distance and by squared distance coincide), and JS's stable
`sort` by `List.mergeSort`, which is stable. -/

namespace Radiation

/-- Squared Euclidean distance from the center `(cr, cc)`. -/
def distSq (cr cc : ℤ) (p : Pos) : ℤ := (p.1 - cr) ^ 2 + (p.2 - cc) ^ 2

/-- Comparator `a.distance - b.distance <= 0` of the source's sort,
expressed on squared distances. -/
def distLe (cr cc : ℤ) (p q : Pos) : Bool := distSq cr cc p ≤ distSq cr cc q

/-- The members of ray `i`: the grid cells assigned to ray `i`, in row-major
order (the source pushes them in row-major loop order), sorted stably by
ascending distance from the center. -/
def rayList (rows cols : ℕ) (cr cc : ℤ) (rayOf : Pos → ℕ) (i : ℕ) : List Pos :=
  ((gridCells rows cols).filter (fun p => rayOf p == i)).mergeSort (distLe cr cc)

/-- `clockwisePositions`: rays in ascending order `0..23`. -/
def clockwisePositions (rows cols : ℕ) (cr cc : ℤ) (rayOf : Pos → ℕ) : List Pos :=
  (List.range 24).flatMap (rayList rows cols cr cc rayOf)

/-- `counterclockwisePositions`: rays in descending order `23..0`. -/
def counterclockwisePositions (rows cols : ℕ) (cr cc : ℤ) (rayOf : Pos → ℕ) : List Pos :=
  (List.range 24).reverse.flatMap (rayList rows cols cr cc rayOf)

theorem distLe_trans (cr cc : ℤ) (a b c : Pos)
    (h1 : distLe cr cc a b = true) (h2 : distLe cr cc b c = true) :
    distLe cr cc a c = true := by
  simp only [distLe, decide_eq_true_eq] at *
  omega

theorem distLe_total (cr cc : ℤ) (a b : Pos) :
    (distLe cr cc a b || distLe cr cc b a) = true := by
  simp only [distLe, Bool.or_eq_true, decide_eq_true_eq]
  omega

theorem rayList_sorted (rows cols : ℕ) (cr cc : ℤ) (rayOf : Pos → ℕ) (i : ℕ) :
    List.Pairwise (fun p q => distSq cr cc p ≤ distSq cr cc q)
      (rayList rows cols cr cc rayOf i) := by
  have h := List.sorted_mergeSort
    (distLe_trans cr cc) (distLe_total cr cc)
    ((gridCells rows cols).filter (fun p => rayOf p == i))
  refine h.imp ?_
  intro p q hb
  simpa [distLe] using hb

theorem rayList_perm (rows cols : ℕ) (cr cc : ℤ) (rayOf : Pos → ℕ) (i : ℕ) :
    (rayList rows cols cr cc rayOf i).Perm
      ((gridCells rows cols).filter (fun p => rayOf p == i)) :=
  List.mergeSort_perm _ _

theorem mem_rayList {rows cols : ℕ} {cr cc : ℤ} {rayOf : Pos → ℕ} {i : ℕ} {p : Pos} :
    p ∈ rayList rows cols cr cc rayOf i ↔ p ∈ gridCells rows cols ∧ rayOf p = i := by
  rw [(rayList_perm rows cols cr cc rayOf i).mem_iff, List.mem_filter]
  simp

theorem nodup_rayList (rows cols : ℕ) (cr cc : ℤ) (rayOf : Pos → ℕ) (i : ℕ) :
    (rayList rows cols cr cc rayOf i).Nodup :=
  ((nodup_gridCells rows cols).filter _).perm
    (rayList_perm rows cols cr cc rayOf i).symm

theorem mem_flatMap_rays {rows cols : ℕ} {cr cc : ℤ} {rayOf : Pos → ℕ}
    {l : List ℕ} {p : Pos} :
    p ∈ l.flatMap (rayList rows cols cr cc rayOf) ↔
      p ∈ gridCells rows cols ∧ rayOf p ∈ l := by
  rw [List.mem_flatMap]
  constructor
  · rintro ⟨i, hi, hp⟩
    obtain ⟨hg, hr⟩ := mem_rayList.mp hp
    exact ⟨hg, hr ▸ hi⟩
  · rintro ⟨hg, hr⟩
    exact ⟨rayOf p, hr, mem_rayList.mpr ⟨hg, rfl⟩⟩

theorem nodup_flatMap_rays (rows cols : ℕ) (cr cc : ℤ) (rayOf : Pos → ℕ)
    (l : List ℕ) (hnd : l.Nodup) :
    (l.flatMap (rayList rows cols cr cc rayOf)).Nodup := by
  induction l with
  | nil => simp
  | cons a l ih =>
    rw [List.flatMap_cons]
    refine List.Nodup.append (nodup_rayList rows cols cr cc rayOf a)
      (ih hnd.of_cons) ?_
    intro p hp1 hp2
    obtain ⟨hg, hr⟩ := mem_rayList.mp hp1
    obtain ⟨-, hr2⟩ := mem_flatMap_rays.mp hp2
    rw [hr] at hr2
    exact (List.nodup_cons.mp hnd).1 hr2

theorem flatMap_rays_perm (rows cols : ℕ) (cr cc : ℤ) (rayOf : Pos → ℕ)
    (hray : ∀ p ∈ gridCells rows cols, rayOf p < 24)
    (l : List ℕ) (hnd : l.Nodup) (hall : ∀ i < 24, i ∈ l) :
    (l.flatMap (rayList rows cols cr cc rayOf)).Perm (gridCells rows cols) := by
  apply List.Subperm.antisymm
  · exact (nodup_flatMap_rays rows cols cr cc rayOf l hnd).subperm
      (fun p hp => (mem_flatMap_rays.mp hp).1)
  · exact (nodup_gridCells rows cols).subperm
      (fun p hp => mem_flatMap_rays.mpr ⟨hp, hall _ (hray p hp)⟩)

theorem clockwise_perm (rows cols : ℕ) (cr cc : ℤ) (rayOf : Pos → ℕ)
    (hray : ∀ p ∈ gridCells rows cols, rayOf p < 24) :
    (clockwisePositions rows cols cr cc rayOf).Perm (gridCells rows cols) :=
  flatMap_rays_perm rows cols cr cc rayOf hray _ (List.nodup_range 24)
    (fun i hi => List.mem_range.mpr hi)

theorem counterclockwise_perm (rows cols : ℕ) (cr cc : ℤ) (rayOf : Pos → ℕ)
    (hray : ∀ p ∈ gridCells rows cols, rayOf p < 24) :
    (counterclockwisePositions rows cols cr cc rayOf).Perm (gridCells rows cols) :=
  flatMap_rays_perm rows cols cr cc rayOf hray _
    (List.nodup_reverse.mpr (List.nodup_range 24))
    (fun i hi => List.mem_reverse.mpr (List.mem_range.mpr hi))

theorem countPos_clockwise (rows cols : ℕ) (cr cc : ℤ) (rayOf : Pos → ℕ)
    (hray : ∀ p ∈ gridCells rows cols, rayOf p < 24)
    (p : Pos) (hp : p ∈ gridCells rows cols) :
    countPos p (clockwisePositions rows cols cr cc rayOf) = 1 := by
  rw [countPos, (clockwise_perm rows cols cr cc rayOf hray).countP_eq]
  exact count_gridCells_of_mem hp

theorem countPos_counterclockwise (rows cols : ℕ) (cr cc : ℤ) (rayOf : Pos → ℕ)
    (hray : ∀ p ∈ gridCells rows cols, rayOf p < 24)
    (p : Pos) (hp : p ∈ gridCells rows cols) :
    countPos p (counterclockwisePositions rows cols cr cc rayOf) = 1 := by
  rw [countPos, (counterclockwise_perm rows cols cr cc rayOf hray).countP_eq]
  exact count_gridCells_of_mem hp

theorem clockwise_covers (rows cols : ℕ) (cr cc : ℤ) (rayOf : Pos → ℕ)
    (hray : ∀ p ∈ gridCells rows cols, rayOf p < 24) :
    ∀ p ∈ gridCells rows cols, p ∈ clockwisePositions rows cols cr cc rayOf :=
  fun p hp => (clockwise_perm rows cols cr cc rayOf hray).mem_iff.mpr hp

theorem clockwise_length (rows cols : ℕ) (cr cc : ℤ) (rayOf : Pos → ℕ)
    (hray : ∀ p ∈ gridCells rows cols, rayOf p < 24) :
    (clockwisePositions rows cols cr cc rayOf).length = rows * cols := by
  rw [(clockwise_perm rows cols cr cc rayOf hray).length_eq, length_gridCells]

theorem counterclockwise_length (rows cols : ℕ) (cr cc : ℤ) (rayOf : Pos → ℕ)
    (hray : ∀ p ∈ gridCells rows cols, rayOf p < 24) :
    (counterclockwisePositions rows cols cr cc rayOf).length = rows * cols := by
  rw [(counterclockwise_perm rows cols cr cc rayOf hray).length_eq, length_gridCells]

end Radiation

/-! ### ScanByRadiationProgram -/

namespace ScanByRadiation

/-- Mutable fields of `ScanByRadiationProgram` (phases: 0 initial, 1 clockwise
radiation scan, 2 counterclockwise radiation scan, 3 clockwise fill, 4 done).
The immutable `clockwisePositions` / `counterclockwisePositions` lists computed
by the constructor are the `pathCW` / `pathCCW` parameters of `update`. -/
structure State where
  phase : ℕ
  lastBrickPos : Option Pos
  fillCounter : ℕ
  frameCounter : ℤ
  clockwiseIndex : ℕ
  counterclockwiseIndex : ℕ
  fillIndex : ℕ
deriving DecidableEq

/-- `isDone()`. -/
def isDone (s : State) : Bool := s.phase == 4

/-- `update()` case 1: clockwise radiation scan. -/
def cwStep (rows cols : ℕ) (pathCW : List Pos) (s : State) (g : Grid) : State × Grid :=
  let g := ScanByLine.eraseLast rows cols s.lastBrickPos g
  if s.clockwiseIndex < pathCW.length then
    let pos := pathCW.getD s.clockwiseIndex (0, 0)
    ({ s with lastBrickPos := some pos, clockwiseIndex := s.clockwiseIndex + 1 },
      updateGridCell rows cols pos.1 pos.2 CELL_BRICK g)
  else
    let g := ScanByLine.eraseLast rows cols s.lastBrickPos g
    ({ s with lastBrickPos := none, phase := 2 }, g)

/-- `update()` case 2: counterclockwise radiation scan. -/
def ccwStep (rows cols : ℕ) (pathCCW : List Pos) (s : State) (g : Grid) : State × Grid :=
  let g := ScanByLine.eraseLast rows cols s.lastBrickPos g
  if s.counterclockwiseIndex < pathCCW.length then
    let pos := pathCCW.getD s.counterclockwiseIndex (0, 0)
    ({ s with
        lastBrickPos := some pos
        counterclockwiseIndex := s.counterclockwiseIndex + 1 },
      updateGridCell rows cols pos.1 pos.2 CELL_BRICK g)
  else
    let g := ScanByLine.eraseLast rows cols s.lastBrickPos g
    ({ s with lastBrickPos := none, phase := 3, fillIndex := 0 }, g)

/-- `update()` case 3: fill along the clockwise pattern wherever CLAY. -/
def fillStep (rows cols : ℕ) (pathCW : List Pos) (s : State) (g : Grid) : State × Grid :=
  if s.fillIndex < pathCW.length then
    let pos := pathCW.getD s.fillIndex (0, 0)
    if g pos.1 pos.2 == CELL_CLAY then
      ({ s with fillCounter := s.fillCounter + 1, fillIndex := s.fillIndex + 1 },
        updateGridCell rows cols pos.1 pos.2 CELL_BRICK g)
    else
      ({ s with fillIndex := s.fillIndex + 1 }, g)
  else
    ({ s with phase := 4 }, g)

/-- `ScanByRadiationProgram.update()`. -/
def update (rows cols : ℕ) (pathCW pathCCW : List Pos) (c : State × Grid) :
    State × Grid :=
  if isDone c.1 then c
  else
    let fc := c.1.frameCounter + ANIMATION_SPEED
    if fc < 1 then ({ c.1 with frameCounter := fc }, c.2)
    else
      let s := { c.1 with frameCounter := fc % 1 }
      match s.phase with
      | 1 => cwStep rows cols pathCW s c.2
      | 2 => ccwStep rows cols pathCCW s c.2
      | 3 => fillStep rows cols pathCW s c.2
      | _ => (s, c.2)

/-- `ScanByRadiationProgram.reset()`. -/
def reset (rows cols : ℕ) (c : State × Grid) : State × Grid :=
  (⟨1, none, 0, 0, 0, 0, 0⟩, clearGrid rows cols c.2)

/-- Reachable-state invariant. -/
def Inv (rows cols : ℕ) (pathCW pathCCW : List Pos) (c : State × Grid) : Prop :=
  (c.1.phase = 1 ∨ c.1.phase = 2 ∨ c.1.phase = 3 ∨ c.1.phase = 4)
  ∧ c.1.frameCounter = 0
  ∧ cellsLegal rows cols c.2
  ∧ c.1.clockwiseIndex ≤ pathCW.length
  ∧ c.1.counterclockwiseIndex ≤ pathCCW.length
  ∧ (c.1.phase = 3 → c.1.fillIndex ≤ pathCW.length ∧
      ∀ p ∈ pathCW.take c.1.fillIndex, InBounds rows cols p → c.2 p.1 p.2 = CELL_BRICK)
  ∧ (c.1.phase = 4 → allCellsEq rows cols CELL_BRICK c.2)

/-- Steps remaining until `isDone()`. -/
def meas (pathCW pathCCW : List Pos) (c : State × Grid) : ℕ :=
  match c.1.phase with
  | 1 => (pathCW.length - c.1.clockwiseIndex) + 1 + (pathCCW.length + 1)
      + (pathCW.length + 1)
  | 2 => (pathCCW.length - c.1.counterclockwiseIndex) + 1 + (pathCW.length + 1)
  | 3 => (pathCW.length - c.1.fillIndex) + 1
  | _ => 0

theorem update_done_rad {rows cols : ℕ} {pathCW pathCCW : List Pos} {c : State × Grid}
    (h : isDone c.1 = true) : update rows cols pathCW pathCCW c = c := by
  rw [update, if_pos h]

theorem update_char_rad (rows cols : ℕ) (pathCW pathCCW : List Pos) (s : State) (g : Grid)
    (hd : isDone s = false) (hf : s.frameCounter = 0) :
    update rows cols pathCW pathCCW (s, g) =
      match s.phase with
      | 1 => cwStep rows cols pathCW s g
      | 2 => ccwStep rows cols pathCCW s g
      | 3 => fillStep rows cols pathCW s g
      | _ => (s, g) := by
  have h1 : ¬ (isDone s = true) := by simp [hd]
  have hs : { s with frameCounter := (s.frameCounter + ANIMATION_SPEED) % 1 } = s := by
    cases s
    simp_all [ANIMATION_SPEED]
  rw [update, if_neg h1, if_neg (by rw [hf]; norm_num [ANIMATION_SPEED]), hs]

theorem update_phase1_rad {rows cols : ℕ} {pathCW pathCCW : List Pos} {s : State} {g : Grid}
    (hp : s.phase = 1) (hf : s.frameCounter = 0) :
    update rows cols pathCW pathCCW (s, g) = cwStep rows cols pathCW s g := by
  rw [update_char_rad rows cols pathCW pathCCW s g (by simp [isDone, hp]) hf, hp]

theorem update_phase2_rad {rows cols : ℕ} {pathCW pathCCW : List Pos} {s : State} {g : Grid}
    (hp : s.phase = 2) (hf : s.frameCounter = 0) :
    update rows cols pathCW pathCCW (s, g) = ccwStep rows cols pathCCW s g := by
  rw [update_char_rad rows cols pathCW pathCCW s g (by simp [isDone, hp]) hf, hp]

theorem update_phase3_rad {rows cols : ℕ} {pathCW pathCCW : List Pos} {s : State} {g : Grid}
    (hp : s.phase = 3) (hf : s.frameCounter = 0) :
    update rows cols pathCW pathCCW (s, g) = fillStep rows cols pathCW s g := by
  rw [update_char_rad rows cols pathCW pathCCW s g (by simp [isDone, hp]) hf, hp]

theorem inv_step_rad (rows cols : ℕ) (pathCW pathCCW : List Pos)
    (hcov : ∀ p ∈ gridCells rows cols, p ∈ pathCW)
    (c : State × Grid) (h : Inv rows cols pathCW pathCCW c) :
    Inv rows cols pathCW pathCCW (update rows cols pathCW pathCCW c) := by
  obtain ⟨s, g⟩ := c
  obtain ⟨hph, hf, hleg, h1, h2, h3, h4⟩ := h
  dsimp only at hph hf hleg h1 h2 h3 h4
  rcases hph with hp | hp | hp | hp
  · rw [update_phase1_rad hp hf]
    simp only [cwStep]
    split_ifs with hidx
    · refine ⟨Or.inl hp, hf, ?_, ?_, ?_, ?_, ?_⟩
      · exact cellsLegal_update (Or.inr rfl) (ScanBySpiral.eraseLast_legal hleg)
      · dsimp only
        omega
      · dsimp only
        omega
      · intro hcon
        dsimp only at hcon
        omega
      · intro hcon
        dsimp only at hcon
        omega
    · refine ⟨Or.inr (Or.inl rfl), hf, ?_, ?_, ?_, ?_, ?_⟩
      · exact ScanBySpiral.eraseLast_legal (ScanBySpiral.eraseLast_legal hleg)
      · dsimp only
        omega
      · dsimp only
        omega
      · intro hcon
        dsimp only at hcon
        omega
      · intro hcon
        dsimp only at hcon
        omega
  · rw [update_phase2_rad hp hf]
    simp only [ccwStep]
    split_ifs with hidx
    · refine ⟨Or.inr (Or.inl hp), hf, ?_, ?_, ?_, ?_, ?_⟩
      · exact cellsLegal_update (Or.inr rfl) (ScanBySpiral.eraseLast_legal hleg)
      · dsimp only
        omega
      · dsimp only
        omega
      · intro hcon
        dsimp only at hcon
        omega
      · intro hcon
        dsimp only at hcon
        omega
    · refine ⟨Or.inr (Or.inr (Or.inl rfl)), hf, ?_, ?_, ?_, ?_, ?_⟩
      · exact ScanBySpiral.eraseLast_legal (ScanBySpiral.eraseLast_legal hleg)
      · dsimp only
        omega
      · dsimp only
        omega
      · intro _
        dsimp only
        exact ⟨by omega, by simp⟩
      · intro hcon
        dsimp only at hcon
        omega
  · rw [update_phase3_rad hp hf]
    obtain ⟨hfl, htake⟩ := h3 hp
    simp only [fillStep]
    split_ifs with hidx hclay
    · refine ⟨Or.inr (Or.inr (Or.inl hp)), hf, ?_, ?_, ?_, ?_, ?_⟩
      · exact cellsLegal_update (Or.inr rfl) hleg
      · dsimp only
        omega
      · dsimp only
        omega
      · intro _
        dsimp only
        refine ⟨by omega, ?_⟩
        intro p hp2 hbp
        rcases ScanBySpiral.take_succ_mem hidx hp2 with hmem | rfl
        · rcases updateGridCell_cases rows cols (pathCW.getD s.fillIndex (0, 0)).1
            (pathCW.getD s.fillIndex (0, 0)).2 CELL_BRICK g p.1 p.2 with he | he
          · rw [he]
          · rw [he]
            exact htake p hmem hbp
        · exact updateGridCell_apply_same hbp
      · intro hcon
        dsimp only at hcon
        omega
    · refine ⟨Or.inr (Or.inr (Or.inl hp)), hf, hleg, ?_, ?_, ?_, ?_⟩
      · dsimp only
        omega
      · dsimp only
        omega
      · intro _
        dsimp only
        refine ⟨by omega, ?_⟩
        intro p hp2 hbp
        rcases ScanBySpiral.take_succ_mem hidx hp2 with hmem | rfl
        · exact htake p hmem hbp
        · rcases hleg _ (mem_gridCells.mpr hbp) with hc | hb
          · exfalso
            apply hclay
            rw [hc]
            exact beq_self_eq_true _
          · exact hb
      · intro hcon
        dsimp only at hcon
        omega
    · refine ⟨Or.inr (Or.inr (Or.inr rfl)), hf, hleg, ?_, ?_, ?_, ?_⟩
      · dsimp only
        omega
      · dsimp only
        omega
      · intro hcon
        dsimp only at hcon
        omega
      · intro _
        dsimp only
        intro p hp2
        have hmem : p ∈ pathCW.take s.fillIndex := by
          rw [List.take_of_length_le (by omega)]
          exact hcov p hp2
        exact htake p hmem (mem_gridCells.mp hp2)
  · rw [update_done_rad (by simp [isDone, hp])]
    exact ⟨Or.inr (Or.inr (Or.inr hp)), hf, hleg, h1, h2, h3, h4⟩

theorem meas_dec_rad (rows cols : ℕ) (pathCW pathCCW : List Pos) (c : State × Grid)
    (h : Inv rows cols pathCW pathCCW c) (hd : isDone c.1 = false) :
    meas pathCW pathCCW (update rows cols pathCW pathCCW c) < meas pathCW pathCCW c := by
  obtain ⟨s, g⟩ := c
  obtain ⟨hph, hf, hleg, h1, h2, h3, h4⟩ := h
  dsimp only at hph hf hleg h1 h2 h3 h4 hd
  rcases hph with hp | hp | hp | hp
  · rw [update_phase1_rad hp hf]
    simp only [cwStep]
    split_ifs with hidx
    · simp only [meas, hp]
      omega
    · simp only [meas, hp]
      omega
  · rw [update_phase2_rad hp hf]
    simp only [ccwStep]
    split_ifs with hidx
    · simp only [meas, hp]
      omega
    · simp only [meas, hp]
      omega
  · rw [update_phase3_rad hp hf]
    obtain ⟨hfl, htake⟩ := h3 hp
    simp only [fillStep]
    split_ifs with hidx hclay
    · simp only [meas, hp]
      omega
    · simp only [meas, hp]
      omega
    · simp only [meas, hp]
      omega
  · rw [isDone] at hd
    simp [hp] at hd

theorem inv_reset_rad (rows cols : ℕ) (pathCW pathCCW : List Pos) (c : State × Grid) :
    Inv rows cols pathCW pathCCW (reset rows cols c) := by
  have hclay : allCellsEq rows cols CELL_CLAY (clearGrid rows cols c.2) := by
    intro p hp
    rw [clearGrid_apply, if_pos (mem_gridCells.mp hp)]
  refine ⟨Or.inl rfl, rfl, allClay_legal hclay, ?_, ?_, ?_, ?_⟩
  · dsimp only [reset]
    omega
  · dsimp only [reset]
    omega
  · intro hcon
    dsimp only [reset] at hcon
    omega
  · intro hcon
    dsimp only [reset] at hcon
    omega

theorem meas_reset_rad (rows cols : ℕ) (pathCW pathCCW : List Pos) (c : State × Grid) :
    meas pathCW pathCCW (reset rows cols c)
      = 2 * pathCW.length + pathCCW.length + 3 := by
  simp [meas, reset]
  omega

/-- ScanByRadiation: at `isDone()` the grid is all BRICK. -/
theorem done_allBrick_rad (rows cols : ℕ) (pathCW pathCCW : List Pos)
    (hcov : ∀ p ∈ gridCells rows cols, p ∈ pathCW) (c : State × Grid) (n : ℕ)
    (hd : isDone ((update rows cols pathCW pathCCW)^[n] (reset rows cols c)).1 = true) :
    allCellsEq rows cols CELL_BRICK
      ((update rows cols pathCW pathCCW)^[n] (reset rows cols c)).2 := by
  have hinv := inv_iterate (update rows cols pathCW pathCCW) (Inv rows cols pathCW pathCCW)
    (inv_step_rad rows cols pathCW pathCCW hcov) n _ (inv_reset_rad rows cols pathCW pathCCW c)
  obtain ⟨hph, hf, hleg, h1, h2, h3, h4⟩ := hinv
  apply h4
  rw [isDone] at hd
  simpa using hd

/-- ScanByRadiation: done within `80 * rows * cols` updates. -/
theorem done_by_rad (rows cols : ℕ) (pathCW pathCCW : List Pos)
    (hcov : ∀ p ∈ gridCells rows cols, p ∈ pathCW)
    (hlen1 : pathCW.length = rows * cols) (hlen2 : pathCCW.length = rows * cols)
    (c : State × Grid) (h1 : 1 ≤ rows) (h2 : 1 ≤ cols) :
    isDone ((update rows cols pathCW pathCCW)^[80 * (rows * cols)]
      (reset rows cols c)).1 = true := by
  apply done_within_measure (update rows cols pathCW pathCCW) (fun x => isDone x.1)
    (Inv rows cols pathCW pathCCW) (meas pathCW pathCCW)
    (inv_step_rad rows cols pathCW pathCCW hcov)
    (meas_dec_rad rows cols pathCW pathCCW) (fun x hx => update_done_rad hx)
  · exact inv_reset_rad rows cols pathCW pathCCW c
  · rw [meas_reset_rad, hlen1, hlen2]
    have h3 : 1 ≤ rows * cols := Nat.one_le_iff_ne_zero.mpr (by positivity)
    omega

end ScanByRadiation


/-! ### SwipeByLineProgram -/

namespace SwipeByLine

/-- Mutable fields of `SwipeByLineProgram` (phases: 0 initial, 1 create
horizontal line, 2 swipe vertically, 3 create vertical line, 4 swipe
horizontally, 5 fill rows, 6 done). -/
structure State where
  phase : ℕ
  frameCounter : ℤ
  currentRow : ℤ
  currentCol : ℤ
  verticalDirection : ℤ
  horizontalDirection : ℤ
  verticalSwipeCount : ℕ
  horizontalSwipeCount : ℕ
  fillRow : ℤ
deriving DecidableEq

/-- `maxSwipes` field: one back-and-forth cycle. -/
def maxSwipes : ℕ := 1

/-- The cells of grid row `row` (the `for c in 0..cols` loops). -/
def rowCells (cols : ℕ) (row : ℤ) : List Pos :=
  (List.range cols).map (fun (c : ℕ) => (row, (c : ℤ)))

/-- The cells of grid column `col` (the `for r in 0..rows` loops). -/
def colCells (rows : ℕ) (col : ℤ) : List Pos :=
  (List.range rows).map (fun (r : ℕ) => ((r : ℤ), col))

/-- `isDone()`. -/
def isDone (s : State) : Bool := s.phase == 6

/-- `update()` case 1: draw the initial horizontal line on row 0. -/
def hlineStep (rows cols : ℕ) (s : State) (g : Grid) : State × Grid :=
  ({ s with currentRow := 0, phase := 2 },
    paintList rows cols CELL_BRICK (rowCells cols 0) g)

/-- `update()` case 2: clear the current row, bounce off the boundaries,
redraw, and move on after `maxSwipes * 2` direction reversals. -/
def vswipeStep (rows cols : ℕ) (s : State) (g : Grid) : State × Grid :=
  let g1 := paintList rows cols CELL_CLAY (rowCells cols s.currentRow) g
  let s1 :=
    let r1 := s.currentRow + s.verticalDirection
    if r1 ≥ (rows : ℤ) - 1 then
      { s with
          currentRow := (rows : ℤ) - 1
          verticalDirection := -1
          verticalSwipeCount := s.verticalSwipeCount + 1 }
    else if r1 ≤ 0 then
      { s with
          currentRow := 0
          verticalDirection := 1
          verticalSwipeCount := s.verticalSwipeCount + 1 }
    else { s with currentRow := r1 }
  let g2 := paintList rows cols CELL_BRICK (rowCells cols s1.currentRow) g1
  if s1.verticalSwipeCount ≥ maxSwipes * 2 then
    ({ s1 with phase := 3 },
      paintList rows cols CELL_CLAY (rowCells cols s1.currentRow) g2)
  else (s1, g2)

/-- `update()` case 3: draw the initial vertical line on column 0. -/
def vlineStep (rows cols : ℕ) (s : State) (g : Grid) : State × Grid :=
  ({ s with currentCol := 0, phase := 4 },
    paintList rows cols CELL_BRICK (colCells rows 0) g)

/-- `update()` case 4: clear the current column, bounce, redraw, and move on
after `maxSwipes * 2` direction reversals. -/
def hswipeStep (rows cols : ℕ) (s : State) (g : Grid) : State × Grid :=
  let g1 := paintList rows cols CELL_CLAY (colCells rows s.currentCol) g
  let s1 :=
    let c1 := s.currentCol + s.horizontalDirection
    if c1 ≥ (cols : ℤ) - 1 then
      { s with
          currentCol := (cols : ℤ) - 1
          horizontalDirection := -1
          horizontalSwipeCount := s.horizontalSwipeCount + 1 }
    else if c1 ≤ 0 then
      { s with
          currentCol := 0
          horizontalDirection := 1
          horizontalSwipeCount := s.horizontalSwipeCount + 1 }
    else { s with currentCol := c1 }
  let g2 := paintList rows cols CELL_BRICK (colCells rows s1.currentCol) g1
  if s1.horizontalSwipeCount ≥ maxSwipes * 2 then
    ({ s1 with phase := 5, fillRow := 0 },
      paintList rows cols CELL_CLAY (colCells rows s1.currentCol) g2)
  else (s1, g2)

/-- `update()` case 5: fill the remaining rows top to bottom. -/
def fillStep (rows cols : ℕ) (s : State) (g : Grid) : State × Grid :=
  if s.fillRow < (rows : ℤ) then
    ({ s with fillRow := s.fillRow + 1 },
      paintList rows cols CELL_BRICK (rowCells cols s.fillRow) g)
  else
    ({ s with phase := 6 }, g)

/-- `SwipeByLineProgram.update()`. -/
def update (rows cols : ℕ) (c : State × Grid) : State × Grid :=
  if isDone c.1 then c
  else
    let fc := c.1.frameCounter + ANIMATION_SPEED
    if fc < 1 then ({ c.1 with frameCounter := fc }, c.2)
    else
      let s := { c.1 with frameCounter := fc % 1 }
      match s.phase with
      | 1 => hlineStep rows cols s c.2
      | 2 => vswipeStep rows cols s c.2
      | 3 => vlineStep rows cols s c.2
      | 4 => hswipeStep rows cols s c.2
      | 5 => fillStep rows cols s c.2
      | _ => (s, c.2)

/-- `SwipeByLineProgram.reset()`. -/
def reset (rows cols : ℕ) (c : State × Grid) : State × Grid :=
  (⟨1, 0, 0, 0, 1, 1, 0, 0, 0⟩, clearGrid rows cols c.2)

/-- Reachable-state invariant. -/
def Inv (rows cols : ℕ) (c : State × Grid) : Prop :=
  (c.1.phase = 1 ∨ c.1.phase = 2 ∨ c.1.phase = 3 ∨ c.1.phase = 4
    ∨ c.1.phase = 5 ∨ c.1.phase = 6)
  ∧ c.1.frameCounter = 0
  ∧ (c.1.phase = 1 → c.1.verticalSwipeCount = 0 ∧ c.1.verticalDirection = 1)
  ∧ (c.1.phase = 1 ∨ c.1.phase = 2 ∨ c.1.phase = 3 →
      c.1.horizontalSwipeCount = 0 ∧ c.1.horizontalDirection = 1)
  ∧ (c.1.phase = 2 →
      (c.1.verticalSwipeCount = 0 ∧ c.1.verticalDirection = 1 ∨
        c.1.verticalSwipeCount = 1 ∧ c.1.verticalDirection = -1)
      ∧ 0 ≤ c.1.currentRow ∧ c.1.currentRow ≤ (rows : ℤ) - 1)
  ∧ (c.1.phase = 4 →
      (c.1.horizontalSwipeCount = 0 ∧ c.1.horizontalDirection = 1 ∨
        c.1.horizontalSwipeCount = 1 ∧ c.1.horizontalDirection = -1)
      ∧ 0 ≤ c.1.currentCol ∧ c.1.currentCol ≤ (cols : ℤ) - 1)
  ∧ (c.1.phase = 5 → 0 ≤ c.1.fillRow ∧
      ∀ p ∈ gridCells rows cols, p.1 < c.1.fillRow → c.2 p.1 p.2 = CELL_BRICK)
  ∧ (c.1.phase = 6 → allCellsEq rows cols CELL_BRICK c.2)

/-- Steps remaining until `isDone()`. -/
def meas (rows cols : ℕ) (c : State × Grid) : ℕ :=
  match c.1.phase with
  | 1 => 1 + (2 * rows + 2) + 1 + (2 * cols + 2) + (rows + 1)
  | 2 => (if c.1.verticalSwipeCount = 0
      then ((rows : ℤ) - 1 - c.1.currentRow).toNat + rows + 1
      else c.1.currentRow.toNat + 1) + 1 + (2 * cols + 2) + (rows + 1)
  | 3 => 1 + (2 * cols + 2) + (rows + 1)
  | 4 => (if c.1.horizontalSwipeCount = 0
      then ((cols : ℤ) - 1 - c.1.currentCol).toNat + cols + 1
      else c.1.currentCol.toNat + 1) + (rows + 1)
  | 5 => (rows - c.1.fillRow.toNat) + 1
  | _ => 0

theorem update_done_swl {rows cols : ℕ} {c : State × Grid}
    (h : isDone c.1 = true) : update rows cols c = c := by
  rw [update, if_pos h]

theorem update_char_swl (rows cols : ℕ) (s : State) (g : Grid)
    (hd : isDone s = false) (hf : s.frameCounter = 0) :
    update rows cols (s, g) =
      match s.phase with
      | 1 => hlineStep rows cols s g
      | 2 => vswipeStep rows cols s g
      | 3 => vlineStep rows cols s g
      | 4 => hswipeStep rows cols s g
      | 5 => fillStep rows cols s g
      | _ => (s, g) := by
  have h1 : ¬ (isDone s = true) := by simp [hd]
  have hs : { s with frameCounter := (s.frameCounter + ANIMATION_SPEED) % 1 } = s := by
    cases s
    simp_all [ANIMATION_SPEED]
  rw [update, if_neg h1, if_neg (by rw [hf]; norm_num [ANIMATION_SPEED]), hs]

theorem update_phase1_swl {rows cols : ℕ} {s : State} {g : Grid}
    (hp : s.phase = 1) (hf : s.frameCounter = 0) :
    update rows cols (s, g) = hlineStep rows cols s g := by
  rw [update_char_swl rows cols s g (by simp [isDone, hp]) hf, hp]

theorem update_phase2_swl {rows cols : ℕ} {s : State} {g : Grid}
    (hp : s.phase = 2) (hf : s.frameCounter = 0) :
    update rows cols (s, g) = vswipeStep rows cols s g := by
  rw [update_char_swl rows cols s g (by simp [isDone, hp]) hf, hp]

theorem update_phase3_swl {rows cols : ℕ} {s : State} {g : Grid}
    (hp : s.phase = 3) (hf : s.frameCounter = 0) :
    update rows cols (s, g) = vlineStep rows cols s g := by
  rw [update_char_swl rows cols s g (by simp [isDone, hp]) hf, hp]

theorem update_phase4_swl {rows cols : ℕ} {s : State} {g : Grid}
    (hp : s.phase = 4) (hf : s.frameCounter = 0) :
    update rows cols (s, g) = hswipeStep rows cols s g := by
  rw [update_char_swl rows cols s g (by simp [isDone, hp]) hf, hp]

theorem update_phase5_swl {rows cols : ℕ} {s : State} {g : Grid}
    (hp : s.phase = 5) (hf : s.frameCounter = 0) :
    update rows cols (s, g) = fillStep rows cols s g := by
  rw [update_char_swl rows cols s g (by simp [isDone, hp]) hf, hp]

theorem fill_row_brick {rows cols : ℕ} {g : Grid} {row : ℤ} {p : Pos}
    (hp : p ∈ gridCells rows cols) (h : p.1 = row) :
    paintList rows cols CELL_BRICK (rowCells cols row) g p.1 p.2 = CELL_BRICK := by
  obtain ⟨hb1, hb2, hb3, hb4⟩ := mem_gridCells.mp hp
  rw [paintList_apply]
  rw [if_pos]
  constructor
  · rw [rowCells, List.mem_map]
    refine ⟨p.2.toNat, List.mem_range.mpr (by omega), ?_⟩
    have : ((p.2.toNat : ℕ) : ℤ) = p.2 := by omega
    rw [this, ← h]
  · exact ⟨hb1, hb2, hb3, hb4⟩

theorem fill_row_other {rows cols : ℕ} {g : Grid} {row : ℤ} {v : ℕ} {r c : ℤ}
    (h : r ≠ row) :
    paintList rows cols v (rowCells cols row) g r c = g r c := by
  rw [paintList_apply, if_neg]
  rintro ⟨hmem, -⟩
  rw [rowCells, List.mem_map] at hmem
  obtain ⟨k, -, hk⟩ := hmem
  exact h (congrArg Prod.fst hk.symm)

theorem inv_step_swl (rows cols : ℕ) (h1 : 1 ≤ rows) (h2 : 1 ≤ cols)
    (c : State × Grid) (h : Inv rows cols c) : Inv rows cols (update rows cols c) := by
  obtain ⟨s, g⟩ := c
  obtain ⟨hph, hf, hv1, hh13, hp2, hp4, hp5, hp6⟩ := h
  dsimp only at hph hf hv1 hh13 hp2 hp4 hp5 hp6
  rcases hph with hp | hp | hp | hp | hp | hp
  · rw [update_phase1_swl hp hf]
    obtain ⟨hc0, hd1⟩ := hv1 hp
    obtain ⟨hh0, hh1⟩ := hh13 (Or.inl hp)
    simp only [hlineStep]
    refine ⟨?_, ?_, ?_, ?_, ?_, ?_, ?_, ?_⟩ <;>
      first
      | (intro hcon
         dsimp only at hcon
         exact absurd hcon (by omega))
      | (dsimp only
         omega)
      | (intro hcon
         dsimp only
         omega)
  · rw [update_phase2_swl hp hf]
    obtain ⟨hcd, hr0, hr1⟩ := hp2 hp
    obtain ⟨hh0, hh1⟩ := hh13 (Or.inr (Or.inl hp))
    simp only [vswipeStep, maxSwipes]
    split_ifs with hA hcnt hB hcnt2 hcnt3 <;> dsimp only at * <;>
      (refine ⟨?_, ?_, ?_, ?_, ?_, ?_, ?_, ?_⟩ <;>
        first
        | (intro hcon
           dsimp only at hcon
           exact absurd hcon (by omega))
        | (dsimp only
           omega)
        | (intro hcon
           dsimp only
           omega))
  · rw [update_phase3_swl hp hf]
    obtain ⟨hh0, hh1⟩ := hh13 (Or.inr (Or.inr hp))
    simp only [vlineStep]
    refine ⟨?_, ?_, ?_, ?_, ?_, ?_, ?_, ?_⟩ <;>
      first
      | (intro hcon
         dsimp only at hcon
         exact absurd hcon (by omega))
      | (dsimp only
         omega)
      | (intro hcon
         dsimp only
         omega)
  · rw [update_phase4_swl hp hf]
    obtain ⟨hcd, hc0, hc1⟩ := hp4 hp
    simp only [hswipeStep, maxSwipes]
    split_ifs with hA hcnt hB hcnt2 hcnt3 <;> dsimp only at * <;>
      (refine ⟨?_, ?_, ?_, ?_, ?_, ?_, ?_, ?_⟩ <;>
        first
        | (intro hcon
           dsimp only at hcon
           exact absurd hcon (by omega))
        | (dsimp only
           omega)
        | (intro hcon
           dsimp only
           omega)
        | (intro hcon
           dsimp only
           refine ⟨by omega, ?_⟩
           intro p hpg hplt
           exact absurd hplt (by
             have hb1 := (mem_gridCells.mp hpg).1
             omega)))
  · rw [update_phase5_swl hp hf]
    obtain ⟨hf0, hfill⟩ := hp5 hp
    simp only [fillStep]
    split_ifs with hlt <;>
      (refine ⟨?_, ?_, ?_, ?_, ?_, ?_, ?_, ?_⟩ <;>
        first
        | (intro hcon
           dsimp only at hcon
           exact absurd hcon (by omega))
        | (dsimp only
           omega)
        | (intro hcon
           dsimp only
           omega)
        | (intro hcon
           dsimp only
           refine ⟨by omega, ?_⟩
           intro p hpg hplt
           by_cases hrow : p.1 = s.fillRow
           · exact fill_row_brick hpg hrow
           · rw [fill_row_other hrow]
             exact hfill p hpg (by omega))
        | (intro hcon
           dsimp only
           intro p hpg
           exact hfill p hpg (by
             have hb := (mem_gridCells.mp hpg).2.1
             omega)))
  · rw [update_done_swl (by simp [isDone, hp])]
    exact ⟨Or.inr (Or.inr (Or.inr (Or.inr (Or.inr hp)))), hf,
      hv1, hh13, hp2, hp4, hp5, hp6⟩

theorem meas_dec_swl (rows cols : ℕ) (h1 : 1 ≤ rows) (h2 : 1 ≤ cols)
    (c : State × Grid) (h : Inv rows cols c) (hd : isDone c.1 = false) :
    meas rows cols (update rows cols c) < meas rows cols c := by
  obtain ⟨s, g⟩ := c
  obtain ⟨hph, hf, hv1, hh13, hp2, hp4, hp5, hp6⟩ := h
  dsimp only at hph hf hv1 hh13 hp2 hp4 hp5 hp6 hd
  rcases hph with hp | hp | hp | hp | hp | hp
  · rw [update_phase1_swl hp hf]
    obtain ⟨hc0, hd1⟩ := hv1 hp
    simp only [hlineStep, meas, hp]
    try dsimp only
    split_ifs <;> omega
  · rw [update_phase2_swl hp hf]
    obtain ⟨hcd, hr0, hr1⟩ := hp2 hp
    simp only [vswipeStep, maxSwipes]
    split_ifs with hA hcnt hB hcnt2 hcnt3 <;> dsimp only at * <;>
      (simp only [meas, hp]
       split_ifs <;> first
         | omega
         | exact (False.elim (by assumption)))
  · rw [update_phase3_swl hp hf]
    simp only [vlineStep, meas, hp]
    try dsimp only
    split_ifs <;> omega
  · rw [update_phase4_swl hp hf]
    obtain ⟨hcd, hc0, hc1⟩ := hp4 hp
    simp only [hswipeStep, maxSwipes]
    split_ifs with hA hcnt hB hcnt2 hcnt3 <;> dsimp only at * <;>
      (simp only [meas, hp]
       split_ifs <;> first
         | omega
         | exact (False.elim (by assumption)))
  · rw [update_phase5_swl hp hf]
    obtain ⟨hf0, hfill⟩ := hp5 hp
    simp only [fillStep]
    split_ifs with hlt <;>
      (simp only [meas, hp]
       omega)
  · rw [isDone] at hd
    simp [hp] at hd

theorem inv_reset_swl (rows cols : ℕ) (c : State × Grid) :
    Inv rows cols (reset rows cols c) := by
  refine ⟨Or.inl rfl, rfl, ?_, ?_, ?_, ?_, ?_, ?_⟩
  · intro _
    exact ⟨rfl, rfl⟩
  · intro _
    exact ⟨rfl, rfl⟩
  · intro hcon
    dsimp only [reset] at hcon
    omega
  · intro hcon
    dsimp only [reset] at hcon
    omega
  · intro hcon
    dsimp only [reset] at hcon
    omega
  · intro hcon
    dsimp only [reset] at hcon
    omega

theorem meas_reset_swl (rows cols : ℕ) (c : State × Grid) :
    meas rows cols (reset rows cols c) = 3 * rows + 2 * cols + 7 := by
  simp [meas, reset]
  omega

/-- SwipeByLine: at `isDone()` the grid is all BRICK. -/
theorem done_allBrick_swl (rows cols : ℕ) (h1 : 1 ≤ rows) (h2 : 1 ≤ cols)
    (c : State × Grid) (n : ℕ)
    (hd : isDone ((update rows cols)^[n] (reset rows cols c)).1 = true) :
    allCellsEq rows cols CELL_BRICK ((update rows cols)^[n] (reset rows cols c)).2 := by
  have hinv := inv_iterate (update rows cols) (Inv rows cols)
    (inv_step_swl rows cols h1 h2) n _ (inv_reset_swl rows cols c)
  obtain ⟨hph, hf, hv1, hh13, hp2, hp4, hp5, hp6⟩ := hinv
  apply hp6
  rw [isDone] at hd
  simpa using hd

/-- SwipeByLine: done within `80 * rows * cols` updates. -/
theorem done_by_swl (rows cols : ℕ) (h1 : 1 ≤ rows) (h2 : 1 ≤ cols) (c : State × Grid) :
    isDone ((update rows cols)^[80 * (rows * cols)] (reset rows cols c)).1 = true := by
  apply done_within_measure (update rows cols) (fun x => isDone x.1)
    (Inv rows cols) (meas rows cols) (inv_step_swl rows cols h1 h2)
    (meas_dec_swl rows cols h1 h2) (fun x hx => update_done_swl hx)
  · exact inv_reset_swl rows cols c
  · rw [meas_reset_swl]
    have hr : rows ≤ rows * cols := Nat.le_mul_of_pos_right rows (by omega)
    have hc : cols ≤ rows * cols := Nat.le_mul_of_pos_left cols (by omega)
    have h3 : 1 ≤ rows * cols := Nat.one_le_iff_ne_zero.mpr (by positivity)
    omega

end SwipeByLine

/-! ### SwipeByDiagonalProgram

The program bounces a block of `min(rows, cols)` consecutive path cells up
and down `diagonal1Positions`, then `diagonal2Positions`, then fills the
grid one `r + c = sum` diagonal per tick. -/

namespace SwipeByDiagonal

/-- Mutable fields of `SwipeByDiagonalProgram` (phases: 0 initial, 1 create
first diagonal line, 2 swipe it, 3 create second diagonal line, 4 swipe it,
5 fill by diagonals, 6 done).  The immutable `diagonal1Positions` /
`diagonal2Positions` lists are the `path1` / `path2` parameters of
`update`. -/
structure State where
  phase : ℕ
  frameCounter : ℤ
  currentDiagonal1Index : ℤ
  currentDiagonal2Index : ℤ
  diagonal1Direction : ℤ
  diagonal2Direction : ℤ
  diagonal1SwipeCount : ℕ
  diagonal2SwipeCount : ℕ
  fillIndex : ℕ
  currentFillDiagonal : ℤ
deriving DecidableEq

/-- `maxSwipes` field: one back-and-forth cycle. -/
def maxSwipes : ℕ := 1

/-- The block of up to `m` path cells starting at index `start` (the inner
`for i < min(rows, cols)` loops with their `idx < length` checks). -/
def segCells (path : List Pos) (start : ℤ) (m : ℕ) : List Pos :=
  (List.range m).filterMap (fun (i : ℕ) =>
    if start + (i : ℤ) < (path.length : ℤ) then
      some (path.getD (start + (i : ℤ)).toNat (0, 0))
    else none)

/-- Paint the block at `start`, guarded by `0 <= start < length` as in the
source. -/
def drawDiag (rows cols : ℕ) (path : List Pos) (start : ℤ) (m v : ℕ) (g : Grid) :
    Grid :=
  if 0 ≤ start ∧ start < (path.length : ℤ) then
    paintList rows cols v (segCells path start m) g
  else g

/-- The cells of the diagonal `r + c = sum` (the phase-5 fill loop). -/
def diagCells (rows cols : ℕ) (sum : ℤ) : List Pos :=
  (List.range rows).filterMap (fun (r : ℕ) =>
    if 0 ≤ sum - (r : ℤ) ∧ sum - (r : ℤ) < (cols : ℤ) then
      some ((r : ℤ), sum - (r : ℤ))
    else none)

/-- `isDone()`. -/
def isDone (s : State) : Bool := s.phase == 6

/-- `update()` case 1: draw the initial first-family diagonal block. -/
def diag1Line (rows cols : ℕ) (path1 : List Pos) (s : State) (g : Grid) :
    State × Grid :=
  ({ s with currentDiagonal1Index := 0, phase := 2 },
    drawDiag rows cols path1 0 (min rows cols) CELL_BRICK g)

/-- `update()` case 2: clear the block, move it by `direction * min(rows,cols)`,
bounce off the path ends, redraw, and move on after two reversals. -/
def diag1Swipe (rows cols : ℕ) (path1 : List Pos) (s : State) (g : Grid) :
    State × Grid :=
  let g1 := drawDiag rows cols path1 s.currentDiagonal1Index (min rows cols)
    CELL_CLAY g
  let s1 :=
    let i1 := s.currentDiagonal1Index + s.diagonal1Direction * (min rows cols : ℤ)
    if i1 ≥ (path1.length : ℤ) - (min rows cols : ℤ) then
      { s with
          currentDiagonal1Index := (path1.length : ℤ) - (min rows cols : ℤ)
          diagonal1Direction := -1
          diagonal1SwipeCount := s.diagonal1SwipeCount + 1 }
    else if i1 ≤ 0 then
      { s with
          currentDiagonal1Index := 0
          diagonal1Direction := 1
          diagonal1SwipeCount := s.diagonal1SwipeCount + 1 }
    else { s with currentDiagonal1Index := i1 }
  let g2 := drawDiag rows cols path1 s1.currentDiagonal1Index (min rows cols)
    CELL_BRICK g1
  if s1.diagonal1SwipeCount ≥ maxSwipes * 2 then
    ({ s1 with phase := 3 },
      drawDiag rows cols path1 s1.currentDiagonal1Index (min rows cols) CELL_CLAY g2)
  else (s1, g2)

/-- `update()` case 3: draw the initial second-family diagonal block. -/
def diag2Line (rows cols : ℕ) (path2 : List Pos) (s : State) (g : Grid) :
    State × Grid :=
  ({ s with currentDiagonal2Index := 0, phase := 4 },
    drawDiag rows cols path2 0 (min rows cols) CELL_BRICK g)

/-- `update()` case 4: the second-family swipe. -/
def diag2Swipe (rows cols : ℕ) (path2 : List Pos) (s : State) (g : Grid) :
    State × Grid :=
  let g1 := drawDiag rows cols path2 s.currentDiagonal2Index (min rows cols)
    CELL_CLAY g
  let s1 :=
    let i1 := s.currentDiagonal2Index + s.diagonal2Direction * (min rows cols : ℤ)
    if i1 ≥ (path2.length : ℤ) - (min rows cols : ℤ) then
      { s with
          currentDiagonal2Index := (path2.length : ℤ) - (min rows cols : ℤ)
          diagonal2Direction := -1
          diagonal2SwipeCount := s.diagonal2SwipeCount + 1 }
    else if i1 ≤ 0 then
      { s with
          currentDiagonal2Index := 0
          diagonal2Direction := 1
          diagonal2SwipeCount := s.diagonal2SwipeCount + 1 }
    else { s with currentDiagonal2Index := i1 }
  let g2 := drawDiag rows cols path2 s1.currentDiagonal2Index (min rows cols)
    CELL_BRICK g1
  if s1.diagonal2SwipeCount ≥ maxSwipes * 2 then
    ({ s1 with phase := 5, fillIndex := 0, currentFillDiagonal := 0 },
      drawDiag rows cols path2 s1.currentDiagonal2Index (min rows cols) CELL_CLAY g2)
  else (s1, g2)

/-- `update()` case 5: fill diagonal `r + c = currentFillDiagonal`. -/
def fillDiagStep (rows cols : ℕ) (s : State) (g : Grid) : State × Grid :=
  if s.currentFillDiagonal < (rows : ℤ) + (cols : ℤ) - 1 then
    ({ s with currentFillDiagonal := s.currentFillDiagonal + 1 },
      paintList rows cols CELL_BRICK (diagCells rows cols s.currentFillDiagonal) g)
  else
    ({ s with phase := 6 }, g)

/-- `SwipeByDiagonalProgram.update()`. -/
def update (rows cols : ℕ) (path1 path2 : List Pos) (c : State × Grid) :
    State × Grid :=
  if isDone c.1 then c
  else
    let fc := c.1.frameCounter + ANIMATION_SPEED
    if fc < 1 then ({ c.1 with frameCounter := fc }, c.2)
    else
      let s := { c.1 with frameCounter := fc % 1 }
      match s.phase with
      | 1 => diag1Line rows cols path1 s c.2
      | 2 => diag1Swipe rows cols path1 s c.2
      | 3 => diag2Line rows cols path2 s c.2
      | 4 => diag2Swipe rows cols path2 s c.2
      | 5 => fillDiagStep rows cols s c.2
      | _ => (s, c.2)

/-- `SwipeByDiagonalProgram.reset()`. -/
def reset (rows cols : ℕ) (c : State × Grid) : State × Grid :=
  (⟨1, 0, 0, 0, 1, 1, 0, 0, 0, 0⟩, clearGrid rows cols c.2)

/-- Reachable-state invariant. -/
def Inv (rows cols : ℕ) (path1 path2 : List Pos) (c : State × Grid) : Prop :=
  (c.1.phase = 1 ∨ c.1.phase = 2 ∨ c.1.phase = 3 ∨ c.1.phase = 4
    ∨ c.1.phase = 5 ∨ c.1.phase = 6)
  ∧ c.1.frameCounter = 0
  ∧ (c.1.phase = 1 → c.1.diagonal1SwipeCount = 0 ∧ c.1.diagonal1Direction = 1)
  ∧ (c.1.phase = 1 ∨ c.1.phase = 2 ∨ c.1.phase = 3 →
      c.1.diagonal2SwipeCount = 0 ∧ c.1.diagonal2Direction = 1)
  ∧ (c.1.phase = 2 →
      (c.1.diagonal1SwipeCount = 0 ∧ c.1.diagonal1Direction = 1 ∨
        c.1.diagonal1SwipeCount = 1 ∧ c.1.diagonal1Direction = -1)
      ∧ 0 ≤ c.1.currentDiagonal1Index
      ∧ c.1.currentDiagonal1Index ≤ (path1.length : ℤ) - (min rows cols : ℤ))
  ∧ (c.1.phase = 4 →
      (c.1.diagonal2SwipeCount = 0 ∧ c.1.diagonal2Direction = 1 ∨
        c.1.diagonal2SwipeCount = 1 ∧ c.1.diagonal2Direction = -1)
      ∧ 0 ≤ c.1.currentDiagonal2Index
      ∧ c.1.currentDiagonal2Index ≤ (path2.length : ℤ) - (min rows cols : ℤ))
  ∧ (c.1.phase = 5 → 0 ≤ c.1.currentFillDiagonal ∧
      ∀ p ∈ gridCells rows cols, p.1 + p.2 < c.1.currentFillDiagonal →
        c.2 p.1 p.2 = CELL_BRICK)
  ∧ (c.1.phase = 6 → allCellsEq rows cols CELL_BRICK c.2)

/-- Steps remaining until `isDone()`. -/
def meas (rows cols : ℕ) (path1 path2 : List Pos) (c : State × Grid) : ℕ :=
  match c.1.phase with
  | 1 => 1 + (2 * path1.length + 2) + 1 + (2 * path2.length + 2)
      + ((rows + cols) + 1)
  | 2 => (if c.1.diagonal1SwipeCount = 0
      then ((path1.length : ℤ) - (min rows cols : ℤ)
          - c.1.currentDiagonal1Index).toNat
        + ((path1.length : ℤ) - (min rows cols : ℤ)).toNat + 2
      else c.1.currentDiagonal1Index.toNat + 1)
      + 1 + (2 * path2.length + 2) + ((rows + cols) + 1)
  | 3 => 1 + (2 * path2.length + 2) + ((rows + cols) + 1)
  | 4 => (if c.1.diagonal2SwipeCount = 0
      then ((path2.length : ℤ) - (min rows cols : ℤ)
          - c.1.currentDiagonal2Index).toNat
        + ((path2.length : ℤ) - (min rows cols : ℤ)).toNat + 2
      else c.1.currentDiagonal2Index.toNat + 1)
      + ((rows + cols) + 1)
  | 5 => ((rows + cols - 1) - c.1.currentFillDiagonal.toNat) + 1
  | _ => 0

theorem update_done_swd {rows cols : ℕ} {path1 path2 : List Pos} {c : State × Grid}
    (h : isDone c.1 = true) : update rows cols path1 path2 c = c := by
  rw [update, if_pos h]

theorem update_char_swd (rows cols : ℕ) (path1 path2 : List Pos) (s : State)
    (g : Grid) (hd : isDone s = false) (hf : s.frameCounter = 0) :
    update rows cols path1 path2 (s, g) =
      match s.phase with
      | 1 => diag1Line rows cols path1 s g
      | 2 => diag1Swipe rows cols path1 s g
      | 3 => diag2Line rows cols path2 s g
      | 4 => diag2Swipe rows cols path2 s g
      | 5 => fillDiagStep rows cols s g
      | _ => (s, g) := by
  have h1 : ¬ (isDone s = true) := by simp [hd]
  have hs : { s with frameCounter := (s.frameCounter + ANIMATION_SPEED) % 1 } = s := by
    cases s
    simp_all [ANIMATION_SPEED]
  rw [update, if_neg h1, if_neg (by rw [hf]; norm_num [ANIMATION_SPEED]), hs]

theorem update_phase1_swd {rows cols : ℕ} {path1 path2 : List Pos} {s : State}
    {g : Grid} (hp : s.phase = 1) (hf : s.frameCounter = 0) :
    update rows cols path1 path2 (s, g) = diag1Line rows cols path1 s g := by
  rw [update_char_swd rows cols path1 path2 s g (by simp [isDone, hp]) hf, hp]

theorem update_phase2_swd {rows cols : ℕ} {path1 path2 : List Pos} {s : State}
    {g : Grid} (hp : s.phase = 2) (hf : s.frameCounter = 0) :
    update rows cols path1 path2 (s, g) = diag1Swipe rows cols path1 s g := by
  rw [update_char_swd rows cols path1 path2 s g (by simp [isDone, hp]) hf, hp]

theorem update_phase3_swd {rows cols : ℕ} {path1 path2 : List Pos} {s : State}
    {g : Grid} (hp : s.phase = 3) (hf : s.frameCounter = 0) :
    update rows cols path1 path2 (s, g) = diag2Line rows cols path2 s g := by
  rw [update_char_swd rows cols path1 path2 s g (by simp [isDone, hp]) hf, hp]

theorem update_phase4_swd {rows cols : ℕ} {path1 path2 : List Pos} {s : State}
    {g : Grid} (hp : s.phase = 4) (hf : s.frameCounter = 0) :
    update rows cols path1 path2 (s, g) = diag2Swipe rows cols path2 s g := by
  rw [update_char_swd rows cols path1 path2 s g (by simp [isDone, hp]) hf, hp]

theorem update_phase5_swd {rows cols : ℕ} {path1 path2 : List Pos} {s : State}
    {g : Grid} (hp : s.phase = 5) (hf : s.frameCounter = 0) :
    update rows cols path1 path2 (s, g) = fillDiagStep rows cols s g := by
  rw [update_char_swd rows cols path1 path2 s g (by simp [isDone, hp]) hf, hp]

theorem diag_fill_brick {rows cols : ℕ} {g : Grid} {sum : ℤ} {p : Pos}
    (hp : p ∈ gridCells rows cols) (h : p.1 + p.2 = sum) :
    paintList rows cols CELL_BRICK (diagCells rows cols sum) g p.1 p.2
      = CELL_BRICK := by
  obtain ⟨hb1, hb2, hb3, hb4⟩ := mem_gridCells.mp hp
  rw [paintList_apply]
  rw [if_pos]
  constructor
  · rw [diagCells, List.mem_filterMap]
    refine ⟨p.1.toNat, List.mem_range.mpr (by omega), ?_⟩
    have hc : ((p.1.toNat : ℕ) : ℤ) = p.1 := by omega
    rw [hc, if_pos (by omega)]
    have hc2 : sum - p.1 = p.2 := by omega
    rw [hc2]
  · exact ⟨hb1, hb2, hb3, hb4⟩

theorem paint_keeps_brick {rows cols : ℕ} {g : Grid} {l : List Pos} {r c : ℤ}
    (h : g r c = CELL_BRICK) :
    paintList rows cols CELL_BRICK l g r c = CELL_BRICK := by
  rw [paintList_apply]
  split_ifs <;> simp [h]

theorem inv_step_swd (rows cols : ℕ) (path1 path2 : List Pos)
    (h1 : 1 ≤ rows) (h2 : 1 ≤ cols)
    (hm1 : min rows cols ≤ path1.length) (hm2 : min rows cols ≤ path2.length)
    (c : State × Grid) (h : Inv rows cols path1 path2 c) :
    Inv rows cols path1 path2 (update rows cols path1 path2 c) := by
  have hm : 1 ≤ min rows cols := le_min h1 h2
  obtain ⟨s, g⟩ := c
  obtain ⟨hph, hf, hv1, hh13, hp2, hp4, hp5, hp6⟩ := h
  dsimp only at hph hf hv1 hh13 hp2 hp4 hp5 hp6
  rcases hph with hp | hp | hp | hp | hp | hp
  · rw [update_phase1_swd hp hf]
    obtain ⟨hc0, hd1⟩ := hv1 hp
    obtain ⟨hh0, hh1⟩ := hh13 (Or.inl hp)
    simp only [diag1Line]
    refine ⟨?_, ?_, ?_, ?_, ?_, ?_, ?_, ?_⟩ <;>
      first
      | (intro hcon
         dsimp only at hcon
         exact absurd hcon (by omega))
      | (dsimp only
         omega)
      | (intro hcon
         dsimp only
         omega)
  · rw [update_phase2_swd hp hf]
    obtain ⟨hcd, hr0, hr1⟩ := hp2 hp
    obtain ⟨hh0, hh1⟩ := hh13 (Or.inr (Or.inl hp))
    simp only [diag1Swipe, maxSwipes]
    rcases hcd with ⟨hcnt0, hdir⟩ | ⟨hcnt1, hdir⟩ <;> rw [hdir] <;>
      split_ifs with hA hcnt hB hcnt2 hcnt3 <;> dsimp only at * <;>
      (refine ⟨?_, ?_, ?_, ?_, ?_, ?_, ?_, ?_⟩ <;>
        first
        | (intro hcon
           dsimp only at hcon
           exact absurd hcon (by omega))
        | (dsimp only
           omega)
        | (intro hcon
           dsimp only
           omega))
  · rw [update_phase3_swd hp hf]
    obtain ⟨hh0, hh1⟩ := hh13 (Or.inr (Or.inr hp))
    simp only [diag2Line]
    refine ⟨?_, ?_, ?_, ?_, ?_, ?_, ?_, ?_⟩ <;>
      first
      | (intro hcon
         dsimp only at hcon
         exact absurd hcon (by omega))
      | (dsimp only
         omega)
      | (intro hcon
         dsimp only
         omega)
  · rw [update_phase4_swd hp hf]
    obtain ⟨hcd, hc0, hc1⟩ := hp4 hp
    simp only [diag2Swipe, maxSwipes]
    rcases hcd with ⟨hcnt0, hdir⟩ | ⟨hcnt1, hdir⟩ <;> rw [hdir] <;>
      split_ifs with hA hcnt hB hcnt2 hcnt3 <;> dsimp only at * <;>
      (refine ⟨?_, ?_, ?_, ?_, ?_, ?_, ?_, ?_⟩ <;>
        first
        | (intro hcon
           dsimp only at hcon
           exact absurd hcon (by omega))
        | (dsimp only
           omega)
        | (intro hcon
           dsimp only
           omega)
        | (intro hcon
           dsimp only
           refine ⟨by omega, ?_⟩
           intro p hpg hplt
           exact absurd hplt (by
             have hb1 := (mem_gridCells.mp hpg).1
             have hb2 := (mem_gridCells.mp hpg).2.2.1
             omega)))
  · rw [update_phase5_swd hp hf]
    obtain ⟨hf0, hfill⟩ := hp5 hp
    simp only [fillDiagStep]
    split_ifs with hlt <;>
      (refine ⟨?_, ?_, ?_, ?_, ?_, ?_, ?_, ?_⟩ <;>
        first
        | (intro hcon
           dsimp only at hcon
           exact absurd hcon (by omega))
        | (dsimp only
           omega)
        | (intro hcon
           dsimp only
           omega)
        | (intro hcon
           dsimp only
           refine ⟨by omega, ?_⟩
           intro p hpg hplt
           by_cases hsum : p.1 + p.2 = s.currentFillDiagonal
           · exact diag_fill_brick hpg hsum
           · exact paint_keeps_brick (hfill p hpg (by omega)))
        | (intro hcon
           dsimp only
           intro p hpg
           apply hfill p hpg
           have hb2 := (mem_gridCells.mp hpg).2.1
           have hb4 := (mem_gridCells.mp hpg).2.2.2
           omega))
  · rw [update_done_swd (by simp [isDone, hp])]
    exact ⟨Or.inr (Or.inr (Or.inr (Or.inr (Or.inr hp)))), hf,
      hv1, hh13, hp2, hp4, hp5, hp6⟩

theorem meas_dec_swd (rows cols : ℕ) (path1 path2 : List Pos)
    (h1 : 1 ≤ rows) (h2 : 1 ≤ cols)
    (hm1 : min rows cols ≤ path1.length) (hm2 : min rows cols ≤ path2.length)
    (c : State × Grid) (h : Inv rows cols path1 path2 c)
    (hd : isDone c.1 = false) :
    meas rows cols path1 path2 (update rows cols path1 path2 c)
      < meas rows cols path1 path2 c := by
  have hm : 1 ≤ min rows cols := le_min h1 h2
  obtain ⟨s, g⟩ := c
  obtain ⟨hph, hf, hv1, hh13, hp2, hp4, hp5, hp6⟩ := h
  dsimp only at hph hf hv1 hh13 hp2 hp4 hp5 hp6 hd
  rcases hph with hp | hp | hp | hp | hp | hp
  · rw [update_phase1_swd hp hf]
    obtain ⟨hc0, hd1⟩ := hv1 hp
    simp only [diag1Line, meas, hp]
    try dsimp only
    split_ifs <;> omega
  · rw [update_phase2_swd hp hf]
    obtain ⟨hcd, hr0, hr1⟩ := hp2 hp
    simp only [diag1Swipe, maxSwipes]
    rcases hcd with ⟨hcnt0, hdir⟩ | ⟨hcnt1, hdir⟩ <;> rw [hdir] <;>
      split_ifs with hA hcnt hB hcnt2 hcnt3 <;> dsimp only at * <;>
      (simp only [meas, hp]
       split_ifs <;> first
         | omega
         | exact (False.elim (by assumption)))
  · rw [update_phase3_swd hp hf]
    obtain ⟨hh0, hh1⟩ := hh13 (Or.inr (Or.inr hp))
    simp only [diag2Line, meas, hp]
    try dsimp only
    split_ifs <;> omega
  · rw [update_phase4_swd hp hf]
    obtain ⟨hcd, hc0, hc1⟩ := hp4 hp
    simp only [diag2Swipe, maxSwipes]
    rcases hcd with ⟨hcnt0, hdir⟩ | ⟨hcnt1, hdir⟩ <;> rw [hdir] <;>
      split_ifs with hA hcnt hB hcnt2 hcnt3 <;> dsimp only at * <;>
      (simp only [meas, hp]
       split_ifs <;> first
         | omega
         | exact (False.elim (by assumption)))
  · rw [update_phase5_swd hp hf]
    obtain ⟨hf0, hfill⟩ := hp5 hp
    simp only [fillDiagStep]
    split_ifs with hlt <;>
      (simp only [meas, hp]
       omega)
  · rw [isDone] at hd
    simp [hp] at hd

theorem inv_reset_swd (rows cols : ℕ) (path1 path2 : List Pos) (c : State × Grid) :
    Inv rows cols path1 path2 (reset rows cols c) := by
  refine ⟨Or.inl rfl, rfl, ?_, ?_, ?_, ?_, ?_, ?_⟩
  · intro _
    exact ⟨rfl, rfl⟩
  · intro _
    exact ⟨rfl, rfl⟩
  · intro hcon
    dsimp only [reset] at hcon
    omega
  · intro hcon
    dsimp only [reset] at hcon
    omega
  · intro hcon
    dsimp only [reset] at hcon
    omega
  · intro hcon
    dsimp only [reset] at hcon
    omega

theorem meas_reset_swd (rows cols : ℕ) (path1 path2 : List Pos) (c : State × Grid) :
    meas rows cols path1 path2 (reset rows cols c)
      = 2 * path1.length + 2 * path2.length + rows + cols + 7 := by
  simp [meas, reset]
  omega

/-- SwipeByDiagonal: at `isDone()` the grid is all BRICK. -/
theorem done_allBrick_swd (rows cols : ℕ) (path1 path2 : List Pos)
    (h1 : 1 ≤ rows) (h2 : 1 ≤ cols)
    (hm1 : min rows cols ≤ path1.length) (hm2 : min rows cols ≤ path2.length)
    (c : State × Grid) (n : ℕ)
    (hd : isDone ((update rows cols path1 path2)^[n] (reset rows cols c)).1 = true) :
    allCellsEq rows cols CELL_BRICK
      ((update rows cols path1 path2)^[n] (reset rows cols c)).2 := by
  have hinv := inv_iterate (update rows cols path1 path2)
    (Inv rows cols path1 path2)
    (inv_step_swd rows cols path1 path2 h1 h2 hm1 hm2) n _
    (inv_reset_swd rows cols path1 path2 c)
  obtain ⟨hph, hf, hv1, hh13, hp2, hp4, hp5, hp6⟩ := hinv
  apply hp6
  rw [isDone] at hd
  simpa using hd

/-- SwipeByDiagonal: done within `80 * rows * cols` updates. -/
theorem done_by_swd (rows cols : ℕ) (path1 path2 : List Pos)
    (h1 : 1 ≤ rows) (h2 : 1 ≤ cols)
    (hlen1 : path1.length = rows * cols) (hlen2 : path2.length = rows * cols)
    (c : State × Grid) :
    isDone ((update rows cols path1 path2)^[80 * (rows * cols)]
      (reset rows cols c)).1 = true := by
  have hm1 : min rows cols ≤ path1.length := by
    rw [hlen1]
    calc min rows cols ≤ rows := min_le_left rows cols
    _ ≤ rows * cols := Nat.le_mul_of_pos_right rows (by omega)
  have hm2 : min rows cols ≤ path2.length := by
    rw [hlen2]
    calc min rows cols ≤ rows := min_le_left rows cols
    _ ≤ rows * cols := Nat.le_mul_of_pos_right rows (by omega)
  apply done_within_measure (update rows cols path1 path2) (fun x => isDone x.1)
    (Inv rows cols path1 path2) (meas rows cols path1 path2)
    (inv_step_swd rows cols path1 path2 h1 h2 hm1 hm2)
    (meas_dec_swd rows cols path1 path2 h1 h2 hm1 hm2)
    (fun x hx => update_done_swd hx)
  · exact inv_reset_swd rows cols path1 path2 c
  · rw [meas_reset_swd, hlen1, hlen2]
    have hr : rows ≤ rows * cols := Nat.le_mul_of_pos_right rows (by omega)
    have hc : cols ≤ rows * cols := Nat.le_mul_of_pos_left cols (by omega)
    have h3 : 1 ≤ rows * cols := Nat.one_le_iff_ne_zero.mpr (by positivity)
    omega

end SwipeByDiagonal

/-! ### SwipeByRadiationProgram

A line of cells through the grid center rotates clockwise one full turn in
`PI/12` steps, then counter-clockwise one full turn, then the 24 rays are
filled in clockwise order.  The constructor's center is
`(floor(rows/2), floor(cols/2))` — with no `-1` column offset and no
clamping, unlike the generators of the Scan programs.  `currentAngle` is
embedded in integer units of `angleStep = PI/12` (24 units per full turn,
`2*PI` = 24), which is exact: the source only ever adds or subtracts
`angleStep` starting from `0`, and JS `%` is truncated division remainder,
`Int.tmod`.  The float-sampled `getLinePositions` is the abstract parameter
`lineOf`, and the atan2-based `clockwiseRays` the abstract parameter `rays`;
the theorems hold for every instantiation. -/

namespace SwipeByRadiation

/-- `this.centerR = Math.floor(this.rows / 2)`. -/
def centerR (rows : ℕ) : ℕ := rows / 2

/-- `this.centerC = Math.floor(this.cols / 2)`. -/
def centerC (cols : ℕ) : ℕ := cols / 2

/-- `maxRotations` field. -/
def maxRotations : ℕ := 1

/-- Mutable fields of `SwipeByRadiationProgram` (phases: 0 initial, 1 create
center line, 2 rotate clockwise, 3 rotate counterclockwise, 4 fill rays,
5 done). -/
structure State where
  phase : ℕ
  frameCounter : ℤ
  currentAngle : ℤ
  clockwiseRotationCount : ℕ
  counterclockwiseRotationCount : ℕ
  currentFillRay : ℕ
deriving DecidableEq

/-- `clearLine`. -/
def clearLine (rows cols : ℕ) (ps : List Pos) (g : Grid) : Grid :=
  paintList rows cols CELL_CLAY ps g

/-- `drawLine`. -/
def drawLine (rows cols : ℕ) (ps : List Pos) (g : Grid) : Grid :=
  paintList rows cols CELL_BRICK ps g

/-- `isDone()`. -/
def isDone (s : State) : Bool := s.phase == 5

/-- `update()` case 1: draw the initial horizontal center line. -/
def lineStep (rows cols : ℕ) (lineOf : ℤ → List Pos) (s : State) (g : Grid) :
    State × Grid :=
  ({ s with phase := 2 }, drawLine rows cols (lineOf s.currentAngle) g)

/-- `update()` case 2: clear, rotate clockwise by one step, wrap at a full
turn, and draw at the new angle (also when the phase just advanced). -/
def cwStep (rows cols : ℕ) (lineOf : ℤ → List Pos) (s : State) (g : Grid) :
    State × Grid :=
  let g1 := clearLine rows cols (lineOf s.currentAngle) g
  let s1 :=
    let a := s.currentAngle + 1
    if a ≥ 24 then
      let a2 := a.tmod 24
      if s.clockwiseRotationCount + 1 ≥ maxRotations then
        { s with
            currentAngle := a2
            clockwiseRotationCount := s.clockwiseRotationCount + 1
            phase := 3 }
      else
        { s with
            currentAngle := a2
            clockwiseRotationCount := s.clockwiseRotationCount + 1 }
    else { s with currentAngle := a }
  (s1, drawLine rows cols (lineOf s1.currentAngle) g1)

/-- `update()` case 3: clear, rotate counterclockwise, wrap at a full turn
(moving to the fill phase after clearing the final line), and draw at the
new angle only while still in phase 3. -/
def ccwStep (rows cols : ℕ) (lineOf : ℤ → List Pos) (s : State) (g : Grid) :
    State × Grid :=
  let g1 := clearLine rows cols (lineOf s.currentAngle) g
  let a := s.currentAngle - 1
  if a ≤ -24 then
    let a2 := a.tmod 24
    if s.counterclockwiseRotationCount + 1 ≥ maxRotations then
      ({ s with
          currentAngle := a2
          counterclockwiseRotationCount := s.counterclockwiseRotationCount + 1
          phase := 4
          currentFillRay := 0 },
        clearLine rows cols (lineOf a2) g1)
    else
      ({ s with
          currentAngle := a2
          counterclockwiseRotationCount := s.counterclockwiseRotationCount + 1 },
        drawLine rows cols (lineOf a2) g1)
  else ({ s with currentAngle := a }, drawLine rows cols (lineOf a) g1)

/-- `update()` case 4: fill the next clockwise ray. -/
def fillRayStep (rows cols : ℕ) (rays : List (List Pos)) (s : State) (g : Grid) :
    State × Grid :=
  if s.currentFillRay < rays.length then
    ({ s with currentFillRay := s.currentFillRay + 1 },
      drawLine rows cols (rays.getD s.currentFillRay []) g)
  else
    ({ s with phase := 5 }, g)

/-- `SwipeByRadiationProgram.update()`. -/
def update (rows cols : ℕ) (lineOf : ℤ → List Pos) (rays : List (List Pos))
    (c : State × Grid) : State × Grid :=
  if isDone c.1 then c
  else
    let fc := c.1.frameCounter + ANIMATION_SPEED
    if fc < 1 then ({ c.1 with frameCounter := fc }, c.2)
    else
      let s := { c.1 with frameCounter := fc % 1 }
      match s.phase with
      | 1 => lineStep rows cols lineOf s c.2
      | 2 => cwStep rows cols lineOf s c.2
      | 3 => ccwStep rows cols lineOf s c.2
      | 4 => fillRayStep rows cols rays s c.2
      | _ => (s, c.2)

/-- `SwipeByRadiationProgram.reset()`. -/
def reset (rows cols : ℕ) (c : State × Grid) : State × Grid :=
  (⟨1, 0, 0, 0, 0, 0⟩, clearGrid rows cols c.2)

/-- Reachable-state invariant. -/
def Inv (rows cols : ℕ) (rays : List (List Pos)) (c : State × Grid) : Prop :=
  (c.1.phase = 1 ∨ c.1.phase = 2 ∨ c.1.phase = 3 ∨ c.1.phase = 4 ∨ c.1.phase = 5)
  ∧ c.1.frameCounter = 0
  ∧ (c.1.phase = 1 → c.1.currentAngle = 0 ∧ c.1.clockwiseRotationCount = 0
      ∧ c.1.counterclockwiseRotationCount = 0)
  ∧ (c.1.phase = 2 → 0 ≤ c.1.currentAngle ∧ c.1.currentAngle < 24
      ∧ c.1.clockwiseRotationCount = 0
      ∧ c.1.counterclockwiseRotationCount = 0)
  ∧ (c.1.phase = 3 → -24 < c.1.currentAngle ∧ c.1.currentAngle ≤ 0
      ∧ c.1.counterclockwiseRotationCount = 0)
  ∧ (c.1.phase = 4 → c.1.currentFillRay ≤ rays.length ∧
      ∀ i < c.1.currentFillRay, ∀ p ∈ rays.getD i [],
        InBounds rows cols p → c.2 p.1 p.2 = CELL_BRICK)
  ∧ (c.1.phase = 5 → allCellsEq rows cols CELL_BRICK c.2)

/-- Steps remaining until `isDone()`. -/
def meas (rays : List (List Pos)) (c : State × Grid) : ℕ :=
  match c.1.phase with
  | 1 => 1 + 25 + 25 + (rays.length + 1)
  | 2 => (24 - c.1.currentAngle).toNat + 25 + (rays.length + 1)
  | 3 => (c.1.currentAngle + 24).toNat + (rays.length + 1)
  | 4 => (rays.length - c.1.currentFillRay) + 1
  | _ => 0

theorem update_done_swr {rows cols : ℕ} {lineOf : ℤ → List Pos}
    {rays : List (List Pos)} {c : State × Grid}
    (h : isDone c.1 = true) : update rows cols lineOf rays c = c := by
  rw [update, if_pos h]

theorem update_char_swr (rows cols : ℕ) (lineOf : ℤ → List Pos)
    (rays : List (List Pos)) (s : State) (g : Grid)
    (hd : isDone s = false) (hf : s.frameCounter = 0) :
    update rows cols lineOf rays (s, g) =
      match s.phase with
      | 1 => lineStep rows cols lineOf s g
      | 2 => cwStep rows cols lineOf s g
      | 3 => ccwStep rows cols lineOf s g
      | 4 => fillRayStep rows cols rays s g
      | _ => (s, g) := by
  have h1 : ¬ (isDone s = true) := by simp [hd]
  have hs : { s with frameCounter := (s.frameCounter + ANIMATION_SPEED) % 1 } = s := by
    cases s
    simp_all [ANIMATION_SPEED]
  rw [update, if_neg h1, if_neg (by rw [hf]; norm_num [ANIMATION_SPEED]), hs]

theorem update_phase1_swr {rows cols : ℕ} {lineOf : ℤ → List Pos}
    {rays : List (List Pos)} {s : State} {g : Grid}
    (hp : s.phase = 1) (hf : s.frameCounter = 0) :
    update rows cols lineOf rays (s, g) = lineStep rows cols lineOf s g := by
  rw [update_char_swr rows cols lineOf rays s g (by simp [isDone, hp]) hf, hp]

theorem update_phase2_swr {rows cols : ℕ} {lineOf : ℤ → List Pos}
    {rays : List (List Pos)} {s : State} {g : Grid}
    (hp : s.phase = 2) (hf : s.frameCounter = 0) :
    update rows cols lineOf rays (s, g) = cwStep rows cols lineOf s g := by
  rw [update_char_swr rows cols lineOf rays s g (by simp [isDone, hp]) hf, hp]

theorem update_phase3_swr {rows cols : ℕ} {lineOf : ℤ → List Pos}
    {rays : List (List Pos)} {s : State} {g : Grid}
    (hp : s.phase = 3) (hf : s.frameCounter = 0) :
    update rows cols lineOf rays (s, g) = ccwStep rows cols lineOf s g := by
  rw [update_char_swr rows cols lineOf rays s g (by simp [isDone, hp]) hf, hp]

theorem update_phase4_swr {rows cols : ℕ} {lineOf : ℤ → List Pos}
    {rays : List (List Pos)} {s : State} {g : Grid}
    (hp : s.phase = 4) (hf : s.frameCounter = 0) :
    update rows cols lineOf rays (s, g) = fillRayStep rows cols rays s g := by
  rw [update_char_swr rows cols lineOf rays s g (by simp [isDone, hp]) hf, hp]

theorem inv_step_swr (rows cols : ℕ) (lineOf : ℤ → List Pos)
    (rays : List (List Pos))
    (hcov : ∀ p ∈ gridCells rows cols,
      ∃ i, i < rays.length ∧ p ∈ rays.getD i [])
    (c : State × Grid) (h : Inv rows cols rays c) :
    Inv rows cols rays (update rows cols lineOf rays c) := by
  obtain ⟨s, g⟩ := c
  obtain ⟨hph, hf, hp1, hp2, hp3, hp4, hp5⟩ := h
  dsimp only at hph hf hp1 hp2 hp3 hp4 hp5
  rcases hph with hp | hp | hp | hp | hp
  · rw [update_phase1_swr hp hf]
    obtain ⟨ha, hcw, hccw⟩ := hp1 hp
    simp only [lineStep]
    refine ⟨?_, ?_, ?_, ?_, ?_, ?_, ?_⟩ <;>
      first
      | (intro hcon
         dsimp only at hcon
         exact absurd hcon (by omega))
      | (dsimp only
         omega)
      | (intro hcon
         dsimp only
         omega)
  · rw [update_phase2_swr hp hf]
    obtain ⟨ha0, ha24, hcw, hccw⟩ := hp2 hp
    simp only [cwStep, maxRotations]
    split_ifs with hA hcnt <;> dsimp only at * <;>
      (refine ⟨?_, ?_, ?_, ?_, ?_, ?_, ?_⟩ <;>
        first
        | (intro hcon
           dsimp only at hcon
           exact absurd hcon (by omega))
        | (dsimp only
           omega)
        | (intro hcon
           dsimp only
           omega)
        | (intro hcon
           dsimp only
           have ht : (s.currentAngle + 1).tmod 24 = 0 := by
             have h24 : s.currentAngle + 1 = 24 := by omega
             rw [h24]
             decide
           omega))
  · rw [update_phase3_swr hp hf]
    obtain ⟨ha0, ha24, hccw⟩ := hp3 hp
    simp only [ccwStep, maxRotations]
    split_ifs with hA hcnt <;> (try dsimp only at *) <;>
      (refine ⟨?_, ?_, ?_, ?_, ?_, ?_, ?_⟩ <;>
        first
        | (intro hcon
           dsimp only at hcon
           exact absurd hcon (by omega))
        | (dsimp only
           omega)
        | (intro hcon
           dsimp only
           omega)
        | (intro hcon
           dsimp only
           have ht : (s.currentAngle - 1).tmod 24 = 0 := by
             have h24 : s.currentAngle - 1 = -24 := by omega
             rw [h24]
             decide
           omega)
        | (intro hcon
           dsimp only
           exact ⟨by omega, fun i hi p hpmem hpb => absurd hi (by omega)⟩))
  · rw [update_phase4_swr hp hf]
    obtain ⟨hfl, hfill⟩ := hp4 hp
    simp only [fillRayStep]
    split_ifs with hlt <;>
      (refine ⟨?_, ?_, ?_, ?_, ?_, ?_, ?_⟩ <;>
        first
        | (intro hcon
           dsimp only at hcon
           exact absurd hcon (by omega))
        | (dsimp only
           omega)
        | (intro hcon
           dsimp only
           omega)
        | (intro hcon
           dsimp only
           refine ⟨by omega, ?_⟩
           intro i hi p hpmem hpb
           by_cases hir : i = s.currentFillRay
           · subst hir
             rw [drawLine, paintList_apply, if_pos ⟨hpmem, hpb⟩]
           · exact SwipeByDiagonal.paint_keeps_brick
               (hfill i (by omega) p hpmem hpb))
        | (intro hcon
           dsimp only
           intro p hpg
           obtain ⟨i, hilen, hpmem⟩ := hcov p hpg
           exact hfill i (by omega) p hpmem (mem_gridCells.mp hpg)))
  · rw [update_done_swr (by simp [isDone, hp])]
    exact ⟨Or.inr (Or.inr (Or.inr (Or.inr hp))), hf, hp1, hp2, hp3, hp4, hp5⟩

theorem meas_dec_swr (rows cols : ℕ) (lineOf : ℤ → List Pos)
    (rays : List (List Pos)) (c : State × Grid)
    (h : Inv rows cols rays c) (hd : isDone c.1 = false) :
    meas rays (update rows cols lineOf rays c) < meas rays c := by
  obtain ⟨s, g⟩ := c
  obtain ⟨hph, hf, hp1, hp2, hp3, hp4, hp5⟩ := h
  dsimp only at hph hf hp1 hp2 hp3 hp4 hp5 hd
  rcases hph with hp | hp | hp | hp | hp
  · rw [update_phase1_swr hp hf]
    obtain ⟨ha, hcw, hccw⟩ := hp1 hp
    simp only [lineStep, meas, hp]
    omega
  · rw [update_phase2_swr hp hf]
    obtain ⟨ha0, ha24, hcw, hccw⟩ := hp2 hp
    simp only [cwStep, maxRotations]
    split_ifs with hA hcnt <;> dsimp only at * <;>
      (simp only [meas, hp]
       first
       | omega
       | (have ht : (s.currentAngle + 1).tmod 24 = 0 := by
            have h24 : s.currentAngle + 1 = 24 := by omega
            rw [h24]
            decide
          omega))
  · rw [update_phase3_swr hp hf]
    obtain ⟨ha0, ha24, hccw⟩ := hp3 hp
    simp only [ccwStep, maxRotations]
    split_ifs with hA hcnt <;> (try dsimp only at *) <;>
      (simp only [meas, hp]
       first
       | omega
       | (have ht : (s.currentAngle - 1).tmod 24 = 0 := by
            have h24 : s.currentAngle - 1 = -24 := by omega
            rw [h24]
            decide
          omega))
  · rw [update_phase4_swr hp hf]
    obtain ⟨hfl, hfill⟩ := hp4 hp
    simp only [fillRayStep]
    split_ifs with hlt <;>
      (simp only [meas, hp]
       omega)
  · rw [isDone] at hd
    simp [hp] at hd

theorem inv_reset_swr (rows cols : ℕ) (rays : List (List Pos)) (c : State × Grid) :
    Inv rows cols rays (reset rows cols c) := by
  refine ⟨Or.inl rfl, rfl, ?_, ?_, ?_, ?_, ?_⟩
  · intro _
    exact ⟨rfl, rfl, rfl⟩
  · intro hcon
    dsimp only [reset] at hcon
    omega
  · intro hcon
    dsimp only [reset] at hcon
    omega
  · intro hcon
    dsimp only [reset] at hcon
    omega
  · intro hcon
    dsimp only [reset] at hcon
    omega

theorem meas_reset_swr (rows cols : ℕ) (rays : List (List Pos)) (c : State × Grid) :
    meas rays (reset rows cols c) = rays.length + 52 := by
  simp [meas, reset]
  omega

/-- SwipeByRadiation: at `isDone()` the grid is all BRICK. -/
theorem done_allBrick_swr (rows cols : ℕ) (lineOf : ℤ → List Pos)
    (rays : List (List Pos))
    (hcov : ∀ p ∈ gridCells rows cols,
      ∃ i, i < rays.length ∧ p ∈ rays.getD i [])
    (c : State × Grid) (n : ℕ)
    (hd : isDone ((update rows cols lineOf rays)^[n] (reset rows cols c)).1 = true) :
    allCellsEq rows cols CELL_BRICK
      ((update rows cols lineOf rays)^[n] (reset rows cols c)).2 := by
  have hinv := inv_iterate (update rows cols lineOf rays) (Inv rows cols rays)
    (inv_step_swr rows cols lineOf rays hcov) n _ (inv_reset_swr rows cols rays c)
  obtain ⟨hph, hf, hp1, hp2, hp3, hp4, hp5⟩ := hinv
  apply hp5
  rw [isDone] at hd
  simpa using hd

/-- SwipeByRadiation: done within `80 * rows * cols` updates. -/
theorem done_by_swr (rows cols : ℕ) (lineOf : ℤ → List Pos)
    (rays : List (List Pos))
    (hcov : ∀ p ∈ gridCells rows cols,
      ∃ i, i < rays.length ∧ p ∈ rays.getD i [])
    (hrays : rays.length = 24)
    (c : State × Grid) (h1 : 1 ≤ rows) (h2 : 1 ≤ cols) :
    isDone ((update rows cols lineOf rays)^[80 * (rows * cols)]
      (reset rows cols c)).1 = true := by
  apply done_within_measure (update rows cols lineOf rays) (fun x => isDone x.1)
    (Inv rows cols rays) (meas rays)
    (inv_step_swr rows cols lineOf rays hcov)
    (meas_dec_swr rows cols lineOf rays) (fun x hx => update_done_swr hx)
  · exact inv_reset_swr rows cols rays c
  · rw [meas_reset_swr, hrays]
    have h3 : 1 ≤ rows * cols := Nat.one_le_iff_ne_zero.mpr (by positivity)
    omega

end SwipeByRadiation

/-! ### The Scheduler (`p.draw` freeze cycle and `updateColorMode`)

`p.draw()` always calls `currentProgram.update()` first; only then does it
look at `isDone()` and run the freeze bookkeeping.  The scheduler state
machine is embedded over an abstract program type `α` with its `update`,
`isDone` and `reset` operations as parameters (the grid lives inside `α`);
`Math.random()` draws are an explicit list consumed by the do-while loop
that picks the next program index. -/

namespace Scheduler

/-- The scheduler's mutable variables of `proliferationSketch`. -/
structure SchedState (α : Type) where
  programs : List α
  currentProgramIndex : ℕ
  currentProgram : α
  isFrozen : Bool
  freezeCounter : ℕ
  currentColorMode : ℕ
  useBrickGrayscale : Bool
  useClayGrayscale : Bool

/-- The `do { nextProgramIndex = random } while (nextProgramIndex ===
currentProgramIndex && programs.length > 1)` loop: take the first draw that
the guard accepts (with the current index as a fallback if the draw list
runs out). -/
def pickNext (draws : List ℕ) (len cur : ℕ) : ℕ :=
  match draws with
  | [] => cur
  | d :: rest => if d = cur ∧ 1 < len then pickNext rest len cur else d

/-- One `p.draw()` tick (the animation part: program update plus freeze
bookkeeping, including `updateColorMode`'s `(mode + 1) % 4` cycle and its
grayscale-flag switch). -/
def tick {α : Type} (progUpdate : α → α) (progIsDone : α → Bool) (progReset : α → α)
    (draws : List ℕ) (c : SchedState α) : SchedState α :=
  let prog := progUpdate c.currentProgram
  let c1 := { c with currentProgram := prog }
  if progIsDone prog = true then
    if c1.isFrozen = false then
      { c1 with isFrozen := true, freezeCounter := 0 }
    else
      let fcounter := c1.freezeCounter + 1
      if fcounter ≥ FREEZE_DURATION then
        let cm := (c1.currentColorMode + 1) % 4
        let idx := pickNext draws c1.programs.length c1.currentProgramIndex
        { c1 with
            currentColorMode := cm
            useBrickGrayscale := cm == 1 || cm == 3
            useClayGrayscale := cm == 2 || cm == 3
            currentProgramIndex := idx
            currentProgram := progReset (c1.programs.getD idx prog)
            isFrozen := false
            freezeCounter := 0 }
      else { c1 with freezeCounter := fcounter }
  else c1

theorem pickNext_spec (draws : List ℕ) (len cur : ℕ)
    (hlen : 1 < len)
    (hall : ∀ d ∈ draws, d < len) (hex : ∃ d ∈ draws, d ≠ cur) :
    pickNext draws len cur ≠ cur ∧ pickNext draws len cur < len := by
  induction draws with
  | nil =>
    obtain ⟨d, hd, -⟩ := hex
    exact absurd hd (List.not_mem_nil d)
  | cons d rest ih =>
    rw [pickNext]
    split_ifs with hcur
    · refine ih (fun x hx => hall x (List.mem_cons_of_mem d hx)) ?_
      obtain ⟨e, he, hne⟩ := hex
      rcases List.mem_cons.mp he with rfl | hmem
      · exact absurd hcur.1 hne
      · exact ⟨e, hmem, hne⟩
    · have hd : d ≠ cur := fun hc => hcur ⟨hc, hlen⟩
      exact ⟨hd, hall d (List.mem_cons_self d rest)⟩

theorem tick_done_unfrozen {α : Type} (pu : α → α) (pid : α → Bool) (pr : α → α)
    (draws : List ℕ) (c : SchedState α)
    (hstop : pu c.currentProgram = c.currentProgram)
    (hd : pid c.currentProgram = true) (hnf : c.isFrozen = false) :
    tick pu pid pr draws c = { c with isFrozen := true, freezeCounter := 0 } := by
  simp only [tick, hstop, hd, hnf, if_true]

theorem tick_frozen_wait {α : Type} (pu : α → α) (pid : α → Bool) (pr : α → α)
    (draws : List ℕ) (c : SchedState α)
    (hstop : pu c.currentProgram = c.currentProgram)
    (hd : pid c.currentProgram = true) (hf : c.isFrozen = true)
    (hlt : c.freezeCounter + 1 < FREEZE_DURATION) :
    tick pu pid pr draws c = { c with freezeCounter := c.freezeCounter + 1 } := by
  simp only [tick, hstop, hd, hf, if_true]
  rw [if_neg (by simp), if_neg (by omega)]

theorem tick_frozen_switch {α : Type} (pu : α → α) (pid : α → Bool) (pr : α → α)
    (draws : List ℕ) (c : SchedState α)
    (hstop : pu c.currentProgram = c.currentProgram)
    (hd : pid c.currentProgram = true) (hf : c.isFrozen = true)
    (hge : c.freezeCounter + 1 ≥ FREEZE_DURATION) :
    tick pu pid pr draws c =
      { c with
          currentColorMode := (c.currentColorMode + 1) % 4
          useBrickGrayscale := (c.currentColorMode + 1) % 4 == 1
            || (c.currentColorMode + 1) % 4 == 3
          useClayGrayscale := (c.currentColorMode + 1) % 4 == 2
            || (c.currentColorMode + 1) % 4 == 3
          currentProgramIndex := pickNext draws c.programs.length c.currentProgramIndex
          currentProgram := pr (c.programs.getD
            (pickNext draws c.programs.length c.currentProgramIndex) c.currentProgram)
          isFrozen := false
          freezeCounter := 0 } := by
  simp only [tick, hstop, hd, hf, if_true]
  rw [if_neg (by simp), if_pos (by omega)]

/-- During the whole freeze window the scheduler only counts frames: `k + 1`
ticks after the program first reports done, the state is frozen with
`freezeCounter = k` and nothing else has changed (for `k ≤ 19`). -/
theorem freeze_wait_trace {α : Type} (pu : α → α) (pid : α → Bool) (pr : α → α)
    (draws : List ℕ) (c : SchedState α)
    (hstop : pu c.currentProgram = c.currentProgram)
    (hd : pid c.currentProgram = true) (hnf : c.isFrozen = false) :
    ∀ k, k ≤ 19 →
      (tick pu pid pr draws)^[k + 1] c
        = { c with isFrozen := true, freezeCounter := k } := by
  intro k
  induction k with
  | zero =>
    intro _
    rw [Function.iterate_one]
    exact tick_done_unfrozen pu pid pr draws c hstop hd hnf
  | succ k ih =>
    intro hk
    rw [Function.iterate_succ_apply', ih (by omega)]
    exact tick_frozen_wait pu pid pr draws _ hstop hd rfl
      (by simp only [FREEZE_DURATION]; omega)

/-- Tick `21` performs the switch: color mode advances by one (mod 4), the
next index comes from the random draws, the program at that index is reset
and the freeze ends. -/
theorem freeze_switch_trace {α : Type} (pu : α → α) (pid : α → Bool) (pr : α → α)
    (draws : List ℕ) (c : SchedState α)
    (hstop : pu c.currentProgram = c.currentProgram)
    (hd : pid c.currentProgram = true) (hnf : c.isFrozen = false) :
    (tick pu pid pr draws)^[21] c
      = { c with
          currentColorMode := (c.currentColorMode + 1) % 4
          useBrickGrayscale := (c.currentColorMode + 1) % 4 == 1
            || (c.currentColorMode + 1) % 4 == 3
          useClayGrayscale := (c.currentColorMode + 1) % 4 == 2
            || (c.currentColorMode + 1) % 4 == 3
          currentProgramIndex := pickNext draws c.programs.length c.currentProgramIndex
          currentProgram := pr (c.programs.getD
            (pickNext draws c.programs.length c.currentProgramIndex) c.currentProgram)
          isFrozen := false
          freezeCounter := 0 } := by
  have h20 : (21 : ℕ) = 20 + 1 := rfl
  rw [h20, Function.iterate_succ_apply',
    freeze_wait_trace pu pid pr draws c hstop hd hnf 19 (by omega)]
  exact tick_frozen_switch pu pid pr draws _ hstop hd rfl
    (by simp only [FREEZE_DURATION]; omega)

end Scheduler

/-! ### Additional named constants, and congruence helpers -/

namespace Radiation

/-- `generateRadiationPaths`: `centerR = Math.max(0, Math.floor(rows / 2))`. -/
def centerR (rows : ℕ) : ℤ := max 0 ((rows : ℤ) / 2)

/-- `generateRadiationPaths`: `centerC = Math.max(0, Math.floor(cols / 2) - 1)`
("Same offset as spiral"). -/
def centerC (cols : ℕ) : ℤ := max 0 ((cols : ℤ) / 2 - 1)

end Radiation

theorem getD_map_range {f : ℕ → List Pos} {n i : ℕ} (h : i < n) (d : List Pos) :
    ((List.range n).map f).getD i d = f i := by
  have hl : i < ((List.range n).map f).length := by simpa using h
  rw [List.getD_eq_getElem _ _ hl]
  simp

/-- Two grids that agree on every real cell. -/
def GridAgree (rows cols : ℕ) (g g' : Grid) : Prop :=
  ∀ p ∈ gridCells rows cols, g p.1 p.2 = g' p.1 p.2

theorem gridAgree_update {rows cols : ℕ} {row col : ℤ} {v : ℕ} {g g' : Grid}
    (h : GridAgree rows cols g g') :
    GridAgree rows cols (updateGridCell rows cols row col v g)
      (updateGridCell rows cols row col v g') := by
  intro p hp
  simp only [updateGridCell]
  split_ifs
  · rfl
  · exact h p hp

theorem gridAgree_erase {rows cols : ℕ} {g g' : Grid} (lp : Option Pos)
    (h : GridAgree rows cols g g') :
    GridAgree rows cols (ScanByLine.eraseLast rows cols lp g)
      (ScanByLine.eraseLast rows cols lp g') := by
  cases lp with
  | none => exact h
  | some p => exact gridAgree_update h

theorem allCellsEq_congr {rows cols v : ℕ} {g g' : Grid}
    (hag : GridAgree rows cols g g') :
    allCellsEq rows cols v g ↔ allCellsEq rows cols v g' := by
  constructor
  · intro h p hp
    rw [← hag p hp]
    exact h p hp
  · intro h p hp
    rw [hag p hp]
    exact h p hp

theorem brickCount_congr {rows cols : ℕ} {g g' : Grid}
    (hag : GridAgree rows cols g g') :
    brickCount rows cols g = brickCount rows cols g' := by
  rw [brickCount, brickCount]
  apply List.countP_congr
  intro p hp
  rw [hag p hp]

theorem find_congr_bool {α : Type} (f f' : α → Bool) :
    ∀ (l : List α), (∀ x ∈ l, f x = f' x) → l.find? f = l.find? f' := by
  intro l
  induction l with
  | nil => intro _; rfl
  | cons a l ih =>
    intro h
    by_cases hfa : f a = true
    · rw [List.find?_cons_of_pos _ hfa,
        List.find?_cons_of_pos _ (by rw [← h a (List.mem_cons_self a l)]; exact hfa)]
    · rw [List.find?_cons_of_neg _ hfa,
        List.find?_cons_of_neg _ (by rw [← h a (List.mem_cons_self a l)]; exact hfa)]
      exact ih (fun x hx => h x (List.mem_cons_of_mem a hx))

namespace ScanByLine

/-- `update()` only reads the grid on real cells, so two configurations with
the same program state and grids agreeing on the real cells step to the same
program state and to grids that agree on the real cells. -/
theorem line_step_congr (rows cols : ℕ) (x y : State × Grid)
    (hs : x.1 = y.1)
    (hph : x.1.phase = 1 ∨ x.1.phase = 2 ∨ x.1.phase = 3 ∨ x.1.phase = 4)
    (hf : x.1.frameCounter = 0)
    (hag : GridAgree rows cols x.2 y.2) :
    (update rows cols x).1 = (update rows cols y).1 ∧
    GridAgree rows cols (update rows cols x).2 (update rows cols y).2 := by
  obtain ⟨s, g⟩ := x
  obtain ⟨s', g'⟩ := y
  dsimp only at hs hph hf hag
  subst hs
  rcases hph with hp | hp | hp | hp
  · rw [update_phase1_line hp hf, @update_phase1_line rows cols s g' hp hf]
    simp only [hscanStep]
    split_ifs with h1 h2
    · exact ⟨rfl, gridAgree_update (gridAgree_update (gridAgree_erase _ hag))⟩
    · exact ⟨rfl, gridAgree_update (gridAgree_erase _ hag)⟩
    · exact ⟨rfl, gridAgree_update (gridAgree_erase _ hag)⟩
  · rw [update_phase2_line hp hf, @update_phase2_line rows cols s g' hp hf]
    simp only [vscanStep]
    split_ifs with h1 h2
    · exact ⟨rfl, gridAgree_update (gridAgree_update (gridAgree_erase _ hag))⟩
    · exact ⟨rfl, gridAgree_update (gridAgree_erase _ hag)⟩
    · exact ⟨rfl, gridAgree_update (gridAgree_erase _ hag)⟩
  · rw [update_phase3_line hp hf, @update_phase3_line rows cols s g' hp hf]
    simp only [fillStep]
    rw [find_congr_bool (fun p => g p.1 p.2 == CELL_CLAY)
      (fun p => g' p.1 p.2 == CELL_CLAY) (gridCells rows cols)
      (fun p hp2 => by simp only [hag p hp2])]
    cases hfound : (gridCells rows cols).find? fun p => g' p.1 p.2 == CELL_CLAY with
    | none =>
      split_ifs <;> exact ⟨rfl, hag⟩
    | some p =>
      split_ifs <;> exact ⟨rfl, gridAgree_update hag⟩
  · rw [@update_done_line rows cols (s, g) (by simp [isDone, hp]),
      @update_done_line rows cols (s, g') (by simp [isDone, hp])]
    exact ⟨rfl, hag⟩

/-- Iterated version of `line_step_congr`, from any invariant configuration. -/
theorem line_iter_congr (rows cols : ℕ) (a : State × Grid) (g' : Grid)
    (hinv : Inv rows cols a) (hag : GridAgree rows cols a.2 g') :
    ∀ n, ((update rows cols)^[n] a).1 = ((update rows cols)^[n] (a.1, g')).1
      ∧ GridAgree rows cols ((update rows cols)^[n] a).2
        ((update rows cols)^[n] (a.1, g')).2 := by
  intro n
  induction n with
  | zero => exact ⟨rfl, hag⟩
  | succ n ih =>
    rw [Function.iterate_succ_apply', Function.iterate_succ_apply']
    have hinvn := inv_iterate (update rows cols) (Inv rows cols)
      (inv_step_line rows cols) n a hinv
    obtain ⟨hph, hf, -⟩ := hinvn
    exact line_step_congr rows cols ((update rows cols)^[n] a)
      ((update rows cols)^[n] (a.1, g')) ih.1 hph hf ih.2

end ScanByLine

namespace Scheduler

/-- What the freeze cycle actually does once the active program reports done
(`pu`, `pid`, `pr` are the program's update/isDone/reset operations, `draws`
the `Math.random()` index draws): every one of the 20 freeze ticks still
goes through `currentProgram.update()` and only increments the counter, and
the 21st tick advances the color mode by exactly one (mod 4), picks the
first admissible random index (different from the current one), resets that
program and unfreezes. -/
def C3Concl {α : Type} (pu : α → α) (pid : α → Bool) (pr : α → α)
    (draws : List ℕ) (c : SchedState α) : Prop :=
  (∀ k, k ≤ 19 → (tick pu pid pr draws)^[k + 1] c
      = { c with isFrozen := true, freezeCounter := k })
  ∧ ((tick pu pid pr draws)^[21] c).currentColorMode
      = (c.currentColorMode + 1) % 4
  ∧ ((tick pu pid pr draws)^[21] c).currentProgramIndex ≠ c.currentProgramIndex
  ∧ ((tick pu pid pr draws)^[21] c).currentProgramIndex < c.programs.length
  ∧ ((tick pu pid pr draws)^[21] c).currentProgram
      = pr (c.programs.getD
          (((tick pu pid pr draws)^[21] c).currentProgramIndex) c.currentProgram)
  ∧ ((tick pu pid pr draws)^[21] c).isFrozen = false
  ∧ ((tick pu pid pr draws)^[21] c).freezeCounter = 0

end Scheduler

/-! ### The claims

Each claim of the frozen list gets one theorem below.  The float-based ray
assignment (`atan2`/`round`) and line sampling (`getLinePositions`) stay
abstract parameters, universally quantified, so the radiation statements
hold for every possible float behaviour. -/

/-- Claim C1's property, as one proposition over the grid size: each of the
seven fill programs, run from `reset()`, has every real cell equal to BRICK
whenever `isDone()` reports true. -/
def AllProgramsFill (rows cols : ℕ) : Prop :=
  (∀ (c : ScanByLine.State × Grid) (n : ℕ),
    ScanByLine.isDone
      ((ScanByLine.update rows cols)^[n] (ScanByLine.reset rows cols c)).1 = true →
    allCellsEq rows cols CELL_BRICK
      ((ScanByLine.update rows cols)^[n] (ScanByLine.reset rows cols c)).2)
  ∧ (∀ (c : ScanBySpiral.State × Grid) (n : ℕ),
    ScanBySpiral.isDone
      ((ScanBySpiral.update rows cols (Spiral.generateSpiralPath rows cols))^[n]
        (ScanBySpiral.reset rows cols c)).1 = true →
    allCellsEq rows cols CELL_BRICK
      ((ScanBySpiral.update rows cols (Spiral.generateSpiralPath rows cols))^[n]
        (ScanBySpiral.reset rows cols c)).2)
  ∧ (∀ (c : ScanByDiagonal.State × Grid) (n : ℕ),
    ScanByDiagonal.isDone
      ((ScanByDiagonal.update rows cols (Diagonal.diagonal1Positions rows cols)
          (Diagonal.diagonal2Positions rows cols))^[n]
        (ScanByDiagonal.reset rows cols c)).1 = true →
    allCellsEq rows cols CELL_BRICK
      ((ScanByDiagonal.update rows cols (Diagonal.diagonal1Positions rows cols)
          (Diagonal.diagonal2Positions rows cols))^[n]
        (ScanByDiagonal.reset rows cols c)).2)
  ∧ (∀ (cr cc : ℤ) (rayOf : Pos → ℕ),
      (∀ p ∈ gridCells rows cols, rayOf p < 24) →
    ∀ (c : ScanByRadiation.State × Grid) (n : ℕ),
    ScanByRadiation.isDone
      ((ScanByRadiation.update rows cols
          (Radiation.clockwisePositions rows cols cr cc rayOf)
          (Radiation.counterclockwisePositions rows cols cr cc rayOf))^[n]
        (ScanByRadiation.reset rows cols c)).1 = true →
    allCellsEq rows cols CELL_BRICK
      ((ScanByRadiation.update rows cols
          (Radiation.clockwisePositions rows cols cr cc rayOf)
          (Radiation.counterclockwisePositions rows cols cr cc rayOf))^[n]
        (ScanByRadiation.reset rows cols c)).2)
  ∧ (∀ (c : SwipeByLine.State × Grid) (n : ℕ),
    SwipeByLine.isDone
      ((SwipeByLine.update rows cols)^[n] (SwipeByLine.reset rows cols c)).1 = true →
    allCellsEq rows cols CELL_BRICK
      ((SwipeByLine.update rows cols)^[n] (SwipeByLine.reset rows cols c)).2)
  ∧ (∀ (c : SwipeByDiagonal.State × Grid) (n : ℕ),
    SwipeByDiagonal.isDone
      ((SwipeByDiagonal.update rows cols (Diagonal.diagonal1Positions rows cols)
          (Diagonal.diagonal2Positions rows cols))^[n]
        (SwipeByDiagonal.reset rows cols c)).1 = true →
    allCellsEq rows cols CELL_BRICK
      ((SwipeByDiagonal.update rows cols (Diagonal.diagonal1Positions rows cols)
          (Diagonal.diagonal2Positions rows cols))^[n]
        (SwipeByDiagonal.reset rows cols c)).2)
  ∧ (∀ (lineOf : ℤ → List Pos) (cr cc : ℤ) (rayOf : Pos → ℕ),
      (∀ p ∈ gridCells rows cols, rayOf p < 24) →
    ∀ (c : SwipeByRadiation.State × Grid) (n : ℕ),
    SwipeByRadiation.isDone
      ((SwipeByRadiation.update rows cols lineOf
          ((List.range 24).map (Radiation.rayList rows cols cr cc rayOf)))^[n]
        (SwipeByRadiation.reset rows cols c)).1 = true →
    allCellsEq rows cols CELL_BRICK
      ((SwipeByRadiation.update rows cols lineOf
          ((List.range 24).map (Radiation.rayList rows cols cr cc rayOf)))^[n]
        (SwipeByRadiation.reset rows cols c)).2)

/-- Claim C2's property: each of the seven programs, run from `reset()`,
reports `isDone()` after `80 * rows * cols` calls to `update()`. -/
def AllProgramsTerminate (rows cols : ℕ) : Prop :=
  (∀ c : ScanByLine.State × Grid,
    ScanByLine.isDone ((ScanByLine.update rows cols)^[80 * (rows * cols)]
      (ScanByLine.reset rows cols c)).1 = true)
  ∧ (∀ c : ScanBySpiral.State × Grid,
    ScanBySpiral.isDone
      ((ScanBySpiral.update rows cols (Spiral.generateSpiralPath rows cols))^[80 * (rows * cols)]
        (ScanBySpiral.reset rows cols c)).1 = true)
  ∧ (∀ c : ScanByDiagonal.State × Grid,
    ScanByDiagonal.isDone
      ((ScanByDiagonal.update rows cols (Diagonal.diagonal1Positions rows cols)
          (Diagonal.diagonal2Positions rows cols))^[80 * (rows * cols)]
        (ScanByDiagonal.reset rows cols c)).1 = true)
  ∧ (∀ (cr cc : ℤ) (rayOf : Pos → ℕ),
      (∀ p ∈ gridCells rows cols, rayOf p < 24) →
    ∀ c : ScanByRadiation.State × Grid,
    ScanByRadiation.isDone
      ((ScanByRadiation.update rows cols
          (Radiation.clockwisePositions rows cols cr cc rayOf)
          (Radiation.counterclockwisePositions rows cols cr cc rayOf))^[80 * (rows * cols)]
        (ScanByRadiation.reset rows cols c)).1 = true)
  ∧ (∀ c : SwipeByLine.State × Grid,
    SwipeByLine.isDone ((SwipeByLine.update rows cols)^[80 * (rows * cols)]
      (SwipeByLine.reset rows cols c)).1 = true)
  ∧ (∀ c : SwipeByDiagonal.State × Grid,
    SwipeByDiagonal.isDone
      ((SwipeByDiagonal.update rows cols (Diagonal.diagonal1Positions rows cols)
          (Diagonal.diagonal2Positions rows cols))^[80 * (rows * cols)]
        (SwipeByDiagonal.reset rows cols c)).1 = true)
  ∧ (∀ (lineOf : ℤ → List Pos) (cr cc : ℤ) (rayOf : Pos → ℕ),
      (∀ p ∈ gridCells rows cols, rayOf p < 24) →
    ∀ c : SwipeByRadiation.State × Grid,
    SwipeByRadiation.isDone
      ((SwipeByRadiation.update rows cols lineOf
          ((List.range 24).map (Radiation.rayList rows cols cr cc rayOf)))^[80 * (rows * cols)]
        (SwipeByRadiation.reset rows cols c)).1 = true)

/-- C1: for every one of the seven fill programs and every grid with
`rows ≥ 1` and `cols ≥ 1`, after `reset()` and repeated `update()` calls,
whenever `isDone()` returns true every cell of the grid equals BRICK. -/
theorem C1_every_program_fills_grid (rows cols : ℕ)
    (h1 : 1 ≤ rows) (h2 : 1 ≤ cols) : AllProgramsFill rows cols := by
  refine ⟨?_, ?_, ?_, ?_, ?_, ?_, ?_⟩
  · intro c n hd
    exact ScanByLine.done_allBrick_line rows cols c h1 h2 n hd
  · intro c n hd
    exact ScanBySpiral.done_allBrick_spiral rows cols _
      (fun p hp => (Spiral.generateSpiralPath_perm rows cols h1 h2).mem_iff.mpr hp)
      c n hd
  · intro c n hd
    exact ScanByDiagonal.done_allBrick_diag rows cols _ _
      (fun p hp => (Diagonal.diag1_perm rows cols).mem_iff.mpr hp) c n hd
  · intro cr cc rayOf hray c n hd
    exact ScanByRadiation.done_allBrick_rad rows cols _ _
      (Radiation.clockwise_covers rows cols cr cc rayOf hray) c n hd
  · intro c n hd
    exact SwipeByLine.done_allBrick_swl rows cols h1 h2 c n hd
  · intro c n hd
    refine SwipeByDiagonal.done_allBrick_swd rows cols _ _ h1 h2 ?_ ?_ c n hd
    · rw [Diagonal.diag1_length]
      calc min rows cols ≤ rows := min_le_left rows cols
      _ ≤ rows * cols := Nat.le_mul_of_pos_right rows (by omega)
    · rw [Diagonal.diag2_length]
      calc min rows cols ≤ rows := min_le_left rows cols
      _ ≤ rows * cols := Nat.le_mul_of_pos_right rows (by omega)
  · intro lineOf cr cc rayOf hray c n hd
    refine SwipeByRadiation.done_allBrick_swr rows cols lineOf _ ?_ c n hd
    intro p hp
    refine ⟨rayOf p, by simpa using hray p hp, ?_⟩
    rw [getD_map_range (hray p hp)]
    exact Radiation.mem_rayList.mpr ⟨hp, rfl⟩

/-- Witness for C1 on the concrete 2×3 grid. -/
theorem C1_witness : AllProgramsFill 2 3 :=
  C1_every_program_fills_grid 2 3 (by norm_num) (by norm_num)

/-- C2: for every one of the seven fill programs and every `rows, cols ≥ 1`,
starting from `reset()`, `isDone()` returns true within `80 * rows * cols`
calls to `update()` (with `ANIMATION_SPEED = 1`). -/
theorem C2_every_program_terminates (rows cols : ℕ)
    (h1 : 1 ≤ rows) (h2 : 1 ≤ cols) : AllProgramsTerminate rows cols := by
  have hm1 : min rows cols ≤ rows * cols := by
    calc min rows cols ≤ rows := min_le_left rows cols
    _ ≤ rows * cols := Nat.le_mul_of_pos_right rows (by omega)
  refine ⟨?_, ?_, ?_, ?_, ?_, ?_, ?_⟩
  · intro c
    exact ScanByLine.done_by_line rows cols c h1 h2
  · intro c
    exact ScanBySpiral.done_by_spiral rows cols _
      (fun p hp => (Spiral.generateSpiralPath_perm rows cols h1 h2).mem_iff.mpr hp)
      (Spiral.generateSpiralPath_spec rows cols h1 h2).1 c h1 h2
  · intro c
    exact ScanByDiagonal.done_by_diag rows cols _ _
      (fun p hp => (Diagonal.diag1_perm rows cols).mem_iff.mpr hp)
      (Diagonal.diag1_length rows cols) (Diagonal.diag2_length rows cols) c h1 h2
  · intro cr cc rayOf hray c
    exact ScanByRadiation.done_by_rad rows cols _ _
      (Radiation.clockwise_covers rows cols cr cc rayOf hray)
      (Radiation.clockwise_length rows cols cr cc rayOf hray)
      (Radiation.counterclockwise_length rows cols cr cc rayOf hray) c h1 h2
  · intro c
    exact SwipeByLine.done_by_swl rows cols h1 h2 c
  · intro c
    exact SwipeByDiagonal.done_by_swd rows cols _ _ h1 h2
      (Diagonal.diag1_length rows cols) (Diagonal.diag2_length rows cols) c
  · intro lineOf cr cc rayOf hray c
    refine SwipeByRadiation.done_by_swr rows cols lineOf _ ?_ (by simp) c h1 h2
    intro p hp
    refine ⟨rayOf p, by simpa using hray p hp, ?_⟩
    rw [getD_map_range (hray p hp)]
    exact Radiation.mem_rayList.mpr ⟨hp, rfl⟩

/-- Witness for C2 on the concrete 2×3 grid. -/
theorem C2_witness : AllProgramsTerminate 2 3 :=
  C2_every_program_terminates 2 3 (by norm_num) (by norm_num)

/-- C3 (amended): once the active program reports done, the scheduler keeps
calling `update()` every tick (a no-op for a done program), waits exactly 20
ticks only incrementing the freeze counter, then advances the color mode by
exactly one (mod 4), picks a random index different from the current one
(when more than one program exists and the draws provide one), resets that
program and returns to running. -/
theorem C3_freeze_cycle {α : Type} (pu : α → α) (pid : α → Bool) (pr : α → α)
    (draws : List ℕ) (c : Scheduler.SchedState α)
    (hstop : ∀ x, pid x = true → pu x = x)
    (hd : pid c.currentProgram = true) (hnf : c.isFrozen = false)
    (hlen : 1 < c.programs.length)
    (hall : ∀ d ∈ draws, d < c.programs.length)
    (hex : ∃ d ∈ draws, d ≠ c.currentProgramIndex) :
    Scheduler.C3Concl pu pid pr draws c := by
  have hw := Scheduler.freeze_wait_trace pu pid pr draws c
    (hstop _ hd) hd hnf
  have hs := Scheduler.freeze_switch_trace pu pid pr draws c
    (hstop _ hd) hd hnf
  obtain ⟨hne, hlt⟩ := Scheduler.pickNext_spec draws c.programs.length
    c.currentProgramIndex hlen hall hex
  refine ⟨hw, ?_, ?_, ?_, ?_, ?_, ?_⟩ <;> rw [hs] <;>
    first
    | rfl
    | exact hne
    | exact hlt

/-- Witness for C3 at a concrete two-program scheduler state. -/
theorem C3_witness : Scheduler.C3Concl (fun (n : ℕ) => n) (fun _ => true)
    (fun _ => 7) [1] ⟨[5, 6], 0, 5, false, 0, 2, false, false⟩ :=
  C3_freeze_cycle (fun n => n) (fun _ => true) (fun _ => 7) [1]
    ⟨[5, 6], 0, 5, false, 0, 2, false, false⟩
    (fun _ _ => rfl) rfl rfl (by decide) (by decide) (by decide)

/-- C3 counterexample to the claim as stated: the scheduler does call
`update()` on a program that already reported done.  With a program type
whose `update` increments a counter and whose `isDone` is always true, one
tick taken in the middle of the freeze period (frozen, counter 3) still
transforms the current program from 5 to 6 — so "the Scheduler calls no
further update() on it" is false; the calls merely have no effect for the
real programs because their `update()` is a no-op once done. -/
theorem C3_update_called_during_freeze :
    (Scheduler.tick (fun (n : ℕ) => n + 1) (fun _ => true) (fun _ => 0) []
      ⟨[0, 1], 0, 5, true, 3, 0, false, false⟩).currentProgram = 6
    ∧ (Scheduler.tick (fun (n : ℕ) => n + 1) (fun _ => true) (fun _ => 0) []
      ⟨[0, 1], 0, 5, true, 3, 0, false, false⟩).isFrozen = true := by
  exact ⟨rfl, rfl⟩

/-- C4: `generateSpiralPath` yields exactly `rows*cols` coordinates, starts
at `(max 0 (rows/2), max 0 (cols/2 - 1))`, and contains every coordinate of
the grid exactly once (it is a permutation of the grid's cells; being a pure
function of `(rows, cols)`, two invocations agree). -/
theorem C4_spiral_path_spec (rows cols : ℕ) (h1 : 1 ≤ rows) (h2 : 1 ≤ cols) :
    (Spiral.generateSpiralPath rows cols).length = rows * cols
    ∧ (Spiral.generateSpiralPath rows cols).head?
        = some (max 0 ((rows : ℤ) / 2), max 0 ((cols : ℤ) / 2 - 1))
    ∧ (∀ p ∈ gridCells rows cols,
        countPos p (Spiral.generateSpiralPath rows cols) = 1)
    ∧ (∀ p ∈ Spiral.generateSpiralPath rows cols, InBounds rows cols p)
    ∧ (Spiral.generateSpiralPath rows cols).Perm (gridCells rows cols) := by
  obtain ⟨hl, hh, hc, hb⟩ := Spiral.generateSpiralPath_spec rows cols h1 h2
  exact ⟨hl, hh, hc, hb, Spiral.generateSpiralPath_perm rows cols h1 h2⟩

/-- Witness for C4 on the 5×5 grid named by the spec. -/
theorem C4_witness :
    (Spiral.generateSpiralPath 5 5).length = 5 * 5
    ∧ (Spiral.generateSpiralPath 5 5).head?
        = some (max 0 ((5 : ℤ) / 2), max 0 ((5 : ℤ) / 2 - 1))
    ∧ (∀ p ∈ gridCells 5 5, countPos p (Spiral.generateSpiralPath 5 5) = 1)
    ∧ (∀ p ∈ Spiral.generateSpiralPath 5 5, InBounds 5 5 p)
    ∧ (Spiral.generateSpiralPath 5 5).Perm (gridCells 5 5) :=
  C4_spiral_path_spec 5 5 (by norm_num) (by norm_num)

/-- C5: family-1 diagonals enumerate the grid by ascending `r+c` and then
ascending `r`; family-2 by descending `c-r` and then ascending `r`; each
path is a permutation of the grid (every cell exactly once, length
`rows*cols`). -/
theorem C5_diagonal_paths_spec (rows cols : ℕ) :
    (Diagonal.diagonal1Positions rows cols).Pairwise Diagonal.diag1Lt
    ∧ (Diagonal.diagonal2Positions rows cols).Pairwise Diagonal.diag2Lt
    ∧ (Diagonal.diagonal1Positions rows cols).Perm (gridCells rows cols)
    ∧ (Diagonal.diagonal2Positions rows cols).Perm (gridCells rows cols)
    ∧ (Diagonal.diagonal1Positions rows cols).length = rows * cols
    ∧ (Diagonal.diagonal2Positions rows cols).length = rows * cols :=
  ⟨Diagonal.pairwise_diag1 rows cols, Diagonal.pairwise_diag2 rows cols,
    Diagonal.diag1_perm rows cols, Diagonal.diag2_perm rows cols,
    Diagonal.diag1_length rows cols, Diagonal.diag2_length rows cols⟩

/-- C6: for every assignment of cells to the 24 rays, the clockwise path is
the concatenation of the rays in order `0..23`, each ray sorted by ascending
distance from the center; the counter-clockwise path concatenates the same
rays in order `23..0`; both contain every cell of the grid exactly once. -/
theorem C6_radial_paths_spec (rows cols : ℕ) (cr cc : ℤ) (rayOf : Pos → ℕ)
    (hray : ∀ p ∈ gridCells rows cols, rayOf p < 24) :
    Radiation.clockwisePositions rows cols cr cc rayOf
      = (List.range 24).flatMap (Radiation.rayList rows cols cr cc rayOf)
    ∧ Radiation.counterclockwisePositions rows cols cr cc rayOf
      = (List.range 24).reverse.flatMap (Radiation.rayList rows cols cr cc rayOf)
    ∧ (∀ i : ℕ, List.Pairwise
        (fun p q => Radiation.distSq cr cc p ≤ Radiation.distSq cr cc q)
        (Radiation.rayList rows cols cr cc rayOf i))
    ∧ (∀ i : ℕ, ∀ p ∈ Radiation.rayList rows cols cr cc rayOf i,
        p ∈ gridCells rows cols ∧ rayOf p = i)
    ∧ (Radiation.clockwisePositions rows cols cr cc rayOf).Perm
        (gridCells rows cols)
    ∧ (Radiation.counterclockwisePositions rows cols cr cc rayOf).Perm
        (gridCells rows cols) :=
  ⟨rfl, rfl, Radiation.rayList_sorted rows cols cr cc rayOf,
    fun _ _ hp => Radiation.mem_rayList.mp hp,
    Radiation.clockwise_perm rows cols cr cc rayOf hray,
    Radiation.counterclockwise_perm rows cols cr cc rayOf hray⟩

/-- Witness for C6 on a 2×3 grid with the constant ray assignment. -/
theorem C6_witness :
    Radiation.clockwisePositions 2 3 0 0 (fun _ => 0)
      = (List.range 24).flatMap (Radiation.rayList 2 3 0 0 (fun _ => 0))
    ∧ Radiation.counterclockwisePositions 2 3 0 0 (fun _ => 0)
      = (List.range 24).reverse.flatMap (Radiation.rayList 2 3 0 0 (fun _ => 0))
    ∧ (∀ i : ℕ, List.Pairwise
        (fun p q => Radiation.distSq 0 0 p ≤ Radiation.distSq 0 0 q)
        (Radiation.rayList 2 3 0 0 (fun _ => 0) i))
    ∧ (∀ i : ℕ, ∀ p ∈ Radiation.rayList 2 3 0 0 (fun _ => 0) i,
        p ∈ gridCells 2 3 ∧ (fun (_ : Pos) => 0) p = i)
    ∧ (Radiation.clockwisePositions 2 3 0 0 (fun _ => 0)).Perm (gridCells 2 3)
    ∧ (Radiation.counterclockwisePositions 2 3 0 0 (fun _ => 0)).Perm
        (gridCells 2 3) :=
  C6_radial_paths_spec 2 3 0 0 (fun _ => 0) (by decide)

/-- C7: for every program, `reset()` sets the phase to the first traversal
phase (so `isDone()` is false), repaints every real cell CLAY, and leaves
every out-of-bounds grid entry untouched. -/
theorem C7_reset_spec (rows cols : ℕ) :
    (∀ c : ScanByLine.State × Grid,
      (ScanByLine.reset rows cols c).1.phase = 1
      ∧ ScanByLine.isDone (ScanByLine.reset rows cols c).1 = false
      ∧ (∀ p ∈ gridCells rows cols,
          (ScanByLine.reset rows cols c).2 p.1 p.2 = CELL_CLAY)
      ∧ ∀ r c', ¬ InBounds rows cols (r, c') →
          (ScanByLine.reset rows cols c).2 r c' = c.2 r c')
    ∧ (∀ c : ScanBySpiral.State × Grid,
      (ScanBySpiral.reset rows cols c).1.phase = 1
      ∧ ScanBySpiral.isDone (ScanBySpiral.reset rows cols c).1 = false
      ∧ (∀ p ∈ gridCells rows cols,
          (ScanBySpiral.reset rows cols c).2 p.1 p.2 = CELL_CLAY)
      ∧ ∀ r c', ¬ InBounds rows cols (r, c') →
          (ScanBySpiral.reset rows cols c).2 r c' = c.2 r c')
    ∧ (∀ c : ScanByDiagonal.State × Grid,
      (ScanByDiagonal.reset rows cols c).1.phase = 1
      ∧ ScanByDiagonal.isDone (ScanByDiagonal.reset rows cols c).1 = false
      ∧ (∀ p ∈ gridCells rows cols,
          (ScanByDiagonal.reset rows cols c).2 p.1 p.2 = CELL_CLAY)
      ∧ ∀ r c', ¬ InBounds rows cols (r, c') →
          (ScanByDiagonal.reset rows cols c).2 r c' = c.2 r c')
    ∧ (∀ c : ScanByRadiation.State × Grid,
      (ScanByRadiation.reset rows cols c).1.phase = 1
      ∧ ScanByRadiation.isDone (ScanByRadiation.reset rows cols c).1 = false
      ∧ (∀ p ∈ gridCells rows cols,
          (ScanByRadiation.reset rows cols c).2 p.1 p.2 = CELL_CLAY)
      ∧ ∀ r c', ¬ InBounds rows cols (r, c') →
          (ScanByRadiation.reset rows cols c).2 r c' = c.2 r c')
    ∧ (∀ c : SwipeByLine.State × Grid,
      (SwipeByLine.reset rows cols c).1.phase = 1
      ∧ SwipeByLine.isDone (SwipeByLine.reset rows cols c).1 = false
      ∧ (∀ p ∈ gridCells rows cols,
          (SwipeByLine.reset rows cols c).2 p.1 p.2 = CELL_CLAY)
      ∧ ∀ r c', ¬ InBounds rows cols (r, c') →
          (SwipeByLine.reset rows cols c).2 r c' = c.2 r c')
    ∧ (∀ c : SwipeByDiagonal.State × Grid,
      (SwipeByDiagonal.reset rows cols c).1.phase = 1
      ∧ SwipeByDiagonal.isDone (SwipeByDiagonal.reset rows cols c).1 = false
      ∧ (∀ p ∈ gridCells rows cols,
          (SwipeByDiagonal.reset rows cols c).2 p.1 p.2 = CELL_CLAY)
      ∧ ∀ r c', ¬ InBounds rows cols (r, c') →
          (SwipeByDiagonal.reset rows cols c).2 r c' = c.2 r c')
    ∧ (∀ c : SwipeByRadiation.State × Grid,
      (SwipeByRadiation.reset rows cols c).1.phase = 1
      ∧ SwipeByRadiation.isDone (SwipeByRadiation.reset rows cols c).1 = false
      ∧ (∀ p ∈ gridCells rows cols,
          (SwipeByRadiation.reset rows cols c).2 p.1 p.2 = CELL_CLAY)
      ∧ ∀ r c', ¬ InBounds rows cols (r, c') →
          (SwipeByRadiation.reset rows cols c).2 r c' = c.2 r c') := by
  refine ⟨?_, ?_, ?_, ?_, ?_, ?_, ?_⟩ <;>
    · intro c
      refine ⟨rfl, rfl, ?_, ?_⟩
      · intro p hp
        show clearGrid rows cols c.2 p.1 p.2 = CELL_CLAY
        rw [clearGrid_apply, if_pos (mem_gridCells.mp hp)]
      · intro r c' hnb
        show clearGrid rows cols c.2 r c' = c.2 r c'
        rw [clearGrid_apply, if_neg hnb]

/-- C8: for every program, `update()` is the identity once `isDone()` is
true: the grid and the internal state are unchanged. -/
theorem C8_update_noop_after_done (rows cols : ℕ) :
    (∀ c : ScanByLine.State × Grid, ScanByLine.isDone c.1 = true →
      ScanByLine.update rows cols c = c)
    ∧ (∀ (path : List Pos) (c : ScanBySpiral.State × Grid),
        ScanBySpiral.isDone c.1 = true →
        ScanBySpiral.update rows cols path c = c)
    ∧ (∀ (path1 path2 : List Pos) (c : ScanByDiagonal.State × Grid),
        ScanByDiagonal.isDone c.1 = true →
        ScanByDiagonal.update rows cols path1 path2 c = c)
    ∧ (∀ (pathCW pathCCW : List Pos) (c : ScanByRadiation.State × Grid),
        ScanByRadiation.isDone c.1 = true →
        ScanByRadiation.update rows cols pathCW pathCCW c = c)
    ∧ (∀ c : SwipeByLine.State × Grid, SwipeByLine.isDone c.1 = true →
        SwipeByLine.update rows cols c = c)
    ∧ (∀ (path1 path2 : List Pos) (c : SwipeByDiagonal.State × Grid),
        SwipeByDiagonal.isDone c.1 = true →
        SwipeByDiagonal.update rows cols path1 path2 c = c)
    ∧ (∀ (lineOf : ℤ → List Pos) (rays : List (List Pos))
        (c : SwipeByRadiation.State × Grid),
        SwipeByRadiation.isDone c.1 = true →
        SwipeByRadiation.update rows cols lineOf rays c = c) :=
  ⟨fun _ h => ScanByLine.update_done_line h,
    fun _ _ h => ScanBySpiral.update_done_spiral h,
    fun _ _ _ h => ScanByDiagonal.update_done_diag h,
    fun _ _ _ h => ScanByRadiation.update_done_rad h,
    fun _ h => SwipeByLine.update_done_swl h,
    fun _ _ _ h => SwipeByDiagonal.update_done_swd h,
    fun _ _ _ h => SwipeByRadiation.update_done_swr h⟩

/-- C9: the 2×3 ScanByLine scenario: all CLAY right after `reset()`; each of
the first 5 `update()` calls leaves exactly one BRICK cell; the 6th call
leaves the grid all CLAY again and moves to the vertical-scan phase; and at
completion (18 calls) all 6 cells are BRICK and `isDone()` is true. -/
theorem C9_scanbyline_2x3_trace (c : ScanByLine.State × Grid) :
    allCellsEq 2 3 CELL_CLAY (ScanByLine.reset 2 3 c).2
    ∧ (∀ k, 1 ≤ k → k ≤ 5 →
        brickCount 2 3
          ((ScanByLine.update 2 3)^[k] (ScanByLine.reset 2 3 c)).2 = 1)
    ∧ allCellsEq 2 3 CELL_CLAY
        ((ScanByLine.update 2 3)^[6] (ScanByLine.reset 2 3 c)).2
    ∧ ((ScanByLine.update 2 3)^[6] (ScanByLine.reset 2 3 c)).1.phase = 2
    ∧ ScanByLine.isDone
        ((ScanByLine.update 2 3)^[18] (ScanByLine.reset 2 3 c)).1 = true
    ∧ allCellsEq 2 3 CELL_BRICK
        ((ScanByLine.update 2 3)^[18] (ScanByLine.reset 2 3 c)).2 := by
  have hinv : ScanByLine.Inv 2 3 (ScanByLine.reset 2 3 c) :=
    ScanByLine.inv_reset_line 2 3 (by norm_num) (by norm_num) c
  have hag : GridAgree 2 3 (ScanByLine.reset 2 3 c).2 (fun _ _ => CELL_CLAY) := by
    intro p hp
    show clearGrid 2 3 c.2 p.1 p.2 = CELL_CLAY
    rw [clearGrid_apply, if_pos (mem_gridCells.mp hp)]
  have htr := ScanByLine.line_iter_congr 2 3 (ScanByLine.reset 2 3 c)
    (fun _ _ => CELL_CLAY) hinv hag
  have hrs : (ScanByLine.reset 2 3 c).1 = (⟨1, 0, 0, none, 0, 0⟩ : ScanByLine.State) :=
    rfl
  refine ⟨?_, ?_, ?_, ?_, ?_, ?_⟩
  · intro p hp
    show clearGrid 2 3 c.2 p.1 p.2 = CELL_CLAY
    rw [clearGrid_apply, if_pos (mem_gridCells.mp hp)]
  · intro k hk1 hk5
    interval_cases k <;>
      first
      | (rw [brickCount_congr (htr 1).2, hrs]; decide)
      | (rw [brickCount_congr (htr 2).2, hrs]; decide)
      | (rw [brickCount_congr (htr 3).2, hrs]; decide)
      | (rw [brickCount_congr (htr 4).2, hrs]; decide)
      | (rw [brickCount_congr (htr 5).2, hrs]; decide)
  · rw [allCellsEq_congr (htr 6).2, hrs]
    decide
  · rw [(htr 6).1, hrs]
    decide
  · rw [(htr 18).1, hrs]
    decide
  · rw [allCellsEq_congr (htr 18).2, hrs]
    decide

/-- C10 (amended): the radial-scan generator computes its center as
`(max 0 (rows/2), max 0 (cols/2 - 1))`, as the claim says; the
SwipeByRadiation constructor instead uses `(rows/2, cols/2)` — no `-1`
column offset and no clamping — and its column center differs from the
claimed formula on every grid with `cols ≥ 2`. -/
theorem C10_radiation_centers (rows cols : ℕ) :
    Radiation.centerR rows = max 0 ((rows : ℤ) / 2)
    ∧ Radiation.centerC cols = max 0 ((cols : ℤ) / 2 - 1)
    ∧ SwipeByRadiation.centerR rows = rows / 2
    ∧ SwipeByRadiation.centerC cols = cols / 2
    ∧ (2 ≤ cols →
        (SwipeByRadiation.centerC cols : ℤ) ≠ max 0 ((cols : ℤ) / 2 - 1)) := by
  refine ⟨rfl, rfl, rfl, rfl, ?_⟩
  intro h2
  rw [max_eq_right (by omega : (0 : ℤ) ≤ (cols : ℤ) / 2 - 1)]
  intro hc
  rw [SwipeByRadiation.centerC] at hc
  omega

/-- C10 counterexample: on a grid with `cols = 2` the SwipeByRadiation
column center is `1`, while the claimed `max(0, floor(cols/2) - 1)` is `0`. -/
theorem C10_swipe_center_differs :
    (SwipeByRadiation.centerC 2 : ℤ) ≠ max 0 ((2 : ℤ) / 2 - 1) := by
  decide

end Prolif
